import Mathlib

/-!
# NtspMaker: package and sidecar layout

A shallow embedding of `NtspMaker/Main.cpp`.

Conventions of the embedding.

* A byte is a natural number; a buffer, a string or a pixel range is a `List Nat`.
* The target is the one the source is written for (MSVC, little-endian, 64-bit
  `size_t`).  Every narrowing conversion the source performs
  (`static_cast<uint32_t>`, `static_cast<uint16_t>`, a store into a `uint32_t`,
  `uint16_t` or `uint64_t` field) is an explicit reduction modulo `2 ^ 32`,
  `2 ^ 16` or `2 ^ 64`.  Sums held in `size_t` locals count bytes and objects
  that are resident in the address space; they are kept as natural numbers and
  the theorems that read a 64-bit field back carry the bound `< 2 ^ 64`.
* Whether plain `char` is signed is implementation-defined; `computeNameHash`
  takes it as the parameter `charIsSigned` (`true` for MSVC).
* A store, `memcpy` or `fwrite` that would leave its buffer yields `none`.
* The library calls are parameters: `computePitch`, `encodeDDSHeader`, and for
  `_wfopen` the function `openResult`, which gives the outcome of each call of
  the run by its number.
* `std::ranges::sort` does not fix the order of textures of equal hash.  A
  statement that reads the order is made for every list the sort may leave
  (`SortOutcome`); `sortTextures` is one of them.
-/

namespace NtspMaker

/-! ## Machine integers and little-endian fields -/

/-- Conversion to `uint16_t`. -/
def castU16 (x : Nat) : Nat := x % 2 ^ 16

/-- Conversion to `uint32_t`. -/
def castU32 (x : Nat) : Nat := x % 2 ^ 32

/-- Conversion to `uint64_t`. -/
def castU64 (x : Nat) : Nat := x % 2 ^ 64

/-- The `width` low bytes of `value`, least significant first. -/
def encodeLE : (width : Nat) → (value : Nat) → List Nat
  | 0, _ => []
  | width + 1, value => value % 256 :: encodeLE width (value / 256)

/-- The number whose little-endian bytes are `bytes`. -/
def decodeLE : List Nat → Nat
  | [] => 0
  | b :: bytes => b + 256 * decodeLE bytes

/-! ## Buffers -/

/-- Overwrite `bytes.length` bytes of `buf` from offset `off`; `none` when the
range leaves the buffer. -/
def store (buf : List Nat) (off : Nat) (bytes : List Nat) : Option (List Nat) :=
  if off + bytes.length ≤ buf.length then
    some (buf.take off ++ bytes ++ buf.drop (off + bytes.length))
  else
    none

/-- The `len` bytes of `buf` from offset `off`. -/
def load (buf : List Nat) (off len : Nat) : List Nat :=
  (buf.drop off).take len

/-- Read `count` bytes from the start of the memory range `src`; `none` when the
range is shorter (`memcpy` and `fwrite` read their source this way). -/
def readBytes (src : List Nat) (count : Nat) : Option (List Nat) :=
  if count ≤ src.length then some (src.take count) else none

/-- Assignment to a little-endian field of `width` bytes at offset `off`. -/
def storeField (buf : List Nat) (off width value : Nat) : Option (List Nat) :=
  store buf off (encodeLE width value)

/-- Value of the little-endian field of `width` bytes at offset `off`. -/
def loadField (buf : List Nat) (off width : Nat) : Nat :=
  decodeLE (load buf off width)

/-- `std::string::c_str`: the bytes followed by the terminator. -/
def c_str (s : List Nat) : List Nat := s ++ [0]

/-- The bytes of `buf` from `off` up to, not including, the next zero byte. -/
def readCString (buf : List Nat) (off : Nat) : List Nat :=
  (buf.drop off).takeWhile (fun b => b != 0)

/-! ## `computeNameHash` (Main.cpp 36-45) -/

/-- The operand `c` of `hash * 31 + c`: a `char` holding the byte `b`, promoted
to `int` and converted to `uint32_t`.  With a signed `char` the bytes from
`0x80` up are negative and wrap to `b + 0xFFFFFF00`. -/
def charToU32 (charIsSigned : Bool) (b : Nat) : Nat :=
  if charIsSigned && decide (128 ≤ b) then castU32 (b + (2 ^ 32 - 256)) else castU32 b

/-- The loop `while ((c = *str++) != 0) hash = hash * 31 + c;` over the memory
at `str`. -/
def computeNameHashLoop (charIsSigned : Bool) : List Nat → Nat → Nat
  | [], hash => hash
  | c :: str, hash =>
    if c = 0 then hash
    else computeNameHashLoop charIsSigned str (castU32 (hash * 31 + charToU32 charIsSigned c))

/-- `computeNameHash`. -/
def computeNameHash (charIsSigned : Bool) (str : List Nat) : Nat :=
  computeNameHashLoop charIsSigned str 0 &&& 0x7FFFFFFF

/-- The hash as the specification words it: from 0, `hash := hash * 31 + b`
modulo `2 ^ 32` over the unsigned byte values, the result masked by
`0x7FFFFFFF`. -/
def specNameHash (name : List Nat) : Nat :=
  name.foldl (fun hash b => (hash * 31 + b) % 2 ^ 32) 0 &&& 0x7FFFFFFF

/-- The hash with each byte taken as the platform's `char` value. -/
def charNameHash (charIsSigned : Bool) (name : List Nat) : Nat :=
  name.foldl (fun hash b => (hash * 31 + charToU32 charIsSigned b) % 2 ^ 32) 0 &&& 0x7FFFFFFF

/-! ## Data model -/

/-- The fields of `DirectX::Image` the program reads; `pixels` is the memory
range the `pixels` pointer addresses. -/
structure Image where
  width : Nat
  height : Nat
  slicePitch : Nat
  pixels : List Nat
  deriving DecidableEq

/-- The fields of `DirectX::TexMetadata` the program reads. -/
structure TexMetadata where
  width : Nat
  height : Nat
  format : Nat
  deriving DecidableEq

/-- A `DirectX::ScratchImage`: `GetMetadata()` and the array `GetImages()`,
whose length is `GetImageCount()`. -/
structure ScratchImage where
  metadata : TexMetadata
  images : List Image
  deriving DecidableEq

/-- The local struct `TextureHolder` of `main`. -/
structure TextureHolder where
  filePath : List Nat
  name : List Nat
  hash : Nat
  image : ScratchImage
  deriving DecidableEq

/-- One element of `textureFilePaths` together with what the library calls
return for it: `path.stem().string()` and the outcome of `LoadFromDDSFile`
(`none` when it fails). -/
structure SourceFile where
  path : List Nat
  stem : List Nat
  loaded : Option ScratchImage
  deriving DecidableEq

/-- The loading loop (Main.cpp 94-110): a file that fails to load is skipped. -/
def loadTextures (charIsSigned : Bool) : List SourceFile → List TextureHolder
  | [] => []
  | file :: files =>
    match file.loaded with
    | none => loadTextures charIsSigned files
    | some image =>
      { filePath := file.path
        name := file.stem
        hash := computeNameHash charIsSigned (c_str file.stem)
        image := image } :: loadTextures charIsSigned files

/-- The sort of Main.cpp 115, comparator `a.hash < b.hash`.  The standard leaves
the relative order of elements of equal hash open; this is the insertion sort,
which keeps them in their order of arrival. -/
def sortTextures (textures : List TextureHolder) : List TextureHolder :=
  textures.insertionSort (fun a b => a.hash ≤ b.hash)

/-! ## Package layout (Main.cpp 117-131) -/

def sizeofPackage : Nat := 24

def sizeofEntry : Nat := 24

def sizeofBlob : Nat := 16

def sizeofInfo : Nat := 24

/-- The loop of Main.cpp 120-124 on the pair `(blobCount, namesSize)`. -/
def countLoop : List TextureHolder → Nat × Nat → Nat × Nat
  | [], acc => acc
  | texture :: rest, acc =>
    countLoop rest (acc.1 + texture.image.images.length, acc.2 + (texture.name.length + 1))

/-- The locals of Main.cpp 117-129. -/
structure Layout where
  blobCount : Nat
  namesSize : Nat
  entriesOffset : Nat
  blobsOffset : Nat
  namesOffset : Nat
  headerSize : Nat
  deriving DecidableEq

/-- The layout calculation of Main.cpp 117-129. -/
def computeLayout (textures : List TextureHolder) : Layout :=
  let counts := countLoop textures (0, 0)
  let blobCount := counts.1
  let namesSize := counts.2
  let entriesOffset := sizeofPackage
  let blobsOffset := entriesOffset + sizeofEntry * textures.length
  let namesOffset := blobsOffset + sizeofBlob * blobCount
  let headerSize := namesOffset + namesSize
  { blobCount := blobCount
    namesSize := namesSize
    entriesOffset := entriesOffset
    blobsOffset := blobsOffset
    namesOffset := namesOffset
    headerSize := headerSize }

/-! ## Header construction (Main.cpp 131-173) -/

/-- `memcpy(buf + off, src, count)`. -/
def memcpy (buf : List Nat) (off : Nat) (src : List Nat) (count : Nat) : Option (List Nat) :=
  (readBytes src count).bind (fun bytes => store buf off bytes)

/-- `memset(buf + off, value, count)`. -/
def memset (buf : List Nat) (off value count : Nat) : Option (List Nat) :=
  store buf off (List.replicate count value)

/-- The stores through `package` (Main.cpp 135-139); `'NTSP'` is `0x4E545350`. -/
def writePackageFields (ntsp : List Nat) (entryCount blobCount headerSize : Nat) :
    Option (List Nat) := do
  let ntsp ← storeField ntsp 0 4 0x4E545350
  let ntsp ← storeField ntsp 4 4 1
  let ntsp ← storeField ntsp 8 4 (castU32 entryCount)
  let ntsp ← storeField ntsp 12 4 (castU32 blobCount)
  storeField ntsp 16 8 (castU32 headerSize)

/-- The header buffer and the running locals of the construction loop; the three
pointers are kept as offsets into `ntsp`. -/
structure Cursor where
  ntsp : List Nat
  curEntry : Nat
  curBlob : Nat
  curName : Nat
  namesOffset : Nat
  blobIndex : Nat
  dataOffset : Nat
  deriving DecidableEq

/-- The inner loop over the images of one texture (Main.cpp 157-166). -/
def blobLoop : List Image → Cursor → Option Cursor
  | [], c => some c
  | image :: rest, c => do
    let ntsp ← storeField c.ntsp (c.curBlob + 0) 8 (castU64 c.dataOffset)
    let ntsp ← storeField ntsp (c.curBlob + 8) 8 (castU64 image.slicePitch)
    blobLoop rest
      { c with
        ntsp := ntsp
        curBlob := c.curBlob + sizeofBlob
        blobIndex := castU32 (c.blobIndex + 1)
        dataOffset := c.dataOffset + image.slicePitch }

/-- The construction loop over the textures (Main.cpp 148-173). -/
def textureLoop : List TextureHolder → Cursor → Option Cursor
  | [], c => some c
  | texture :: rest, c => do
    let ntsp ← storeField c.ntsp (c.curEntry + 0) 4 texture.hash
    let ntsp ← storeField ntsp (c.curEntry + 4) 4 c.blobIndex
    let ntsp ← storeField ntsp (c.curEntry + 8) 4 (castU32 texture.image.images.length)
    let ntsp ← storeField ntsp (c.curEntry + 12) 2 (castU16 texture.image.metadata.width)
    let ntsp ← storeField ntsp (c.curEntry + 14) 2 (castU16 texture.image.metadata.height)
    let ntsp ← storeField ntsp (c.curEntry + 16) 8 (castU64 c.namesOffset)
    let c ← blobLoop texture.image.images { c with ntsp := ntsp }
    let ntsp ← memcpy c.ntsp c.curName (c_str texture.name) (texture.name.length + 1)
    textureLoop rest
      { c with
        ntsp := ntsp
        namesOffset := c.namesOffset + (texture.name.length + 1)
        curName := c.curName + (texture.name.length + 1)
        curEntry := c.curEntry + sizeofEntry }

/-- Main.cpp 133-173 on a freshly allocated buffer `ntsp` (the source allocates
`headerSize` zero bytes): the package fields, then the construction loop.
Returns the buffer and the locals as the loop leaves them. -/
def constructHeader (ntsp : List Nat) (textures : List TextureHolder) : Option Cursor := do
  let layout := computeLayout textures
  let ntsp ← writePackageFields ntsp textures.length layout.blobCount layout.headerSize
  textureLoop textures
    { ntsp := ntsp
      curEntry := layout.entriesOffset
      curBlob := layout.blobsOffset
      curName := layout.namesOffset
      namesOffset := layout.namesOffset
      blobIndex := 0
      dataOffset := layout.headerSize }

/-- The header buffer after `constructHeader`. -/
def fillHeader (ntsp : List Nat) (textures : List TextureHolder) : Option (List Nat) :=
  (constructHeader ntsp textures).map (fun c => c.ntsp)

/-- The header buffer of Main.cpp 131-173: `std::vector<uint8_t> ntsp(headerSize)`
filled by `fillHeader`. -/
def buildHeader (textures : List TextureHolder) : Option (List Nat) :=
  fillHeader (List.replicate (computeLayout textures).headerSize 0) textures

/-! ## Package file (Main.cpp 182-191) -/

/-- `fwrite(src, 1, count, file)`: append `count` bytes read at `src`. -/
def fwrite (file : List Nat) (src : List Nat) (count : Nat) : Option (List Nat) :=
  (readBytes src count).map (fun bytes => file ++ bytes)

/-- The inner loop of Main.cpp 186-190. -/
def writeImages : List Image → List Nat → Option (List Nat)
  | [], file => some file
  | image :: rest, file => (fwrite file image.pixels image.slicePitch).bind (writeImages rest)

/-- The loop of Main.cpp 184-191. -/
def writeTextures : List TextureHolder → List Nat → Option (List Nat)
  | [], file => some file
  | texture :: rest, file => (writeImages texture.image.images file).bind (writeTextures rest)

/-- The bytes of the package file for the sorted list `textures`
(Main.cpp 117-191, the file opened successfully). -/
def writePackage (textures : List TextureHolder) : Option (List Nat) := do
  let ntsp ← buildHeader textures
  let file ← fwrite [] ntsp ntsp.length
  writeTextures textures file

/-- The package file `main` writes for the loaded textures: sort, then write. -/
def packageFile (textures : List TextureHolder) : Option (List Nat) :=
  writePackage (sortTextures textures)

/-! ## Thumbnail selection (Main.cpp 199-232) -/

/-- The scan of Main.cpp 203-214 from index `j`: the first image with
`width <= 4 || height <= 4` and its index. -/
def scanLoop : List Image → Nat → Option (Image × Nat)
  | [], _ => none
  | image :: rest, j =>
    if image.width ≤ 4 ∨ image.height ≤ 4 then some (image, j) else scanLoop rest (j + 1)

/-- The loop of Main.cpp 221-226; returns `(width, height, mip4x4Index)`. -/
def halveLoop (width height mip4x4Index : Nat) : Nat × Nat × Nat :=
  if h : width > 4 ∧ height > 4 then
    halveLoop (width >>> 1) (height >>> 1) (mip4x4Index + 1)
  else
    (width, height, mip4x4Index)
termination_by width
decreasing_by
  simp only [Nat.shiftRight_eq_div_pow, pow_one]
  omega

/-- The locals `mip4x4Image`, `mip4x4Size`, `mip4x4Index` after Main.cpp 199-232. -/
structure Thumbnail where
  mip4x4Image : Option Image
  mip4x4Size : Nat
  mip4x4Index : Nat
  deriving DecidableEq

/-- Main.cpp 199-232.  `computePitch format width height` is the `slicePitch`
that `DirectX::ComputePitch` returns. -/
def selectThumbnail (computePitch : Nat → Nat → Nat → Nat) (image : ScratchImage) : Thumbnail :=
  match scanLoop image.images 0 with
  | some (found, j) =>
    { mip4x4Image := some found, mip4x4Size := found.slicePitch, mip4x4Index := j }
  | none =>
    let halved := halveLoop image.metadata.width image.metadata.height 0
    { mip4x4Image := none
      mip4x4Size := computePitch image.metadata.format halved.1 halved.2.1
      mip4x4Index := halved.2.2 }

/-! ## Sidecar (Main.cpp 234-267) -/

/-- What a call of `DirectX::EncodeDDSHeader` does: the bytes it stores from
`pDestination` on and the value it leaves in `required`. -/
structure EncodeResult where
  bytes : List Nat
  required : Nat
  deriving DecidableEq

/-- The sidecar buffer `ntsi` and the final value of `totalSize`. -/
structure Sidecar where
  ntsi : List Nat
  totalSize : Nat
  deriving DecidableEq

/-- Main.cpp 199-261 for one texture.  `encodeDDSHeader metadata maxsize` stands for
the call of `DirectX::EncodeDDSHeader`, which receives `totalSize` both as
`maxsize` and as the reference `required`; `'ISTN'` is `0x4953544E`. -/
def buildSidecar (computePitch : Nat → Nat → Nat → Nat)
    (encodeDDSHeader : TexMetadata → Nat → EncodeResult)
    (stem : List Nat) (texture : TextureHolder) : Option Sidecar := do
  let thumb := selectThumbnail computePitch texture.image
  let nameOffset := sizeofInfo
  let mip4x4Offset := nameOffset + stem.length + 1
  let ddsHeaderOffset := mip4x4Offset + thumb.mip4x4Size
  let totalSize := ddsHeaderOffset + 0x94
  let ntsi := List.replicate totalSize 0
  let ntsi ← storeField ntsi 0 4 0x4953544E
  let ntsi ← storeField ntsi 4 4 1
  let ntsi ← storeField ntsi 8 4 0
  let ntsi ← storeField ntsi 12 4 (castU32 (stem.length + 1))
  let ntsi ← storeField ntsi 16 4 (castU32 thumb.mip4x4Size)
  let ntsi ← storeField ntsi 20 4 (castU32 thumb.mip4x4Index)
  let ntsi ← memcpy ntsi nameOffset (c_str stem) (stem.length + 1)
  let ntsi ←
    match thumb.mip4x4Image with
    | some found => memcpy ntsi mip4x4Offset found.pixels thumb.mip4x4Size
    | none => memset ntsi mip4x4Offset 0 thumb.mip4x4Size
  let encoded := encodeDDSHeader texture.image.metadata totalSize
  let ntsi ← store ntsi ddsHeaderOffset encoded.bytes
  let totalSize := encoded.required
  let totalSize := totalSize + ddsHeaderOffset
  some { ntsi := ntsi, totalSize := totalSize }

/-- The bytes `fwrite(ntsi.data(), 1, totalSize, file)` puts in the sidecar file
(Main.cpp 266). -/
def sidecarFile (computePitch : Nat → Nat → Nat → Nat)
    (encodeDDSHeader : TexMetadata → Nat → EncodeResult)
    (stem : List Nat) (texture : TextureHolder) : Option (List Nat) :=
  (buildSidecar computePitch encodeDDSHeader stem texture).bind
    (fun sidecar => fwrite [] sidecar.ntsi sidecar.totalSize)

/-! ## The header as a sequence of records

The tables the construction loop leaves in the buffer, written out as lists;
`fillHeader_eq` below proves that the stores of `fillHeader` produce them. -/

/-- Number of images of all textures. -/
def totalBlobs (textures : List TextureHolder) : Nat :=
  (textures.map (fun t => t.image.images.length)).sum

/-- Size of the name table: every name with its terminator. -/
def totalNames (textures : List TextureHolder) : Nat :=
  (textures.map (fun t => t.name.length + 1)).sum

/-- Sum of the `slicePitch` of the images. -/
def totalPitch (images : List Image) : Nat :=
  (images.map (fun image => image.slicePitch)).sum

/-- The images of all textures, in texture order, then image order. -/
def allImages (textures : List TextureHolder) : List Image :=
  textures.flatMap (fun t => t.image.images)

/-- Bytes of a `Package` record. -/
def encodePackage (entryCount blobCount headerSize : Nat) : List Nat :=
  encodeLE 4 0x4E545350 ++ (encodeLE 4 1 ++ (encodeLE 4 (castU32 entryCount) ++
    (encodeLE 4 (castU32 blobCount) ++ encodeLE 8 (castU32 headerSize))))

/-- Bytes of the `Entry` record the loop stores for `texture` when the running
blob index is `blobIndex` and the running name offset is `namesOffset`. -/
def encodeEntry (texture : TextureHolder) (blobIndex namesOffset : Nat) : List Nat :=
  encodeLE 4 texture.hash ++ (encodeLE 4 blobIndex ++
    (encodeLE 4 (castU32 texture.image.images.length) ++
    (encodeLE 2 (castU16 texture.image.metadata.width) ++
    (encodeLE 2 (castU16 texture.image.metadata.height) ++
    encodeLE 8 (castU64 namesOffset)))))

/-- Bytes of the `Blob` record the loop stores for `image` at data offset `dataOffset`. -/
def encodeBlob (image : Image) (dataOffset : Nat) : List Nat :=
  encodeLE 8 (castU64 dataOffset) ++ encodeLE 8 (castU64 image.slicePitch)

/-- The entry records of `textures`, the running blob count starting at
`blobsBefore` and the running name offset at `namesOffset`. -/
def entryTable : List TextureHolder → (blobsBefore namesOffset : Nat) → List Nat
  | [], _, _ => []
  | t :: rest, blobsBefore, namesOffset =>
    encodeEntry t (castU32 blobsBefore) namesOffset ++
      entryTable rest (blobsBefore + t.image.images.length) (namesOffset + (t.name.length + 1))

/-- The blob records of `images`, the running data offset starting at `dataOffset`. -/
def blobTable : List Image → (dataOffset : Nat) → List Nat
  | [], _ => []
  | image :: rest, dataOffset =>
    encodeBlob image dataOffset ++ blobTable rest (dataOffset + image.slicePitch)

/-- The names, each with its terminator. -/
def nameTable : List TextureHolder → List Nat
  | [] => []
  | t :: rest => c_str t.name ++ nameTable rest

/-- The header in full. -/
def headerBytes (textures : List TextureHolder) : List Nat :=
  let layout := computeLayout textures
  encodePackage textures.length layout.blobCount layout.headerSize ++
    (entryTable textures 0 layout.namesOffset ++
    (blobTable (allImages textures) layout.headerSize ++ nameTable textures))

/-- The data section: for every image the `slicePitch` bytes at `pixels`. -/
def dataBytes : List Image → List Nat
  | [] => []
  | image :: rest => image.pixels.take image.slicePitch ++ dataBytes rest

/-! ## Reading the package

The fields a reader of the file finds at the offsets of the record layouts of
Main.cpp 1-24; the tables are located as the construction loop locates them. -/

/-- Field `entryCount` of the `Package` record. -/
def packageEntryCount (file : List Nat) : Nat := loadField file 8 4

/-- Field `blobCount` of the `Package` record. -/
def packageBlobCount (file : List Nat) : Nat := loadField file 12 4

/-- Field `headerSize` of the `Package` record. -/
def packageHeaderSize (file : List Nat) : Nat := loadField file 16 8

/-- Field `nameHash` of entry `k`. -/
def entryNameHash (file : List Nat) (k : Nat) : Nat :=
  loadField file (sizeofPackage + sizeofEntry * k + 0) 4

/-- Field `blobIndex` of entry `k`. -/
def entryBlobIndex (file : List Nat) (k : Nat) : Nat :=
  loadField file (sizeofPackage + sizeofEntry * k + 4) 4

/-- Field `blobCount` of entry `k`. -/
def entryBlobCount (file : List Nat) (k : Nat) : Nat :=
  loadField file (sizeofPackage + sizeofEntry * k + 8) 4

/-- Field `width` of entry `k`. -/
def entryWidth (file : List Nat) (k : Nat) : Nat :=
  loadField file (sizeofPackage + sizeofEntry * k + 12) 2

/-- Field `height` of entry `k`. -/
def entryHeight (file : List Nat) (k : Nat) : Nat :=
  loadField file (sizeofPackage + sizeofEntry * k + 14) 2

/-- Field `nameOffset` of entry `k`. -/
def entryNameOffset (file : List Nat) (k : Nat) : Nat :=
  loadField file (sizeofPackage + sizeofEntry * k + 16) 8

/-- Field `dataOffset` of blob `i` in a package of `entryCount` entries. -/
def blobDataOffset (file : List Nat) (entryCount i : Nat) : Nat :=
  loadField file (sizeofPackage + sizeofEntry * entryCount + sizeofBlob * i + 0) 8

/-- Field `dataSize` of blob `i` in a package of `entryCount` entries. -/
def blobDataSize (file : List Nat) (entryCount i : Nat) : Nat :=
  loadField file (sizeofPackage + sizeofEntry * entryCount + sizeofBlob * i + 8) 8

/-- Every `fwrite` of pixel data reads inside the range its pointer addresses. -/
def PixelsReadable (images : List Image) : Prop :=
  ∀ image ∈ images, image.slicePitch ≤ image.pixels.length

instance (images : List Image) : Decidable (PixelsReadable images) := by
  unfold PixelsReadable
  infer_instance

/-- The pixel range of every image of every texture holds at least `slicePitch`
bytes, so that the reads of `fwrite` and `memcpy` stay inside it. -/
def PixelsInRange (textures : List TextureHolder) : Prop :=
  ∀ t ∈ textures, ∀ image ∈ t.image.images, image.slicePitch ≤ image.pixels.length

instance (textures : List TextureHolder) : Decidable (PixelsInRange textures) := by
  unfold PixelsInRange
  infer_instance

/-- A result the sort of Main.cpp 115 may leave for `textures`: the same holders
in non-decreasing order of hash.  The order among holders of equal hash is not
fixed by the standard; `sortTextures` yields one such result. -/
def SortOutcome (textures sorted : List TextureHolder) : Prop :=
  sorted.Perm textures ∧ sorted.Pairwise (fun a b => a.hash ≤ b.hash)

/-- Size of the package file: the header and the pixel data of every image. -/
def packageSize (textures : List TextureHolder) : Nat :=
  (computeLayout textures).headerSize + totalPitch (allImages textures)

/-! ## The sidecar as a sequence of records -/

/-- Bytes of the `Info` record. -/
def encodeInfo (packageNameSize mip4x4Size mip4x4Index : Nat) : List Nat :=
  encodeLE 4 0x4953544E ++ (encodeLE 4 1 ++ (encodeLE 4 0 ++
    (encodeLE 4 (castU32 packageNameSize) ++ (encodeLE 4 (castU32 mip4x4Size) ++
    encodeLE 4 (castU32 mip4x4Index)))))

/-- The thumbnail bytes: the `mip4x4Size` bytes at the pixels of the selected
image, or that many zero bytes when none was selected. -/
def thumbnailBytes (thumb : Thumbnail) : List Nat :=
  match thumb.mip4x4Image with
  | some found => found.pixels.take thumb.mip4x4Size
  | none => List.replicate thumb.mip4x4Size 0

/-- The test of the scan, `image.width <= 4 || image.height <= 4`. -/
def isSmall (image : Image) : Prop := image.width ≤ 4 ∨ image.height ≤ 4

instance (image : Image) : Decidable (isSmall image) := by
  unfold isSmall
  infer_instance

/-! ## Reading the sidecar

The fields of the `Info` record (Main.cpp 26-34) at the start of a sidecar. -/

/-- Field `signature` of the `Info` record. -/
def infoSignature (ntsi : List Nat) : Nat := loadField ntsi 0 4

/-- Field `version` of the `Info` record. -/
def infoVersion (ntsi : List Nat) : Nat := loadField ntsi 4 4

/-- Field `reserved` of the `Info` record. -/
def infoReserved (ntsi : List Nat) : Nat := loadField ntsi 8 4

/-- Field `packageNameSize` of the `Info` record. -/
def infoPackageNameSize (ntsi : List Nat) : Nat := loadField ntsi 12 4

/-- Field `mip4x4Size` of the `Info` record. -/
def infoMip4x4Size (ntsi : List Nat) : Nat := loadField ntsi 16 4

/-- Field `mip4x4Index` of the `Info` record. -/
def infoMip4x4Index (ntsi : List Nat) : Nat := loadField ntsi 20 4

/-! ## The run (Main.cpp 81-275) -/

/-- What a run leaves behind: the value `main` returns, the paths passed to
`_wfopen` in call order, the bytes written to the package file (`none` when it
was not opened) and, for each texture in sorted order, the bytes written to its
sidecar file (`none` when that file was not opened). -/
structure RunResult where
  exitCode : Int
  attempts : List (List Nat)
  package : Option (List Nat)
  sidecars : List (Option (List Nat))
  deriving DecidableEq

/-- The sidecar loop (Main.cpp 197-273).  `openResult n` tells whether the call
number `n` of `_wfopen` in the run succeeds; the sidecar buffer is built before
the file is opened, and a failed open only skips the `fwrite`. -/
def sidecarLoop (computePitch : Nat → Nat → Nat → Nat)
    (encodeDDSHeader : TexMetadata → Nat → EncodeResult) (stem : List Nat)
    (openResult : Nat → Bool) : List TextureHolder → Nat → Option (List (Option (List Nat)))
  | [], _ => some []
  | texture :: rest, attempt => do
    let sidecar ← buildSidecar computePitch encodeDDSHeader stem texture
    let written ←
      if openResult attempt then (fwrite [] sidecar.ntsi sidecar.totalSize).map some
      else some none
    let others ← sidecarLoop computePitch encodeDDSHeader stem openResult rest (attempt + 1)
    some (written :: others)

/-- Main.cpp 117-275 on the sorted vector `textures`: the header is built, the
package file is opened (call 0 of `_wfopen`) and written, then the sidecar loop
runs (calls 1, 2, ...).  `stem` is `ntspFilePath.stem().string()`. -/
def runSorted (computePitch : Nat → Nat → Nat → Nat)
    (encodeDDSHeader : TexMetadata → Nat → EncodeResult) (ntspFilePath stem : List Nat)
    (openResult : Nat → Bool) (textures : List TextureHolder) : Option RunResult := do
  let ntsp ← buildHeader textures
  if openResult 0 then
    let file ← fwrite [] ntsp ntsp.length
    let file ← writeTextures textures file
    let sidecars ← sidecarLoop computePitch encodeDDSHeader stem openResult textures 1
    some
      { exitCode := 0
        attempts := ntspFilePath :: textures.map (fun t => t.filePath)
        package := some file
        sidecars := sidecars }
  else
    some { exitCode := -1, attempts := [ntspFilePath], package := none, sidecars := [] }

/-- Main.cpp 81-275: the two early returns, the loading loop, the sort and the
rest of the run, with `sortTextures` as the order the sort leaves. -/
def run (charIsSigned : Bool) (computePitch : Nat → Nat → Nat → Nat)
    (encodeDDSHeader : TexMetadata → Nat → EncodeResult)
    (textureFilePaths : List SourceFile) (ntspFilePath stem : List Nat)
    (openResult : Nat → Bool) : Option RunResult :=
  if textureFilePaths.isEmpty || ntspFilePath.isEmpty then
    some { exitCode := -1, attempts := [], package := none, sidecars := [] }
  else
    let textures := loadTextures charIsSigned textureFilePaths
    if textures.isEmpty then
      some { exitCode := -1, attempts := [], package := none, sidecars := [] }
    else
      runSorted computePitch encodeDDSHeader ntspFilePath stem openResult
        (sortTextures textures)

/-- Main.cpp 81-275 with the vector the sort of line 115 leaves given as
`sorted`: the two early returns, the loading loop, and the rest of the run on
`sorted`.  The run of the program is `runWith` at one `sorted` with
`SortOutcome textures sorted`, where `textures` are the loaded textures. -/
def runWith (charIsSigned : Bool) (computePitch : Nat → Nat → Nat → Nat)
    (encodeDDSHeader : TexMetadata → Nat → EncodeResult)
    (textureFilePaths : List SourceFile) (ntspFilePath stem : List Nat)
    (openResult : Nat → Bool) (sorted : List TextureHolder) : Option RunResult :=
  if textureFilePaths.isEmpty || ntspFilePath.isEmpty then
    some { exitCode := -1, attempts := [], package := none, sidecars := [] }
  else
    let textures := loadTextures charIsSigned textureFilePaths
    if textures.isEmpty then
      some { exitCode := -1, attempts := [], package := none, sidecars := [] }
    else
      runSorted computePitch encodeDDSHeader ntspFilePath stem openResult sorted

/-! ## The standard chain -/

/-- The index the two branches of the selector are compared with: the least `k`
with `W >> k <= 4` or `H >> k <= 4`. -/
def IsLeastHalving (W H k : Nat) : Prop :=
  (W >>> k ≤ 4 ∨ H >>> k ≤ 4) ∧ ∀ k2 : Nat, k2 < k → ¬ (W >>> k2 ≤ 4 ∨ H >>> k2 ≤ 4)

instance (W H k : Nat) : Decidable (IsLeastHalving W H k) := by
  unfold IsLeastHalving
  infer_instance

/-- The images are a non-empty prefix of the standard chain of the base
dimensions: the image at index `i` is `max 1 (W >> i)` by `max 1 (H >> i)`. -/
def IsStandardChain (image : ScratchImage) : Prop :=
  image.images ≠ [] ∧
    ∀ p ∈ image.images.enum,
      p.2.width = max 1 (image.metadata.width >>> p.1) ∧
      p.2.height = max 1 (image.metadata.height >>> p.1)

instance (image : ScratchImage) : Decidable (IsStandardChain image) := by
  unfold IsStandardChain
  infer_instance

/-! ## Sample inputs -/

/-- A 1x1 image of one byte. -/
def unitImage : Image :=
  { width := 1, height := 1, slicePitch := 1, pixels := [0] }

/-- A texture named `A` whose image array holds `count` images of 1x1. -/
def arrayTexture (count : Nat) : TextureHolder :=
  { filePath := [97]
    name := [65]
    hash := 65
    image :=
      { metadata := { width := 1, height := 1, format := 61 }
        images := List.replicate count unitImage } }

/-- A texture named `B` with a single 2x1 image of two bytes. -/
def pairTexture : TextureHolder :=
  { filePath := [98]
    name := [66]
    hash := 66
    image :=
      { metadata := { width := 2, height := 1, format := 61 }
        images := [{ width := 2, height := 1, slicePitch := 2, pixels := [7, 9] }] } }

/-- A square image of side `n` with one byte per pixel, every byte `fill`. -/
def squareImage (n fill : Nat) : Image :=
  { width := n, height := n, slicePitch := n * n, pixels := List.replicate (n * n) fill }

/-- A texture named `AB` of 8x8 with the levels 8x8 and 4x4. -/
def smallTexture : TextureHolder :=
  { filePath := [99]
    name := [65, 66]
    hash := 2081
    image :=
      { metadata := { width := 8, height := 8, format := 61 }
        images := [squareImage 8 3, squareImage 4 5] } }

/-- The files `Aa.dds` and `BB.dds`, each loading as a 1x1 texture. -/
def collidingFiles : List SourceFile :=
  [ { path := [65, 97, 46, 100, 100, 115]
      stem := [65, 97]
      loaded := some { metadata := { width := 1, height := 1, format := 61 }
                       images := [unitImage] } },
    { path := [66, 66, 46, 100, 100, 115]
      stem := [66, 66]
      loaded := some { metadata := { width := 1, height := 1, format := 61 }
                       images := [unitImage] } } ]

/-- The square chain 256, 128, 64, 32, 16, 8, 4, 2, 1 of a 256x256 texture. -/
def fullChain : ScratchImage :=
  { metadata := { width := 256, height := 256, format := 61 }
    images := [squareImage 256 1, squareImage 128 2, squareImage 64 3, squareImage 32 4,
      squareImage 16 5, squareImage 8 6, squareImage 4 7, squareImage 2 8, squareImage 1 9] }

/-- The square chain 64, 32, 16 of a 64x64 texture of pixel format `format`. -/
def shortChain (format : Nat) : ScratchImage :=
  { metadata := { width := 64, height := 64, format := format }
    images := [squareImage 64 1, squareImage 32 2, squareImage 16 3] }

/-- A texture named `C` holding the chain 64, 32, 16. -/
def truncatedTexture : TextureHolder :=
  { filePath := [100], name := [67], hash := 67, image := shortChain 61 }

/-- A pitch function for one byte per pixel. -/
def bytePitch (_format width height : Nat) : Nat := width * height

/-- An encoder that stores `0x94` bytes of value 1 and reports `0x94`. -/
def fullEncoder (_metadata : TexMetadata) (_maxsize : Nat) : EncodeResult :=
  { bytes := List.replicate 0x94 1, required := 0x94 }


/-- An image of width 4 whose pixel range holds `size` bytes. -/
def stripImage (size : Nat) : Image :=
  { width := 4, height := size / 4, slicePitch := size, pixels := List.replicate size 0 }

/-- A texture named `D` with the single image `stripImage size`. -/
def stripTexture (size : Nat) : TextureHolder :=
  { filePath := [101]
    name := [68]
    hash := 68
    image :=
      { metadata := { width := 4, height := size / 4, format := 61 }
        images := [stripImage size] } }

/-- An encoder that stores the `0x80` bytes of a header without the extension
block and reports `0x80`. -/
def legacyEncoder (_metadata : TexMetadata) (_maxsize : Nat) : EncodeResult :=
  { bytes := List.replicate 0x80 1, required := 0x80 }

/-- The sidecar loop never reads outside a pixel range and the encoder stays
within the `0x94` bytes reserved for it, in what it stores and in the size it
reports. -/
def SidecarsDefined (encodeDDSHeader : TexMetadata → Nat → EncodeResult)
    (textures : List TextureHolder) : Prop :=
  ∀ t ∈ textures,
    (∀ level ∈ t.image.images, level.slicePitch ≤ level.pixels.length) ∧
    (∀ maxsize, (encodeDDSHeader t.image.metadata maxsize).bytes.length ≤ 0x94) ∧
    (∀ maxsize, (encodeDDSHeader t.image.metadata maxsize).required ≤ 0x94)

/-- The files `AB.dds` and `B.dds`, loading as the textures `AB` and `B`, and a
file `C.dds` that fails to load. -/
def sampleFiles : List SourceFile :=
  [ { path := [99], stem := [65, 66], loaded := some smallTexture.image },
    { path := [102], stem := [67], loaded := none },
    { path := [98], stem := [66], loaded := some pairTexture.image } ]

/-- A run in which the package file opens and the first sidecar file does not. -/
def firstSidecarFails (attempt : Nat) : Bool := attempt != 1

/-- A run in which no file opens. -/
def nothingOpens (_attempt : Nat) : Bool := false

/-- A single file `C.dds` that fails to load. -/
def unloadableFiles : List SourceFile :=
  [ { path := [102], stem := [67], loaded := none } ]

end NtspMaker

namespace NtspMaker

/-! ## Buffer lemmas -/

theorem encodeLE_length (width value : Nat) : (encodeLE width value).length = width := by
  induction width generalizing value with
  | zero => rfl
  | succ n ih => simp [encodeLE, ih]

theorem decodeLE_encodeLE (width value : Nat) :
    decodeLE (encodeLE width value) = value % 256 ^ width := by
  induction width generalizing value with
  | zero => simp [encodeLE, decodeLE, Nat.mod_one]
  | succ n ih =>
    simp only [encodeLE, decodeLE, ih]
    rw [pow_succ, Nat.mul_comm (256 ^ n) 256, Nat.mod_mul]

theorem store_length {buf bytes out : List Nat} {off : Nat}
    (h : store buf off bytes = some out) : out.length = buf.length := by
  unfold store at h
  split at h
  · cases h
    simp
    omega
  · cases h

theorem store_at (A X B Y : List Nat) (off : Nat) (hlen : X.length = Y.length)
    (hoff : off = A.length) : store (A ++ X ++ B) off Y = some (A ++ Y ++ B) := by
  subst hoff
  unfold store
  rw [if_pos (by simp; omega)]
  congr 1
  rw [List.append_assoc A X B, List.take_left, ← hlen, ← List.append_assoc,
    ← List.length_append, List.drop_left]

theorem store_append (buf : List Nat) (off : Nat) (x y : List Nat) :
    store buf off (x ++ y) = (store buf off x).bind (fun b => store b (off + x.length) y) := by
  by_cases h : off + (x.length + y.length) ≤ buf.length
  · have hx : off + x.length ≤ buf.length := by omega
    have e1 : store buf off x = some (buf.take off ++ x ++ buf.drop (off + x.length)) := by
      unfold store; rw [if_pos hx]
    rw [e1, Option.some_bind]
    have hA : (buf.take off ++ x).length = off + x.length := by
      simp [List.length_take]; omega
    have e2 := store_at (buf.take off ++ x) ((buf.drop (off + x.length)).take y.length)
      ((buf.drop (off + x.length)).drop y.length) y (off + x.length)
      (by simp [List.length_take]; omega) hA.symm
    rw [List.append_assoc (buf.take off ++ x), List.take_append_drop] at e2
    rw [e2]
    unfold store
    rw [if_pos (by simp; omega)]
    simp [List.drop_drop, Nat.add_assoc, Nat.add_comm]
  · have e0 : store buf off (x ++ y) = none := by
      unfold store; rw [if_neg (by simp; omega)]
    rw [e0]
    cases e1 : store buf off x with
    | none => rfl
    | some b =>
      have hb := store_length e1
      rw [Option.some_bind]
      unfold store
      rw [if_neg (by omega)]

theorem load_load (buf : List Nat) (off len o l : Nat) (h : o + l ≤ len) :
    load (load buf off len) o l = load buf (off + o) l := by
  unfold load
  rw [List.drop_take, List.take_take, List.drop_drop, Nat.min_eq_left (by omega), Nat.add_comm]


theorem store_at_right (A X B Y : List Nat) (off : Nat) (hlen : X.length = Y.length)
    (hoff : off = A.length) : store (A ++ (X ++ B)) off Y = some (A ++ (Y ++ B)) := by
  have h := store_at A X B Y off hlen hoff
  simpa only [List.append_assoc] using h

theorem storeBlob_eq (buf : List Nat) (off : Nat) (image : Image) (dataOffset : Nat)
    (f : List Nat → Option Cursor) :
    (storeField buf (off + 0) 8 (castU64 dataOffset)).bind
      (fun b => (storeField b (off + 8) 8 (castU64 image.slicePitch)).bind f)
    = (store buf off (encodeBlob image dataOffset)).bind f := by
  unfold encodeBlob storeField
  rw [store_append, Option.bind_assoc]
  simp only [encodeLE_length, Nat.add_zero]

theorem storeEntry_eq (buf : List Nat) (off : Nat) (t : TextureHolder) (blobIndex namesOffset : Nat)
    (f : List Nat → Option Cursor) :
    (storeField buf (off + 0) 4 t.hash).bind (fun b =>
      (storeField b (off + 4) 4 blobIndex).bind (fun b =>
      (storeField b (off + 8) 4 (castU32 t.image.images.length)).bind (fun b =>
      (storeField b (off + 12) 2 (castU16 t.image.metadata.width)).bind (fun b =>
      (storeField b (off + 14) 2 (castU16 t.image.metadata.height)).bind (fun b =>
      (storeField b (off + 16) 8 (castU64 namesOffset)).bind f)))))
    = (store buf off (encodeEntry t blobIndex namesOffset)).bind f := by
  unfold encodeEntry storeField
  simp only [store_append, Option.bind_assoc, encodeLE_length, Nat.add_zero, Nat.add_assoc,
    Nat.reduceAdd]

theorem storePackage_eq (buf : List Nat) (entryCount blobCount headerSize : Nat) :
    writePackageFields buf entryCount blobCount headerSize
      = store buf 0 (encodePackage entryCount blobCount headerSize) := by
  unfold encodePackage writePackageFields storeField
  simp only [store_append, Option.bind_assoc, encodeLE_length, Nat.zero_add, Nat.add_assoc,
    Nat.reduceAdd, Option.bind_eq_bind]


theorem encodeBlob_length (image : Image) (d : Nat) : (encodeBlob image d).length = 16 := by
  simp [encodeBlob, encodeLE_length]

theorem encodeEntry_length (t : TextureHolder) (bi no : Nat) :
    (encodeEntry t bi no).length = 24 := by
  simp [encodeEntry, encodeLE_length]

theorem encodePackage_length (n b h : Nat) : (encodePackage n b h).length = 24 := by
  simp [encodePackage, encodeLE_length]

theorem blobTable_length (images : List Image) (d : Nat) :
    (blobTable images d).length = 16 * images.length := by
  induction images generalizing d with
  | nil => rfl
  | cons image rest ih => simp [blobTable, ih, encodeBlob_length]; omega

theorem entryTable_length (ts : List TextureHolder) (bi no : Nat) :
    (entryTable ts bi no).length = 24 * ts.length := by
  induction ts generalizing bi no with
  | nil => rfl
  | cons t rest ih => simp [entryTable, ih, encodeEntry_length]; omega

theorem nameTable_length (ts : List TextureHolder) : (nameTable ts).length = totalNames ts := by
  induction ts with
  | nil => rfl
  | cons t rest ih => simp [nameTable, totalNames, c_str] at *; omega

theorem blobTable_append (xs ys : List Image) (d : Nat) :
    blobTable (xs ++ ys) d = blobTable xs d ++ blobTable ys (d + totalPitch xs) := by
  induction xs generalizing d with
  | nil => simp [blobTable, totalPitch]
  | cons x rest ih =>
    have e := ih (d + x.slicePitch)
    simp only [totalPitch] at e
    simp [blobTable, e, totalPitch, Nat.add_assoc]

theorem exists_split (X : List Nat) (n m : Nat) (h : X.length = n + m) :
    ∃ X1 X2, X = X1 ++ X2 ∧ X1.length = n ∧ X2.length = m :=
  ⟨X.take n, X.drop n, (List.take_append_drop n X).symm, by rw [List.length_take]; omega,
    by rw [List.length_drop]; omega⟩

theorem castU32_succ (bi : Nat) : castU32 (castU32 bi + 1) = castU32 (bi + 1) := by
  unfold castU32; omega

/-- The inner loop stores the blob records of `images` over the region `X` at
`curBlob` and touches nothing else. -/
theorem blobLoop_spec (images : List Image) :
    ∀ (A X B : List Nat) (c : Cursor) (bi : Nat),
      c.ntsp = A ++ (X ++ B) → X.length = 16 * images.length → c.curBlob = A.length →
      c.blobIndex = castU32 bi →
      blobLoop images c = some
        { ntsp := A ++ (blobTable images c.dataOffset ++ B)
          curEntry := c.curEntry
          curBlob := c.curBlob + 16 * images.length
          curName := c.curName
          namesOffset := c.namesOffset
          blobIndex := castU32 (bi + images.length)
          dataOffset := c.dataOffset + totalPitch images } := by
  induction images with
  | nil =>
    intro A X B c bi hbuf hlen hcur hbi
    have hX : X = [] := List.length_eq_zero.mp (by simpa using hlen)
    subst hX
    cases c
    simp_all [blobLoop, blobTable, totalPitch]
  | cons image rest ih =>
    intro A X B c bi hbuf hlen hcur hbi
    obtain ⟨X1, X2, rfl, hl1, hl2⟩ := exists_split X 16 (16 * rest.length)
      (by simp at hlen; omega)
    have hst : store c.ntsp c.curBlob (encodeBlob image c.dataOffset)
        = some (A ++ (encodeBlob image c.dataOffset ++ (X2 ++ B))) := by
      rw [hbuf, List.append_assoc]
      exact store_at_right A _ _ _ _ (by simp [hl1, encodeBlob_length]) hcur
    simp only [blobLoop, Option.bind_eq_bind]
    rw [storeBlob_eq, hst, Option.some_bind]
    have key := ih (A ++ encodeBlob image c.dataOffset) X2 B
      { c with
        ntsp := A ++ (encodeBlob image c.dataOffset ++ (X2 ++ B))
        curBlob := c.curBlob + sizeofBlob
        blobIndex := castU32 (c.blobIndex + 1)
        dataOffset := c.dataOffset + image.slicePitch } (bi + 1)
      (by simp only [List.append_assoc]) hl2
      (by simp [encodeBlob_length, sizeofBlob, hcur])
      (by simp only [hbi, castU32_succ])
    rw [key]
    simp only [blobTable, totalPitch, List.map_cons, List.sum_cons, List.length_cons,
      List.append_assoc, sizeofBlob, Option.some.injEq, Cursor.mk.injEq, true_and, and_true]
    refine ⟨by omega, ?_, by omega⟩
    congr 1; omega


theorem readBytes_c_str (s : List Nat) : readBytes (c_str s) (s.length + 1) = some (c_str s) := by
  unfold readBytes
  rw [if_pos (by simp [c_str])]
  congr 1
  exact List.take_of_length_le (by simp [c_str])

theorem c_str_length (s : List Nat) : (c_str s).length = s.length + 1 := by
  simp [c_str]

/-- The construction loop stores the entry records over the region `E` at
`curEntry`, the blob records over `Bt` at `curBlob` and the names over `N` at
`curName`; the rest of the buffer is untouched. -/
theorem textureLoop_spec (ts : List TextureHolder) :
    ∀ (P E M1 Bt M2 N R : List Nat) (c : Cursor) (bi : Nat),
      c.ntsp = P ++ (E ++ (M1 ++ (Bt ++ (M2 ++ (N ++ R))))) →
      E.length = 24 * ts.length → Bt.length = 16 * totalBlobs ts →
      N.length = totalNames ts →
      c.curEntry = P.length → c.curBlob = P.length + E.length + M1.length →
      c.curName = P.length + E.length + M1.length + Bt.length + M2.length →
      c.blobIndex = castU32 bi →
      textureLoop ts c = some
        { ntsp := P ++ (entryTable ts bi c.namesOffset ++ (M1 ++
            (blobTable (allImages ts) c.dataOffset ++ (M2 ++ (nameTable ts ++ R)))))
          curEntry := c.curEntry + 24 * ts.length
          curBlob := c.curBlob + 16 * totalBlobs ts
          curName := c.curName + totalNames ts
          namesOffset := c.namesOffset + totalNames ts
          blobIndex := castU32 (bi + totalBlobs ts)
          dataOffset := c.dataOffset + totalPitch (allImages ts) } := by
  induction ts with
  | nil =>
    intro P E M1 Bt M2 N R c bi hbuf hE hB hN _ _ _ hbi
    have e1 : E = [] := List.length_eq_zero.mp (by simpa using hE)
    have e2 : Bt = [] := List.length_eq_zero.mp (by simpa [totalBlobs] using hB)
    have e3 : N = [] := List.length_eq_zero.mp (by simpa [totalNames] using hN)
    subst e1 e2 e3
    cases c
    simp_all [textureLoop, entryTable, blobTable, nameTable, allImages, totalBlobs, totalNames,
      totalPitch]
  | cons t rest ih =>
    intro P E M1 Bt M2 N R c bi hbuf hE hB hN hce hcb hcn hbi
    obtain ⟨E1, E2, rfl, hE1, hE2⟩ := exists_split E 24 (24 * rest.length)
      (by simp at hE; omega)
    obtain ⟨B1, B2, rfl, hB1, hB2⟩ := exists_split Bt (16 * t.image.images.length)
      (16 * totalBlobs rest) (by simp [totalBlobs] at hB ⊢; omega)
    obtain ⟨N1, N2, rfl, hN1, hN2⟩ := exists_split N (t.name.length + 1) (totalNames rest)
      (by simp [totalNames] at hN ⊢; omega)
    have hst : store c.ntsp c.curEntry (encodeEntry t c.blobIndex c.namesOffset)
        = some (P ++ (encodeEntry t c.blobIndex c.namesOffset ++
            (E2 ++ (M1 ++ (B1 ++ (B2 ++ (M2 ++ (N1 ++ (N2 ++ R))))))))) := by
      rw [hbuf]
      simp only [List.append_assoc]
      exact store_at_right P _ _ _ _ (by simp [hE1, encodeEntry_length]) hce
    simp only [textureLoop, Option.bind_eq_bind]
    rw [storeEntry_eq, hst, Option.some_bind]
    have hblob := blobLoop_spec t.image.images
      (P ++ (encodeEntry t c.blobIndex c.namesOffset ++ (E2 ++ M1))) B1
      (B2 ++ (M2 ++ (N1 ++ (N2 ++ R))))
      { c with ntsp := P ++ (encodeEntry t c.blobIndex c.namesOffset ++
            (E2 ++ (M1 ++ (B1 ++ (B2 ++ (M2 ++ (N1 ++ (N2 ++ R)))))))) } bi
      (by simp only [List.append_assoc]) hB1
      (by simp [hcb, encodeEntry_length, hE1]; omega) hbi
    rw [hblob, Option.some_bind]
    simp only [memcpy, readBytes_c_str, Option.some_bind]
    have hname := store_at_right
      (P ++ (encodeEntry t c.blobIndex c.namesOffset ++ (E2 ++ (M1 ++
        (blobTable t.image.images c.dataOffset ++ (B2 ++ M2)))))) N1 (N2 ++ R) (c_str t.name)
      c.curName (by simp [hN1, c_str_length])
      (by simp [hcn, encodeEntry_length, hE1, hE2, hB1, hB2, blobTable_length]; omega)
    simp only [List.append_assoc] at hname ⊢
    rw [hname, Option.some_bind]
    have key := ih (P ++ encodeEntry t c.blobIndex c.namesOffset) E2
      (M1 ++ blobTable t.image.images c.dataOffset) B2 (M2 ++ c_str t.name) N2 R
      { ntsp := P ++ (encodeEntry t c.blobIndex c.namesOffset ++ (E2 ++ (M1 ++
          (blobTable t.image.images c.dataOffset ++ (B2 ++ (M2 ++ (c_str t.name ++ (N2 ++ R))))))))
        curEntry := c.curEntry + sizeofEntry
        curBlob := c.curBlob + 16 * t.image.images.length
        curName := c.curName + (t.name.length + 1)
        namesOffset := c.namesOffset + (t.name.length + 1)
        blobIndex := castU32 (bi + t.image.images.length)
        dataOffset := c.dataOffset + totalPitch t.image.images }
      (bi + t.image.images.length)
      (by simp only [List.append_assoc]) hE2 hB2 hN2
      (by simp [hce, encodeEntry_length, sizeofEntry])
      (by simp [hcb, encodeEntry_length, hE1, hE2, blobTable_length]; omega)
      (by simp [hcn, encodeEntry_length, hE1, hE2, hB1, hB2, blobTable_length, c_str_length]
          omega)
      rfl
    rw [key]
    simp only [entryTable, allImages, List.flatMap_cons, blobTable_append, nameTable, totalBlobs,
      totalNames, totalPitch, List.map_cons, List.sum_cons, List.length_cons, List.map_append,
      List.sum_append, List.append_assoc, sizeofEntry, hbi, Option.some.injEq, Cursor.mk.injEq,
      true_and, and_true]
    refine ⟨by omega, by omega, by omega, by omega, ?_, by omega⟩
    congr 1; omega


/-! ## The layout calculation and the whole header -/

theorem countLoop_eq (ts : List TextureHolder) (acc : Nat × Nat) :
    countLoop ts acc = (acc.1 + totalBlobs ts, acc.2 + totalNames ts) := by
  induction ts generalizing acc with
  | nil => simp [countLoop, totalBlobs, totalNames]
  | cons t rest ih =>
    simp only [countLoop, ih, totalBlobs, totalNames, List.map_cons, List.sum_cons, Nat.add_assoc]

theorem computeLayout_eq (ts : List TextureHolder) :
    computeLayout ts =
      { blobCount := totalBlobs ts
        namesSize := totalNames ts
        entriesOffset := 24
        blobsOffset := 24 + 24 * ts.length
        namesOffset := 24 + 24 * ts.length + 16 * totalBlobs ts
        headerSize := 24 + 24 * ts.length + 16 * totalBlobs ts + totalNames ts } := by
  simp [computeLayout, countLoop_eq, sizeofPackage, sizeofEntry, sizeofBlob]

theorem headerBytes_length (ts : List TextureHolder) :
    (headerBytes ts).length = (computeLayout ts).headerSize := by
  simp only [headerBytes, List.length_append, encodePackage_length, entryTable_length,
    blobTable_length, nameTable_length, computeLayout_eq]
  have : (allImages ts).length = totalBlobs ts := by
    simp [allImages, totalBlobs, List.length_flatMap, Function.comp_def]
  omega

theorem allImages_length (ts : List TextureHolder) : (allImages ts).length = totalBlobs ts := by
  simp [allImages, totalBlobs, List.length_flatMap, Function.comp_def]

/-- Whatever the allocated buffer of `headerSize` bytes holds, the stores of
`constructHeader` all land inside it and leave exactly `headerBytes`; the
three cursors end at the ends of their tables. -/
theorem constructHeader_eq (ntsp : List Nat) (ts : List TextureHolder)
    (hlen : ntsp.length = (computeLayout ts).headerSize) :
    constructHeader ntsp ts = some
      { ntsp := headerBytes ts
        curEntry := 24 + 24 * ts.length
        curBlob := 24 + 24 * ts.length + 16 * totalBlobs ts
        curName := (computeLayout ts).headerSize
        namesOffset := (computeLayout ts).headerSize
        blobIndex := castU32 (totalBlobs ts)
        dataOffset := packageSize ts } := by
  rw [computeLayout_eq] at hlen
  simp only at hlen
  obtain ⟨X0, Y0, rfl, hX0, hY0⟩ := exists_split ntsp 24
    (24 * ts.length + 16 * totalBlobs ts + totalNames ts) (by omega)
  obtain ⟨E, Y1, rfl, hE, hY1⟩ := exists_split Y0 (24 * ts.length)
    (16 * totalBlobs ts + totalNames ts) (by omega)
  obtain ⟨Bt, N, rfl, hB, hN⟩ := exists_split Y1 (16 * totalBlobs ts) (totalNames ts) (by omega)
  have hpk := store_at_right [] X0 (E ++ (Bt ++ N))
    (encodePackage ts.length (computeLayout ts).blobCount (computeLayout ts).headerSize) 0
    (by simp [hX0, encodePackage_length]) rfl
  simp only [List.nil_append] at hpk
  simp only [constructHeader, Option.bind_eq_bind, storePackage_eq, hpk, Option.some_bind]
  have hloop := textureLoop_spec ts
    (encodePackage ts.length (computeLayout ts).blobCount (computeLayout ts).headerSize)
    E [] Bt [] N []
    { ntsp := encodePackage ts.length (computeLayout ts).blobCount (computeLayout ts).headerSize
        ++ (E ++ (Bt ++ N))
      curEntry := (computeLayout ts).entriesOffset
      curBlob := (computeLayout ts).blobsOffset
      curName := (computeLayout ts).namesOffset
      namesOffset := (computeLayout ts).namesOffset
      blobIndex := 0
      dataOffset := (computeLayout ts).headerSize } 0
    (by simp) hE hB hN
    (by simp [encodePackage_length, computeLayout_eq])
    (by simp [encodePackage_length, computeLayout_eq, hE])
    (by simp [encodePackage_length, computeLayout_eq, hE, hB])
    (by simp [castU32])
  rw [hloop]
  simp [headerBytes, computeLayout_eq, packageSize]

theorem fillHeader_eq (ntsp : List Nat) (ts : List TextureHolder)
    (hlen : ntsp.length = (computeLayout ts).headerSize) :
    fillHeader ntsp ts = some (headerBytes ts) := by
  simp [fillHeader, constructHeader_eq ntsp ts hlen]

theorem buildHeader_eq (ts : List TextureHolder) : buildHeader ts = some (headerBytes ts) :=
  fillHeader_eq _ ts (by simp)

/-! ## The package file -/

theorem writeImages_eq (images : List Image) (file : List Nat) (h : PixelsReadable images) :
    writeImages images file = some (file ++ dataBytes images) := by
  induction images generalizing file with
  | nil => simp [writeImages, dataBytes]
  | cons image rest ih =>
    have h1 : image.slicePitch ≤ image.pixels.length := h image (List.mem_cons_self _ _)
    have h2 : PixelsReadable rest := fun im him => h im (List.mem_cons_of_mem _ him)
    simp [writeImages, fwrite, readBytes, h1, ih _ h2, dataBytes]

theorem dataBytes_append (xs ys : List Image) :
    dataBytes (xs ++ ys) = dataBytes xs ++ dataBytes ys := by
  induction xs with
  | nil => rfl
  | cons x rest ih => simp [dataBytes, ih]

theorem writeTextures_eq (ts : List TextureHolder) (file : List Nat)
    (h : PixelsReadable (allImages ts)) :
    writeTextures ts file = some (file ++ dataBytes (allImages ts)) := by
  induction ts generalizing file with
  | nil => simp [writeTextures, dataBytes, allImages]
  | cons t rest ih =>
    have h1 : PixelsReadable t.image.images := fun im him =>
      h im (by simp [allImages]; exact Or.inl him)
    have h2 : PixelsReadable (allImages rest) := fun im him =>
      h im (by simp only [allImages, List.flatMap_cons, List.mem_append]; exact Or.inr him)
    simp [writeTextures, writeImages_eq _ _ h1, ih _ h2, allImages, dataBytes_append]

/-- The package file is the header followed by the data section. -/
theorem writePackage_eq (ts : List TextureHolder) (h : PixelsReadable (allImages ts)) :
    writePackage ts = some (headerBytes ts ++ dataBytes (allImages ts)) := by
  simp [writePackage, buildHeader_eq, fwrite, readBytes, writeTextures_eq _ _ h]


/-! ## Reading records back -/

theorem load_append_right (A B : List Nat) (off len : Nat) :
    load (A ++ B) (A.length + off) len = load B off len := by
  unfold load
  rw [List.drop_append]

theorem load_skip (A B : List Nat) (n off len : Nat) (h : A.length = n) :
    load (A ++ B) (n + off) len = load B off len := by
  subst h
  exact load_append_right A B off len

theorem load_append_left (A B : List Nat) (off len : Nat) (h : off + len ≤ A.length) :
    load (A ++ B) off len = load A off len := by
  unfold load
  rw [List.drop_append_of_le_length (by omega), List.take_append_of_le_length (by simp; omega)]

theorem load_head (A B : List Nat) (n : Nat) (h : A.length = n) : load (A ++ B) 0 n = A := by
  subst h
  simp [load]

theorem load_exact (A : List Nat) (n : Nat) (h : A.length = n) : load A 0 n = A := by
  subst h
  simp [load]

theorem decodeLE_u16 (x : Nat) : decodeLE (encodeLE 2 (castU16 x)) = castU16 x := by
  rw [decodeLE_encodeLE]; unfold castU16; omega

theorem decodeLE_u32 (x : Nat) : decodeLE (encodeLE 4 (castU32 x)) = castU32 x := by
  rw [decodeLE_encodeLE]; unfold castU32; omega

theorem decodeLE_u64 (x : Nat) : decodeLE (encodeLE 8 (castU64 x)) = castU64 x := by
  rw [decodeLE_encodeLE]; unfold castU64; omega

theorem decodeLE_u32_in_u64 (x : Nat) : decodeLE (encodeLE 8 (castU32 x)) = castU32 x := by
  rw [decodeLE_encodeLE]; unfold castU32; omega

theorem entryTable_load (ts : List TextureHolder) :
    ∀ (k bi no : Nat) (hk : k < ts.length),
      load (entryTable ts bi no) (24 * k) 24
        = encodeEntry ts[k] (castU32 (bi + totalBlobs (ts.take k)))
            (no + totalNames (ts.take k)) := by
  induction ts with
  | nil => intro k bi no hk; simp at hk
  | cons t rest ih =>
    intro k bi no hk
    cases k with
    | zero =>
      simp only [entryTable, Nat.mul_zero, List.take_zero, totalBlobs, totalNames, List.map_nil,
        List.sum_nil, Nat.add_zero, List.getElem_cons_zero]
      exact load_head _ _ _ (encodeEntry_length _ _ _)
    | succ k =>
      have hk2 : k < rest.length := by simpa using hk
      have e : 24 * (k + 1) = 24 + 24 * k := by omega
      rw [entryTable, e, load_skip _ _ _ _ _ (encodeEntry_length _ _ _), ih k _ _ hk2]
      simp only [List.getElem_cons_succ, List.take_succ_cons, totalBlobs, totalNames,
        List.map_cons, List.sum_cons, Nat.add_assoc]

theorem blobTable_load (images : List Image) :
    ∀ (i d : Nat) (hi : i < images.length),
      load (blobTable images d) (16 * i) 16
        = encodeBlob images[i] (d + totalPitch (images.take i)) := by
  induction images with
  | nil => intro i d hi; simp at hi
  | cons image rest ih =>
    intro i d hi
    cases i with
    | zero =>
      simp only [blobTable, Nat.mul_zero, List.take_zero, totalPitch, List.map_nil,
        List.sum_nil, Nat.add_zero, List.getElem_cons_zero]
      exact load_head _ _ _ (encodeBlob_length _ _)
    | succ i =>
      have hi2 : i < rest.length := by simpa using hi
      have e : 16 * (i + 1) = 16 + 16 * i := by omega
      rw [blobTable, e, load_skip _ _ _ _ _ (encodeBlob_length _ _), ih i _ hi2]
      simp only [List.getElem_cons_succ, List.take_succ_cons, totalPitch,
        List.map_cons, List.sum_cons, Nat.add_assoc]

theorem dataBytes_length (images : List Image) (h : PixelsReadable images) :
    (dataBytes images).length = totalPitch images := by
  induction images with
  | nil => rfl
  | cons image rest ih =>
    have h1 : image.slicePitch ≤ image.pixels.length := h image (List.mem_cons_self _ _)
    have h2 : PixelsReadable rest := fun im him => h im (List.mem_cons_of_mem _ him)
    simp only [dataBytes, List.length_append, List.length_take, ih h2, totalPitch,
      List.map_cons, List.sum_cons, Nat.min_eq_left h1]

theorem dataBytes_load (images : List Image) (h : PixelsReadable images) :
    ∀ (i : Nat) (hi : i < images.length),
      load (dataBytes images) (totalPitch (images.take i)) images[i].slicePitch
        = images[i].pixels.take images[i].slicePitch := by
  induction images with
  | nil => intro i hi; simp at hi
  | cons image rest ih =>
    intro i hi
    have h1 : image.slicePitch ≤ image.pixels.length := h image (List.mem_cons_self _ _)
    have h2 : PixelsReadable rest := fun im him => h im (List.mem_cons_of_mem _ him)
    have hl : (image.pixels.take image.slicePitch).length = image.slicePitch := by
      rw [List.length_take]; omega
    cases i with
    | zero =>
      simp only [dataBytes, List.take_zero, totalPitch, List.map_nil, List.sum_nil,
        List.getElem_cons_zero]
      exact load_head _ _ _ hl
    | succ i =>
      have hi2 : i < rest.length := by simpa using hi
      simp only [dataBytes, List.take_succ_cons, totalPitch, List.map_cons, List.sum_cons,
        List.getElem_cons_succ]
      rw [load_skip _ _ _ _ _ hl]
      exact ih h2 i hi2


theorem encodeEntry_hash (t : TextureHolder) (bi no : Nat) :
    load (encodeEntry t bi no) 0 4 = encodeLE 4 t.hash :=
  load_head _ _ _ (encodeLE_length _ _)

theorem encodeEntry_blobIndex (t : TextureHolder) (bi no : Nat) :
    load (encodeEntry t bi no) 4 4 = encodeLE 4 bi := by
  show load (encodeEntry t bi no) (4 + 0) 4 = _
  unfold encodeEntry
  rw [load_skip _ _ _ _ _ (encodeLE_length _ _)]
  exact load_head _ _ _ (encodeLE_length _ _)

theorem encodeEntry_blobCount (t : TextureHolder) (bi no : Nat) :
    load (encodeEntry t bi no) 8 4 = encodeLE 4 (castU32 t.image.images.length) := by
  show load (encodeEntry t bi no) (4 + (4 + 0)) 4 = _
  unfold encodeEntry
  rw [load_skip _ _ _ _ _ (encodeLE_length _ _), load_skip _ _ _ _ _ (encodeLE_length _ _)]
  exact load_head _ _ _ (encodeLE_length _ _)

theorem encodeEntry_width (t : TextureHolder) (bi no : Nat) :
    load (encodeEntry t bi no) 12 2 = encodeLE 2 (castU16 t.image.metadata.width) := by
  show load (encodeEntry t bi no) (4 + (4 + (4 + 0))) 2 = _
  unfold encodeEntry
  rw [load_skip _ _ _ _ _ (encodeLE_length _ _), load_skip _ _ _ _ _ (encodeLE_length _ _),
    load_skip _ _ _ _ _ (encodeLE_length _ _)]
  exact load_head _ _ _ (encodeLE_length _ _)

theorem encodeEntry_height (t : TextureHolder) (bi no : Nat) :
    load (encodeEntry t bi no) 14 2 = encodeLE 2 (castU16 t.image.metadata.height) := by
  show load (encodeEntry t bi no) (4 + (4 + (4 + (2 + 0)))) 2 = _
  unfold encodeEntry
  rw [load_skip _ _ _ _ _ (encodeLE_length _ _), load_skip _ _ _ _ _ (encodeLE_length _ _),
    load_skip _ _ _ _ _ (encodeLE_length _ _), load_skip _ _ _ _ _ (encodeLE_length _ _)]
  exact load_head _ _ _ (encodeLE_length _ _)

theorem encodeEntry_nameOffset (t : TextureHolder) (bi no : Nat) :
    load (encodeEntry t bi no) 16 8 = encodeLE 8 (castU64 no) := by
  show load (encodeEntry t bi no) (4 + (4 + (4 + (2 + (2 + 0))))) 8 = _
  unfold encodeEntry
  rw [load_skip _ _ _ _ _ (encodeLE_length _ _), load_skip _ _ _ _ _ (encodeLE_length _ _),
    load_skip _ _ _ _ _ (encodeLE_length _ _), load_skip _ _ _ _ _ (encodeLE_length _ _),
    load_skip _ _ _ _ _ (encodeLE_length _ _)]
  exact load_exact _ _ (encodeLE_length _ _)

theorem encodeBlob_dataOffset (image : Image) (d : Nat) :
    load (encodeBlob image d) 0 8 = encodeLE 8 (castU64 d) :=
  load_head _ _ _ (encodeLE_length _ _)

theorem encodeBlob_dataSize (image : Image) (d : Nat) :
    load (encodeBlob image d) 8 8 = encodeLE 8 (castU64 image.slicePitch) := by
  show load (encodeBlob image d) (8 + 0) 8 = _
  unfold encodeBlob
  rw [load_skip _ _ _ _ _ (encodeLE_length _ _)]
  exact load_exact _ _ (encodeLE_length _ _)

/-- Entry record `k` of the file. -/
theorem file_entry (ts : List TextureHolder) (D : List Nat) (k : Nat) (hk : k < ts.length) :
    load (headerBytes ts ++ D) (24 + 24 * k) 24
      = encodeEntry ts[k] (castU32 (totalBlobs (ts.take k)))
          ((computeLayout ts).namesOffset + totalNames (ts.take k)) := by
  unfold headerBytes
  simp only [List.append_assoc]
  rw [load_skip _ _ _ _ _ (encodePackage_length _ _ _),
    load_append_left _ _ _ _ (by rw [entryTable_length]; omega), entryTable_load ts k 0 _ hk]
  simp

/-- Blob record `i` of the file. -/
theorem file_blob (ts : List TextureHolder) (D : List Nat) (i : Nat)
    (hi : i < (allImages ts).length) :
    load (headerBytes ts ++ D) (24 + 24 * ts.length + 16 * i) 16
      = encodeBlob (allImages ts)[i]
          ((computeLayout ts).headerSize + totalPitch ((allImages ts).take i)) := by
  unfold headerBytes
  simp only [List.append_assoc]
  rw [Nat.add_assoc, load_skip _ _ _ _ _ (encodePackage_length _ _ _),
    load_skip _ _ _ _ _ (by rw [entryTable_length]),
    load_append_left _ _ _ _ (by rw [blobTable_length]; omega), blobTable_load _ i _ hi]

theorem file_entry_field (ts : List TextureHolder) (D : List Nat) (k : Nat) (hk : k < ts.length)
    (o w : Nat) (how : o + w ≤ 24) :
    loadField (headerBytes ts ++ D) (sizeofPackage + sizeofEntry * k + o) w
      = decodeLE (load (encodeEntry ts[k] (castU32 (totalBlobs (ts.take k)))
          ((computeLayout ts).namesOffset + totalNames (ts.take k))) o w) := by
  unfold loadField
  rw [← file_entry ts D k hk, load_load _ _ _ _ _ how]
  rfl

theorem file_blob_field (ts : List TextureHolder) (D : List Nat) (i : Nat)
    (hi : i < (allImages ts).length) (o w : Nat) (how : o + w ≤ 16) :
    loadField (headerBytes ts ++ D) (sizeofPackage + sizeofEntry * ts.length + sizeofBlob * i + o) w
      = decodeLE (load (encodeBlob (allImages ts)[i]
          ((computeLayout ts).headerSize + totalPitch ((allImages ts).take i))) o w) := by
  unfold loadField
  rw [← file_blob ts D i hi, load_load _ _ _ _ _ how]
  rfl

theorem file_entryNameHash (ts : List TextureHolder) (D : List Nat) (k : Nat)
    (hk : k < ts.length) :
    entryNameHash (headerBytes ts ++ D) k = castU32 ts[k].hash := by
  unfold entryNameHash
  rw [file_entry_field ts D k hk 0 4 (by omega), encodeEntry_hash, decodeLE_encodeLE]
  rfl

theorem file_entryBlobIndex (ts : List TextureHolder) (D : List Nat) (k : Nat)
    (hk : k < ts.length) :
    entryBlobIndex (headerBytes ts ++ D) k = castU32 (totalBlobs (ts.take k)) := by
  unfold entryBlobIndex
  rw [file_entry_field ts D k hk 4 4 (by omega), encodeEntry_blobIndex, decodeLE_u32]

theorem file_entryBlobCount (ts : List TextureHolder) (D : List Nat) (k : Nat)
    (hk : k < ts.length) :
    entryBlobCount (headerBytes ts ++ D) k = castU32 ts[k].image.images.length := by
  unfold entryBlobCount
  rw [file_entry_field ts D k hk 8 4 (by omega), encodeEntry_blobCount, decodeLE_u32]

theorem file_entryWidth (ts : List TextureHolder) (D : List Nat) (k : Nat)
    (hk : k < ts.length) :
    entryWidth (headerBytes ts ++ D) k = castU16 ts[k].image.metadata.width := by
  unfold entryWidth
  rw [file_entry_field ts D k hk 12 2 (by omega), encodeEntry_width, decodeLE_u16]

theorem file_entryHeight (ts : List TextureHolder) (D : List Nat) (k : Nat)
    (hk : k < ts.length) :
    entryHeight (headerBytes ts ++ D) k = castU16 ts[k].image.metadata.height := by
  unfold entryHeight
  rw [file_entry_field ts D k hk 14 2 (by omega), encodeEntry_height, decodeLE_u16]

theorem file_entryNameOffset (ts : List TextureHolder) (D : List Nat) (k : Nat)
    (hk : k < ts.length) :
    entryNameOffset (headerBytes ts ++ D) k
      = castU64 ((computeLayout ts).namesOffset + totalNames (ts.take k)) := by
  unfold entryNameOffset
  rw [file_entry_field ts D k hk 16 8 (by omega), encodeEntry_nameOffset, decodeLE_u64]

theorem file_blobDataOffset (ts : List TextureHolder) (D : List Nat) (i : Nat)
    (hi : i < (allImages ts).length) :
    blobDataOffset (headerBytes ts ++ D) ts.length i
      = castU64 ((computeLayout ts).headerSize + totalPitch ((allImages ts).take i)) := by
  unfold blobDataOffset
  rw [file_blob_field ts D i hi 0 8 (by omega), encodeBlob_dataOffset, decodeLE_u64]

theorem file_blobDataSize (ts : List TextureHolder) (D : List Nat) (i : Nat)
    (hi : i < (allImages ts).length) :
    blobDataSize (headerBytes ts ++ D) ts.length i = castU64 (allImages ts)[i].slicePitch := by
  unfold blobDataSize
  rw [file_blob_field ts D i hi 8 8 (by omega), encodeBlob_dataSize, decodeLE_u64]

/-- The pixel range of image `i` in the data section of the file. -/
theorem file_data (ts : List TextureHolder) (h : PixelsReadable (allImages ts)) (i : Nat)
    (hi : i < (allImages ts).length) :
    load (headerBytes ts ++ dataBytes (allImages ts))
        ((computeLayout ts).headerSize + totalPitch ((allImages ts).take i))
        (allImages ts)[i].slicePitch
      = (allImages ts)[i].pixels.take (allImages ts)[i].slicePitch := by
  rw [load_skip _ _ _ _ _ (headerBytes_length ts)]
  exact dataBytes_load _ h i hi


/-! ## Package fields, names and image positions -/

theorem file_packageEntryCount (ts : List TextureHolder) (D : List Nat) :
    packageEntryCount (headerBytes ts ++ D) = castU32 ts.length := by
  unfold packageEntryCount loadField headerBytes
  simp only [List.append_assoc]
  rw [load_append_left _ _ _ _ (by simp [encodePackage_length])]
  show decodeLE (load (encodePackage _ _ _) (4 + (4 + 0)) 4) = _
  unfold encodePackage
  rw [load_skip _ _ _ _ _ (encodeLE_length _ _), load_skip _ _ _ _ _ (encodeLE_length _ _),
    load_head _ _ _ (encodeLE_length _ _), decodeLE_u32]

theorem file_packageBlobCount (ts : List TextureHolder) (D : List Nat) :
    packageBlobCount (headerBytes ts ++ D) = castU32 (totalBlobs ts) := by
  unfold packageBlobCount loadField headerBytes
  simp only [List.append_assoc]
  rw [load_append_left _ _ _ _ (by simp [encodePackage_length])]
  show decodeLE (load (encodePackage _ _ _) (4 + (4 + (4 + 0))) 4) = _
  unfold encodePackage
  rw [load_skip _ _ _ _ _ (encodeLE_length _ _), load_skip _ _ _ _ _ (encodeLE_length _ _),
    load_skip _ _ _ _ _ (encodeLE_length _ _),
    load_head _ _ _ (encodeLE_length _ _), decodeLE_u32, computeLayout_eq]

theorem file_packageHeaderSize (ts : List TextureHolder) (D : List Nat) :
    packageHeaderSize (headerBytes ts ++ D) = castU32 (computeLayout ts).headerSize := by
  unfold packageHeaderSize loadField headerBytes
  simp only [List.append_assoc]
  rw [load_append_left _ _ _ _ (by simp [encodePackage_length])]
  show decodeLE (load (encodePackage _ _ _) (4 + (4 + (4 + (4 + 0)))) 8) = _
  unfold encodePackage
  rw [load_skip _ _ _ _ _ (encodeLE_length _ _), load_skip _ _ _ _ _ (encodeLE_length _ _),
    load_skip _ _ _ _ _ (encodeLE_length _ _), load_skip _ _ _ _ _ (encodeLE_length _ _),
    load_exact _ _ (encodeLE_length _ _), decodeLE_u32_in_u64]

theorem nameTable_drop (ts : List TextureHolder) :
    ∀ (k : Nat) (hk : k < ts.length) (D : List Nat),
      ∃ tail, (nameTable ts ++ D).drop (totalNames (ts.take k)) = ts[k].name ++ 0 :: tail := by
  induction ts with
  | nil => intro k hk; simp at hk
  | cons t rest ih =>
    intro k hk D
    cases k with
    | zero =>
      exact ⟨nameTable rest ++ D, by simp [nameTable, totalNames, c_str]⟩
    | succ k =>
      have hk2 : k < rest.length := by simpa using hk
      obtain ⟨tail, htail⟩ := ih k hk2 D
      refine ⟨tail, ?_⟩
      have e : totalNames ((t :: rest).take (k + 1))
          = (c_str t.name).length + totalNames (rest.take k) := by
        simp [totalNames, c_str]
      rw [e, nameTable, List.append_assoc, List.drop_append]
      simpa using htail

theorem drop_skip (A B : List Nat) (n off : Nat) (h : A.length = n) :
    (A ++ B).drop (n + off) = B.drop off := by
  subst h
  exact List.drop_append off

theorem readCString_name (name tail : List Nat) (h : ∀ b ∈ name, b ≠ 0) :
    (name ++ 0 :: tail).takeWhile (fun b => b != 0) = name := by
  rw [List.takeWhile_append_of_pos (by simpa using h)]
  simp

/-- Reading the file at the name position of entry `k` yields the name of texture `k`. -/
theorem file_name (ts : List TextureHolder) (D : List Nat) (k : Nat) (hk : k < ts.length)
    (h : ∀ b ∈ ts[k].name, b ≠ 0) :
    readCString (headerBytes ts ++ D) ((computeLayout ts).namesOffset + totalNames (ts.take k))
      = ts[k].name := by
  obtain ⟨tail, htail⟩ := nameTable_drop ts k hk D
  have hlen : (encodePackage ts.length (computeLayout ts).blobCount (computeLayout ts).headerSize
      ++ (entryTable ts 0 (computeLayout ts).namesOffset
      ++ blobTable (allImages ts) (computeLayout ts).headerSize)).length
      = (computeLayout ts).namesOffset := by
    simp [encodePackage_length, entryTable_length, blobTable_length, allImages_length,
      computeLayout_eq]
    omega
  have hfile : headerBytes ts ++ D
      = (encodePackage ts.length (computeLayout ts).blobCount (computeLayout ts).headerSize
      ++ (entryTable ts 0 (computeLayout ts).namesOffset
      ++ blobTable (allImages ts) (computeLayout ts).headerSize)) ++ (nameTable ts ++ D) := by
    simp [headerBytes]
  unfold readCString
  rw [hfile, drop_skip _ _ _ _ hlen, htail]
  exact readCString_name _ _ h

theorem allImages_getElem? (ts : List TextureHolder) :
    ∀ (k : Nat) (hk : k < ts.length) (i : Nat), i < ts[k].image.images.length →
      (allImages ts)[totalBlobs (ts.take k) + i]? = ts[k].image.images[i]? := by
  induction ts with
  | nil => intro k hk; simp at hk
  | cons t rest ih =>
    intro k hk i hi
    cases k with
    | zero =>
      simp only [List.getElem_cons_zero] at hi
      simp [allImages, totalBlobs, List.getElem?_append_left hi]
    | succ k =>
      have hk2 : k < rest.length := by simpa using hk
      simp only [List.getElem_cons_succ] at hi ⊢
      have := ih k hk2 i hi
      simp only [allImages, List.flatMap_cons, List.take_succ_cons, totalBlobs, List.map_cons,
        List.sum_cons, Nat.add_assoc] at this ⊢
      rw [List.getElem?_append_right (by omega), Nat.add_sub_cancel_left]
      exact this

theorem totalBlobs_take_add_le (ts : List TextureHolder) :
    ∀ (k : Nat) (hk : k < ts.length),
      totalBlobs (ts.take k) + ts[k].image.images.length = totalBlobs (ts.take (k + 1)) := by
  induction ts with
  | nil => intro k hk; simp at hk
  | cons t rest ih =>
    intro k hk
    cases k with
    | zero => simp [totalBlobs]
    | succ k =>
      have hk2 : k < rest.length := by simpa using hk
      have := ih k hk2
      simp only [totalBlobs, List.take_succ_cons, List.map_cons, List.sum_cons,
        List.getElem_cons_succ] at this ⊢
      omega

theorem totalBlobs_take_le (ts : List TextureHolder) (k : Nat) :
    totalBlobs (ts.take k) ≤ totalBlobs ts := by
  induction ts generalizing k with
  | nil => simp [totalBlobs]
  | cons t rest ih =>
    cases k with
    | zero => simp [totalBlobs]
    | succ k =>
      have := ih k
      simp only [totalBlobs, List.take_succ_cons, List.map_cons, List.sum_cons] at this ⊢
      omega

theorem totalNames_take_lt (ts : List TextureHolder) :
    ∀ (k : Nat) (hk : k < ts.length),
      totalNames (ts.take k) + (ts[k].name.length + 1) ≤ totalNames ts := by
  induction ts with
  | nil => intro k hk; simp at hk
  | cons t rest ih =>
    intro k hk
    cases k with
    | zero => simp [totalNames]
    | succ k =>
      have hk2 : k < rest.length := by simpa using hk
      have := ih k hk2
      simp only [totalNames, List.take_succ_cons, List.map_cons, List.sum_cons,
        List.getElem_cons_succ] at this ⊢
      omega

theorem totalPitch_take_succ (images : List Image) :
    ∀ (i : Nat) (hi : i < images.length),
      totalPitch (images.take (i + 1)) = totalPitch (images.take i) + images[i].slicePitch := by
  induction images with
  | nil => intro i hi; simp at hi
  | cons image rest ih =>
    intro i hi
    cases i with
    | zero => simp [totalPitch]
    | succ i =>
      have hi2 : i < rest.length := by simpa using hi
      have := ih i hi2
      simp only [totalPitch, List.take_succ_cons, List.map_cons, List.sum_cons,
        List.getElem_cons_succ] at this ⊢
      omega

theorem totalPitch_take_le (images : List Image) (i : Nat) :
    totalPitch (images.take i) ≤ totalPitch images := by
  induction images generalizing i with
  | nil => simp [totalPitch]
  | cons image rest ih =>
    cases i with
    | zero => simp [totalPitch]
    | succ i =>
      have := ih i
      simp only [totalPitch, List.take_succ_cons, List.map_cons, List.sum_cons] at this ⊢
      omega


/-! ## The sort -/

theorem sortTextures_perm (ts : List TextureHolder) : (sortTextures ts).Perm ts :=
  List.perm_insertionSort _ ts

theorem sortTextures_sorted (ts : List TextureHolder) :
    (sortTextures ts).Pairwise (fun a b => a.hash ≤ b.hash) := by
  have : IsTotal TextureHolder (fun a b => a.hash ≤ b.hash) := ⟨fun a b => Nat.le_total _ _⟩
  have : IsTrans TextureHolder (fun a b => a.hash ≤ b.hash) :=
    ⟨fun _ _ _ hab hbc => Nat.le_trans hab hbc⟩
  exact List.sorted_insertionSort _ ts

theorem sortTextures_outcome (ts : List TextureHolder) : SortOutcome ts (sortTextures ts) :=
  ⟨sortTextures_perm ts, sortTextures_sorted ts⟩

theorem sortTextures_length (ts : List TextureHolder) : (sortTextures ts).length = ts.length :=
  (sortTextures_perm ts).length_eq

theorem sortTextures_mem (ts : List TextureHolder) (t : TextureHolder) :
    t ∈ sortTextures ts ↔ t ∈ ts :=
  (sortTextures_perm ts).mem_iff

theorem totalBlobs_perm {ts us : List TextureHolder} (h : ts.Perm us) :
    totalBlobs ts = totalBlobs us :=
  (h.map _).sum_eq

theorem totalNames_perm {ts us : List TextureHolder} (h : ts.Perm us) :
    totalNames ts = totalNames us :=
  (h.map _).sum_eq

theorem totalPitch_perm {xs ys : List Image} (h : xs.Perm ys) : totalPitch xs = totalPitch ys :=
  (h.map _).sum_eq

theorem allImages_perm {ts us : List TextureHolder} (h : ts.Perm us) :
    (allImages ts).Perm (allImages us) :=
  h.flatMap_right _

theorem computeLayout_perm {ts us : List TextureHolder} (h : ts.Perm us) :
    computeLayout ts = computeLayout us := by
  rw [computeLayout_eq, computeLayout_eq, totalBlobs_perm h, totalNames_perm h, h.length_eq]

theorem packageSize_perm {ts us : List TextureHolder} (h : ts.Perm us) :
    packageSize ts = packageSize us := by
  unfold packageSize
  rw [computeLayout_perm h, totalPitch_perm (allImages_perm h)]

theorem pixelsReadable_of_inRange (ts : List TextureHolder) (h : PixelsInRange ts) :
    PixelsReadable (allImages ts) := by
  intro image him
  simp only [allImages, List.mem_flatMap] at him
  obtain ⟨t, ht, hi⟩ := him
  exact h t ht image hi

theorem pixelsInRange_perm {ts us : List TextureHolder} (hperm : us.Perm ts)
    (h : PixelsInRange ts) : PixelsInRange us :=
  fun t ht => h t (hperm.mem_iff.mp ht)

theorem pixelsInRange_sort (ts : List TextureHolder) (h : PixelsInRange ts) :
    PixelsInRange (sortTextures ts) :=
  fun t ht => h t ((sortTextures_mem ts t).mp ht)

/-- The package file exists and is the header of the sorted list followed by
its data section. -/
theorem packageFile_eq (ts : List TextureHolder) (h : PixelsInRange ts) :
    packageFile ts
      = some (headerBytes (sortTextures ts) ++ dataBytes (allImages (sortTextures ts))) :=
  writePackage_eq _ (pixelsReadable_of_inRange _ (pixelsInRange_sort ts h))

theorem file_length (ts : List TextureHolder) (h : PixelsReadable (allImages ts)) :
    (headerBytes ts ++ dataBytes (allImages ts)).length = packageSize ts := by
  rw [List.length_append, headerBytes_length, dataBytes_length _ h, packageSize]

theorem castU64_of_lt {x : Nat} (h : x < 2 ^ 64) : castU64 x = x := Nat.mod_eq_of_lt h

theorem castU32_of_lt {x : Nat} (h : x < 2 ^ 32) : castU32 x = x := Nat.mod_eq_of_lt h

theorem slicePitch_le_totalPitch (images : List Image) (i : Nat) (hi : i < images.length) :
    totalPitch (images.take i) + images[i].slicePitch ≤ totalPitch images := by
  rw [← totalPitch_take_succ images i hi]
  exact totalPitch_take_le images (i + 1)

theorem images_length_le_totalBlobs (ts : List TextureHolder) (k : Nat) (hk : k < ts.length) :
    totalBlobs (ts.take k) + ts[k].image.images.length ≤ totalBlobs ts := by
  rw [totalBlobs_take_add_le ts k hk]
  exact totalBlobs_take_le ts (k + 1)


theorem allImages_getElem (ts : List TextureHolder) (k : Nat) (hk : k < ts.length) (i : Nat)
    (hi : i < ts[k].image.images.length)
    (hj : totalBlobs (ts.take k) + i < (allImages ts).length) :
    (allImages ts)[totalBlobs (ts.take k) + i] = ts[k].image.images[i] := by
  have h := allImages_getElem? ts k hk i hi
  rw [List.getElem?_eq_getElem hj, List.getElem?_eq_getElem hi] at h
  exact Option.some.inj h

/-- Blob records and pixel ranges of entry `k`, for the list in the order the
loop walks it. -/
theorem file_entry_blobs (ts : List TextureHolder)
    (hpix : ∀ t ∈ ts, ∀ image ∈ t.image.images, image.pixels.length = image.slicePitch)
    (hblobs : totalBlobs ts < 2 ^ 32) (hsize : packageSize ts < 2 ^ 64)
    (k : Nat) (hk : k < ts.length) (i : Nat)
    (hi : i < entryBlobCount (headerBytes ts ++ dataBytes (allImages ts)) k) :
    ∃ hi2 : i < ts[k].image.images.length,
      blobDataSize (headerBytes ts ++ dataBytes (allImages ts)) ts.length
          (entryBlobIndex (headerBytes ts ++ dataBytes (allImages ts)) k + i)
        = ts[k].image.images[i].slicePitch ∧
      load (headerBytes ts ++ dataBytes (allImages ts))
          (blobDataOffset (headerBytes ts ++ dataBytes (allImages ts)) ts.length
            (entryBlobIndex (headerBytes ts ++ dataBytes (allImages ts)) k + i))
          (blobDataSize (headerBytes ts ++ dataBytes (allImages ts)) ts.length
            (entryBlobIndex (headerBytes ts ++ dataBytes (allImages ts)) k + i))
        = ts[k].image.images[i].pixels := by
  have hle := images_length_le_totalBlobs ts k hk
  have hread : PixelsReadable (allImages ts) :=
    pixelsReadable_of_inRange ts (fun t ht im him => Nat.le_of_eq (hpix t ht im him).symm)
  rw [file_entryBlobCount ts _ k hk, castU32_of_lt (by omega)] at hi
  refine ⟨hi, ?_⟩
  rw [file_entryBlobIndex ts _ k hk, castU32_of_lt (by omega)]
  have hj : totalBlobs (ts.take k) + i < (allImages ts).length := by
    rw [allImages_length]; omega
  have hget := allImages_getElem ts k hk i hi hj
  have hbound := slicePitch_le_totalPitch (allImages ts) _ hj
  have hps : packageSize ts
      = (computeLayout ts).headerSize + totalPitch (allImages ts) := rfl
  rw [file_blobDataSize ts _ _ hj, file_blobDataOffset ts _ _ hj, castU64_of_lt (by omega),
    castU64_of_lt (by omega), file_data ts hread _ hj, hget]
  refine ⟨rfl, ?_⟩
  have hmem : ts[k].image.images[i] ∈ ts[k].image.images := List.getElem_mem _
  have := hpix ts[k] (List.getElem_mem _) _ hmem
  exact List.take_of_length_le (Nat.le_of_eq this)


/-! ## The package: claims C1 to C6 -/

/-- C1 (as amended): for a non-empty list of loaded textures in which every pixel
range has exactly `slicePitch` bytes, with fewer than `2 ^ 32` images in total and
a package size below `2 ^ 64`, and for every order the sort may leave them in,
the package file is written, and for entry `k` and every `i` below its
`blobCount` the blob record `blobIndex + i` has `dataSize` equal to the byte size
of image `i` of the `k`-th sorted texture, and the file bytes
`[dataOffset, dataOffset + dataSize)` are that image's pixels. -/
theorem C1_blob_records_hold_pixels (textures sorted : List TextureHolder)
    (_hne : textures ≠ []) (hsort : SortOutcome textures sorted)
    (hpix : ∀ t ∈ textures, ∀ image ∈ t.image.images, image.pixels.length = image.slicePitch)
    (hblobs : totalBlobs textures < 2 ^ 32) (hsize : packageSize textures < 2 ^ 64) :
    ∃ file, writePackage sorted = some file ∧
      ∀ (k : Nat) (hk : k < sorted.length) (i : Nat),
        i < entryBlobCount file k →
        ∃ hi : i < sorted[k].image.images.length,
          blobDataSize file textures.length (entryBlobIndex file k + i)
            = sorted[k].image.images[i].slicePitch ∧
          load file (blobDataOffset file textures.length (entryBlobIndex file k + i))
              (blobDataSize file textures.length (entryBlobIndex file k + i))
            = sorted[k].image.images[i].pixels := by
  have hperm := hsort.1
  have hpix2 : ∀ t ∈ sorted, ∀ image ∈ t.image.images,
      image.pixels.length = image.slicePitch := fun t ht => hpix t (hperm.mem_iff.mp ht)
  have hread : PixelsReadable (allImages sorted) :=
    pixelsReadable_of_inRange sorted (fun t ht im him => Nat.le_of_eq (hpix2 t ht im him).symm)
  refine ⟨_, writePackage_eq sorted hread, ?_⟩
  intro k hk i hi
  rw [← hperm.length_eq]
  exact file_entry_blobs sorted hpix2
    (by rw [totalBlobs_perm hperm]; exact hblobs)
    (by rw [packageSize_perm hperm]; exact hsize) k hk i hi

/-- C2: for a non-empty list of loaded textures whose names contain no zero byte
(pixel ranges readable, header size below `2 ^ 64`) and for every order the sort
may leave them in, the package file is written and, for every entry `k`, reading
the file from the entry's `nameOffset` up to the next zero byte yields the name
of the `k`-th sorted texture, the texture whose hash, blob count and dimensions
the entry holds. -/
theorem C2_name_offset_reads_name (textures sorted : List TextureHolder)
    (_hne : textures ≠ []) (hsort : SortOutcome textures sorted)
    (hzero : ∀ t ∈ textures, ∀ b ∈ t.name, b ≠ 0) (hrange : PixelsInRange textures)
    (hsize : (computeLayout textures).headerSize < 2 ^ 64) :
    ∃ file, writePackage sorted = some file ∧
      ∀ (k : Nat) (hk : k < sorted.length),
        readCString file (entryNameOffset file k) = sorted[k].name ∧
        entryNameHash file k = castU32 sorted[k].hash ∧
        entryBlobCount file k = castU32 sorted[k].image.images.length ∧
        entryWidth file k = castU16 sorted[k].image.metadata.width ∧
        entryHeight file k = castU16 sorted[k].image.metadata.height := by
  have hperm := hsort.1
  refine ⟨_, writePackage_eq sorted
    (pixelsReadable_of_inRange sorted (pixelsInRange_perm hperm hrange)), ?_⟩
  intro k hk
  have hmem : sorted[k] ∈ textures := hperm.mem_iff.mp (List.getElem_mem _)
  have hnames := totalNames_take_lt sorted k hk
  have hlay : (computeLayout sorted).headerSize
      = (computeLayout sorted).namesOffset + totalNames sorted := by
    simp [computeLayout_eq]
  rw [← computeLayout_perm hperm] at hsize
  refine ⟨?_, file_entryNameHash _ _ k hk, file_entryBlobCount _ _ k hk,
    file_entryWidth _ _ k hk, file_entryHeight _ _ k hk⟩
  rw [file_entryNameOffset _ _ k hk, castU64_of_lt (by omega)]
  exact file_name _ _ k hk (hzero _ hmem)

/-- C4: the computed header size is `24 + 24 * n + 16 * B + Σ (len + 1)`; the
header buffer has exactly that many bytes; and on any buffer of that size every
store of the construction succeeds (none leaves the buffer) and the result holds
the entry table in `[24, 24 + 24 n)`, the blob table in
`[24 + 24 n, 24 + 24 n + 16 B)` and the name table from there to exactly
`headerSize`, the three cursors ending at the ends of their tables; the result
does not depend on what the buffer held, so no byte is left unwritten. -/
theorem C4_header_size_and_fill (textures : List TextureHolder) (_hne : textures ≠ []) :
    (computeLayout textures).headerSize
        = 24 + 24 * textures.length + 16 * totalBlobs textures
          + (textures.map (fun t => t.name.length + 1)).sum ∧
      totalBlobs textures = (textures.map (fun t => t.image.images.length)).sum ∧
      (∃ ntsp, buildHeader textures = some ntsp ∧
        ntsp.length = (computeLayout textures).headerSize) ∧
      ∀ init : List Nat, init.length = (computeLayout textures).headerSize →
        ∃ c, constructHeader init textures = some c ∧
          c.ntsp = headerBytes textures ∧
          c.ntsp.length = (computeLayout textures).headerSize ∧
          load c.ntsp 24 (24 * textures.length)
            = entryTable textures 0 (computeLayout textures).namesOffset ∧
          (entryTable textures 0 (computeLayout textures).namesOffset).length
            = 24 * textures.length ∧
          c.curEntry = 24 + 24 * textures.length ∧
          load c.ntsp (24 + 24 * textures.length) (16 * totalBlobs textures)
            = blobTable (allImages textures) (computeLayout textures).headerSize ∧
          (blobTable (allImages textures) (computeLayout textures).headerSize).length
            = 16 * totalBlobs textures ∧
          c.curBlob = 24 + 24 * textures.length + 16 * totalBlobs textures ∧
          load c.ntsp (24 + 24 * textures.length + 16 * totalBlobs textures)
              ((computeLayout textures).headerSize
                - (24 + 24 * textures.length + 16 * totalBlobs textures))
            = nameTable textures ∧
          c.curName = (computeLayout textures).headerSize := by
  refine ⟨by simp [computeLayout_eq, totalNames], rfl,
    ⟨_, buildHeader_eq textures, headerBytes_length textures⟩, ?_⟩
  intro init hinit
  refine ⟨_, constructHeader_eq init textures hinit, rfl, headerBytes_length textures, ?_,
    entryTable_length _ _ _, rfl, ?_, ?_, rfl, ?_, rfl⟩
  · show load (headerBytes textures) (24 + 0) _ = _
    unfold headerBytes
    simp only []
    rw [load_skip _ _ _ _ _ (encodePackage_length _ _ _)]
    exact load_head _ _ _ (entryTable_length _ _ _)
  · show load (headerBytes textures) (24 + (24 * textures.length + 0)) _ = _
    unfold headerBytes
    simp only []
    rw [load_skip _ _ _ _ _ (encodePackage_length _ _ _),
      load_skip _ _ _ _ _ (entryTable_length _ _ _)]
    exact load_head _ _ _ (by rw [blobTable_length, allImages_length])
  · rw [blobTable_length, allImages_length]
  · show load (headerBytes textures)
      (24 + 24 * textures.length + 16 * totalBlobs textures) _ = _
    have e : 24 + 24 * textures.length + 16 * totalBlobs textures
        = 24 + (24 * textures.length + (16 * totalBlobs textures + 0)) := by omega
    rw [e]
    unfold headerBytes
    simp only []
    rw [load_skip _ _ _ _ _ (encodePackage_length _ _ _),
      load_skip _ _ _ _ _ (entryTable_length _ _ _),
      load_skip _ _ _ _ _ (by rw [blobTable_length, allImages_length])]
    exact load_exact _ _ (by rw [nameTable_length, computeLayout_eq]; simp; omega)


theorem sum_blobDataSize (ts : List TextureHolder) (D : List Nat)
    (hsize : packageSize ts < 2 ^ 64) :
    ∀ m : Nat, m ≤ (allImages ts).length →
      ((List.range m).map (blobDataSize (headerBytes ts ++ D) ts.length)).sum
        = totalPitch ((allImages ts).take m) := by
  intro m
  induction m with
  | zero => intro _; simp [totalPitch]
  | succ m ih =>
    intro hm
    have hm2 : m < (allImages ts).length := by omega
    have hb := slicePitch_le_totalPitch (allImages ts) m hm2
    have hps : packageSize ts
        = (computeLayout ts).headerSize + totalPitch (allImages ts) := rfl
    rw [List.range_succ, List.map_append, List.sum_append, ih (by omega),
      totalPitch_take_succ _ m hm2]
    simp only [List.map_cons, List.map_nil, List.sum_cons, List.sum_nil, Nat.add_zero]
    rw [file_blobDataSize ts D m hm2, castU64_of_lt (by omega)]

/-- The blob table tiles the data section, for the list in the order the loop
walks it. -/
theorem file_blobs_tile (ts : List TextureHolder) (hread : PixelsReadable (allImages ts))
    (hsize : packageSize ts < 2 ^ 64) :
    (0 < totalBlobs ts →
      blobDataOffset (headerBytes ts ++ dataBytes (allImages ts)) ts.length 0
        = (computeLayout ts).headerSize) ∧
    (∀ i : Nat, 0 < i → i < totalBlobs ts →
      blobDataOffset (headerBytes ts ++ dataBytes (allImages ts)) ts.length i
        = blobDataOffset (headerBytes ts ++ dataBytes (allImages ts)) ts.length (i - 1)
          + blobDataSize (headerBytes ts ++ dataBytes (allImages ts)) ts.length (i - 1)) ∧
    (0 < totalBlobs ts →
      blobDataOffset (headerBytes ts ++ dataBytes (allImages ts)) ts.length (totalBlobs ts - 1)
          + blobDataSize (headerBytes ts ++ dataBytes (allImages ts)) ts.length
              (totalBlobs ts - 1)
        = (headerBytes ts ++ dataBytes (allImages ts)).length) ∧
    ((List.range (totalBlobs ts)).map
        (blobDataSize (headerBytes ts ++ dataBytes (allImages ts)) ts.length)).sum
      = (headerBytes ts ++ dataBytes (allImages ts)).length - (computeLayout ts).headerSize := by
  have hps : packageSize ts
      = (computeLayout ts).headerSize + totalPitch (allImages ts) := rfl
  have hlen := allImages_length ts
  have hoff : ∀ i (hi : i < (allImages ts).length),
      blobDataOffset (headerBytes ts ++ dataBytes (allImages ts)) ts.length i
        = (computeLayout ts).headerSize + totalPitch ((allImages ts).take i) := by
    intro i hi
    have := totalPitch_take_le (allImages ts) i
    rw [file_blobDataOffset ts _ i hi, castU64_of_lt (by omega)]
  have hsz : ∀ i (hi : i < (allImages ts).length),
      blobDataSize (headerBytes ts ++ dataBytes (allImages ts)) ts.length i
        = (allImages ts)[i].slicePitch := by
    intro i hi
    have := slicePitch_le_totalPitch (allImages ts) i hi
    rw [file_blobDataSize ts _ i hi, castU64_of_lt (by omega)]
  refine ⟨?_, ?_, ?_, ?_⟩
  · intro hpos
    rw [hoff 0 (by omega)]
    simp [totalPitch]
  · intro i hpos hi
    have h1 : i - 1 < (allImages ts).length := by omega
    have e : i = (i - 1) + 1 := by omega
    rw [hoff i (by omega), hoff (i - 1) h1, hsz (i - 1) h1, Nat.add_assoc,
      ← totalPitch_take_succ _ (i - 1) h1, ← e]
  · intro hpos
    have h1 : totalBlobs ts - 1 < (allImages ts).length := by omega
    have e : totalBlobs ts - 1 + 1 = (allImages ts).length := by omega
    rw [hoff _ h1, hsz _ h1, Nat.add_assoc, ← totalPitch_take_succ _ _ h1, e, List.take_length,
      file_length ts hread, hps]
  · rw [sum_blobDataSize ts _ hsize _ (by omega), ← hlen, List.take_length, file_length ts hread,
      hps, Nat.add_sub_cancel_left]

/-- C5: for a non-empty list of loaded textures (pixel ranges readable, package
size below `2 ^ 64`) and for every order the sort may leave them in, the blob
table tiles the data section in blob-table order: the first blob starts at the
header size, every later blob starts where the previous one ends, whichever
textures they belong to, the last blob ends at the file size, and the sizes of
all blobs add up to the file size minus the header size. -/
theorem C5_blobs_tile_data_section (textures sorted : List TextureHolder)
    (_hne : textures ≠ []) (hsort : SortOutcome textures sorted)
    (hrange : PixelsInRange textures) (hsize : packageSize textures < 2 ^ 64) :
    ∃ file, writePackage sorted = some file ∧
      (0 < totalBlobs textures →
        blobDataOffset file textures.length 0 = (computeLayout textures).headerSize) ∧
      (∀ i : Nat, 0 < i → i < totalBlobs textures →
        blobDataOffset file textures.length i
          = blobDataOffset file textures.length (i - 1)
            + blobDataSize file textures.length (i - 1)) ∧
      (0 < totalBlobs textures →
        blobDataOffset file textures.length (totalBlobs textures - 1)
            + blobDataSize file textures.length (totalBlobs textures - 1)
          = file.length) ∧
      ((List.range (totalBlobs textures)).map (blobDataSize file textures.length)).sum
        = file.length - (computeLayout textures).headerSize := by
  have hperm := hsort.1
  have hread := pixelsReadable_of_inRange sorted (pixelsInRange_perm hperm hrange)
  refine ⟨_, writePackage_eq sorted hread, ?_⟩
  have h := file_blobs_tile sorted hread (by rw [packageSize_perm hperm]; exact hsize)
  rw [hperm.length_eq, totalBlobs_perm hperm, computeLayout_perm hperm] at h
  exact h

theorem sum_entryBlobCount (ts : List TextureHolder) (D : List Nat)
    (hblobs : totalBlobs ts < 2 ^ 32) :
    ∀ m : Nat, m ≤ ts.length →
      ((List.range m).map (entryBlobCount (headerBytes ts ++ D))).sum
        = totalBlobs (ts.take m) := by
  intro m
  induction m with
  | zero => intro _; simp [totalBlobs]
  | succ m ih =>
    intro hm
    have hm2 : m < ts.length := by omega
    have hb := images_length_le_totalBlobs ts m hm2
    rw [List.range_succ, List.map_append, List.sum_append, ih (by omega),
      ← totalBlobs_take_add_le ts m hm2]
    simp only [List.map_cons, List.map_nil, List.sum_cons, List.sum_nil, Nat.add_zero]
    rw [file_entryBlobCount ts D m hm2, castU32_of_lt (by omega)]

/-- The blob ranges of the entries partition the blob table, for the list in the
order the loop walks it. -/
theorem file_entries_partition (ts : List TextureHolder) (D : List Nat) (hne : ts ≠ [])
    (hblobs : totalBlobs ts < 2 ^ 32) :
    entryBlobIndex (headerBytes ts ++ D) 0 = 0 ∧
    (∀ k : Nat, 0 < k → k < ts.length →
      entryBlobIndex (headerBytes ts ++ D) k
        = entryBlobIndex (headerBytes ts ++ D) (k - 1)
          + entryBlobCount (headerBytes ts ++ D) (k - 1)) ∧
    (∀ (k : Nat) (hk : k < ts.length),
      entryBlobCount (headerBytes ts ++ D) k = ts[k].image.images.length) ∧
    entryBlobIndex (headerBytes ts ++ D) (ts.length - 1)
        + entryBlobCount (headerBytes ts ++ D) (ts.length - 1)
      = packageBlobCount (headerBytes ts ++ D) ∧
    ((List.range ts.length).map (entryBlobCount (headerBytes ts ++ D))).sum
      = packageBlobCount (headerBytes ts ++ D) := by
  have hpos : 0 < ts.length := List.length_pos.mpr hne
  have hidx : ∀ k (hk : k < ts.length),
      entryBlobIndex (headerBytes ts ++ D) k = totalBlobs (ts.take k) := by
    intro k hk
    have := totalBlobs_take_le ts k
    rw [file_entryBlobIndex ts D k hk, castU32_of_lt (by omega)]
  have hcnt : ∀ k (hk : k < ts.length),
      entryBlobCount (headerBytes ts ++ D) k = ts[k].image.images.length := by
    intro k hk
    have := images_length_le_totalBlobs ts k hk
    rw [file_entryBlobCount ts D k hk, castU32_of_lt (by omega)]
  have hpk : packageBlobCount (headerBytes ts ++ D) = totalBlobs ts := by
    rw [file_packageBlobCount, castU32_of_lt hblobs]
  refine ⟨?_, ?_, hcnt, ?_, ?_⟩
  · rw [hidx 0 hpos]; simp [totalBlobs]
  · intro k hk0 hk
    have h1 : k - 1 < ts.length := by omega
    have e : k = (k - 1) + 1 := by omega
    rw [hidx k hk, hidx (k - 1) h1, hcnt (k - 1) h1, totalBlobs_take_add_le ts (k - 1) h1, ← e]
  · have h1 : ts.length - 1 < ts.length := by omega
    have e : ts.length - 1 + 1 = ts.length := by omega
    rw [hidx _ h1, hcnt _ h1, totalBlobs_take_add_le ts _ h1, e, List.take_length, hpk]
  · rw [sum_entryBlobCount ts D hblobs _ (Nat.le_refl _), List.take_length, hpk]

/-- C6 (as amended): for a non-empty list of loaded textures with fewer than
`2 ^ 32` images in total (pixel ranges readable) and for every order the sort may
leave them in, the blob ranges of the entries partition the blob table in entry
order: entry 0 has `blobIndex` 0, every later entry starts where the previous one
ends, every `blobCount` is the number of images of its texture, the last entry
ends at the package's `blobCount`, and the entries' `blobCount`s add up to the
package's `blobCount`. -/
theorem C6_entries_partition_blob_table (textures sorted : List TextureHolder)
    (hne : textures ≠ []) (hsort : SortOutcome textures sorted)
    (hrange : PixelsInRange textures) (hblobs : totalBlobs textures < 2 ^ 32) :
    ∃ file, writePackage sorted = some file ∧
      entryBlobIndex file 0 = 0 ∧
      (∀ k : Nat, 0 < k → k < textures.length →
        entryBlobIndex file k = entryBlobIndex file (k - 1) + entryBlobCount file (k - 1)) ∧
      (∀ (k : Nat) (hk : k < sorted.length),
        entryBlobCount file k = sorted[k].image.images.length) ∧
      entryBlobIndex file (textures.length - 1) + entryBlobCount file (textures.length - 1)
        = packageBlobCount file ∧
      ((List.range textures.length).map (entryBlobCount file)).sum = packageBlobCount file := by
  have hperm := hsort.1
  have hne2 : sorted ≠ [] := by
    intro h
    have := hperm.length_eq
    rw [h] at this
    exact hne (List.length_eq_zero.mp this.symm)
  refine ⟨_, writePackage_eq sorted
    (pixelsReadable_of_inRange sorted (pixelsInRange_perm hperm hrange)), ?_⟩
  have h := file_entries_partition sorted (dataBytes (allImages sorted)) hne2
    (by rw [totalBlobs_perm hperm]; exact hblobs)
  obtain ⟨h1, h2, h3, h4, h5⟩ := h
  rw [hperm.length_eq] at h2 h4 h5
  exact ⟨h1, h2, h3, h4, h5⟩

/-! ## Inputs with `2 ^ 32` images -/

theorem array_pixels_exact (count : Nat) :
    ∀ image ∈ (arrayTexture count).image.images, image.pixels.length = image.slicePitch := by
  intro image him
  simp only [arrayTexture, List.mem_replicate] at him
  rw [him.2]
  rfl

theorem array_pair_pixels_exact (count : Nat) :
    ∀ t ∈ [arrayTexture count, pairTexture], ∀ image ∈ t.image.images,
      image.pixels.length = image.slicePitch := by
  intro t ht image him
  simp only [List.mem_cons, List.mem_singleton, List.not_mem_nil, or_false] at ht
  rcases ht with rfl | rfl
  · exact array_pixels_exact count image him
  · simp only [pairTexture, List.mem_singleton] at him
    rw [him]
    rfl

theorem array_pair_outcome (count : Nat) :
    SortOutcome [arrayTexture count, pairTexture] [arrayTexture count, pairTexture] :=
  ⟨List.Perm.refl _, by simp [arrayTexture, pairTexture]⟩

theorem array_outcome (count : Nat) :
    SortOutcome [arrayTexture count] [arrayTexture count] :=
  ⟨List.Perm.refl _, by simp⟩

theorem array_pair_wraps (count : Nat) (hpos : 0 < count) (hwrap : castU32 count = 0) :
    ∃ file, writePackage [arrayTexture count, pairTexture] = some file ∧
      entryBlobCount file 1 = 1 ∧ entryBlobIndex file 1 = 0 ∧
      blobDataSize file 2 0 = 1 := by
  have hrange : PixelsInRange [arrayTexture count, pairTexture] :=
    fun t ht im him => Nat.le_of_eq (array_pair_pixels_exact count t ht im him).symm
  refine ⟨_, writePackage_eq _ (pixelsReadable_of_inRange _ hrange), ?_⟩
  have hlen : (allImages [arrayTexture count, pairTexture]).length = count + 1 := by
    simp [allImages, arrayTexture, pairTexture]
  have h0 : (allImages [arrayTexture count, pairTexture])[0]? = some unitImage := by
    simp only [allImages, List.flatMap_cons, List.flatMap_nil, arrayTexture]
    rw [List.getElem?_append_left (by simpa using hpos)]
    simp [List.getElem?_replicate, hpos]
  have hb : 0 < (allImages [arrayTexture count, pairTexture]).length := by omega
  have h0g : (allImages [arrayTexture count, pairTexture])[0] = unitImage := by
    rw [List.getElem?_eq_getElem hb] at h0
    exact Option.some.inj h0
  refine ⟨?_, ?_, ?_⟩
  · rw [file_entryBlobCount _ _ 1 (by simp)]
    rfl
  · rw [file_entryBlobIndex _ _ 1 (by simp)]
    simpa [totalBlobs, arrayTexture] using hwrap
  · have := file_blobDataSize [arrayTexture count, pairTexture]
      (dataBytes (allImages [arrayTexture count, pairTexture])) 0 (by omega)
    rw [h0g] at this
    exact this

theorem array_wraps (count : Nat) (hwrap : castU32 count = 0) :
    ∃ file, writePackage [arrayTexture count] = some file ∧ entryBlobCount file 0 = 0 ∧
      (arrayTexture count).image.images.length = count := by
  have hrange : PixelsInRange [arrayTexture count] := by
    intro t ht im him
    simp only [List.mem_singleton] at ht
    subst ht
    exact Nat.le_of_eq (array_pixels_exact count im him).symm
  refine ⟨_, writePackage_eq _ (pixelsReadable_of_inRange _ hrange), ?_, ?_⟩
  · rw [file_entryBlobCount _ _ 0 (by simp)]
    simpa [arrayTexture] using hwrap
  · simp [arrayTexture]

/-- C1 as stated fails: of the two textures `A` (`2 ^ 32` images of one byte) and
`B` (one image of two bytes), already in hash order, every pixel range has
exactly `slicePitch` bytes; entry 1, the entry of `B`, has `blobCount` 1 and
`blobIndex` 0 (the running index wrapped), and blob record `0 + 0` has `dataSize`
1, not the 2 bytes of image 0 of `B`. -/
theorem C1_counterexample :
    [arrayTexture (2 ^ 32), pairTexture] ≠ [] ∧
    SortOutcome [arrayTexture (2 ^ 32), pairTexture] [arrayTexture (2 ^ 32), pairTexture] ∧
    (∀ t ∈ [arrayTexture (2 ^ 32), pairTexture], ∀ image ∈ t.image.images,
      image.pixels.length = image.slicePitch) ∧
    (pairTexture.image.images.map (fun image => image.slicePitch)) = [2] ∧
    ∃ file, writePackage [arrayTexture (2 ^ 32), pairTexture] = some file ∧
      entryBlobCount file 1 = 1 ∧ entryBlobIndex file 1 = 0 ∧
      blobDataSize file 2 0 = 1 :=
  ⟨List.cons_ne_nil _ _, array_pair_outcome _, array_pair_pixels_exact _, rfl,
    array_pair_wraps (2 ^ 32) (by decide) (by decide)⟩

/-- C6 as stated fails: for the single texture `A` with `2 ^ 32` images the
package is written and entry 0 has `blobCount` 0, not the number of images. -/
theorem C6_counterexample :
    [arrayTexture (2 ^ 32)] ≠ [] ∧
    SortOutcome [arrayTexture (2 ^ 32)] [arrayTexture (2 ^ 32)] ∧
    ∃ file, writePackage [arrayTexture (2 ^ 32)] = some file ∧ entryBlobCount file 0 = 0 ∧
      (arrayTexture (2 ^ 32)).image.images.length = 2 ^ 32 :=
  ⟨List.cons_ne_nil _ _, array_outcome _, array_wraps (2 ^ 32) (by decide)⟩

/-! ## The hash: claims C3 and C10 -/

theorem computeNameHash_lt (charIsSigned : Bool) (str : List Nat) :
    computeNameHash charIsSigned str < 2 ^ 31 :=
  Nat.and_lt_two_pow _ (by decide)

theorem computeNameHashLoop_c_str (charIsSigned : Bool) (name : List Nat)
    (hzero : ∀ b ∈ name, b ≠ 0) (hash : Nat) :
    computeNameHashLoop charIsSigned (c_str name) hash
      = name.foldl (fun hash b => (hash * 31 + charToU32 charIsSigned b) % 2 ^ 32) hash := by
  induction name generalizing hash with
  | nil => simp [c_str, computeNameHashLoop]
  | cons b rest ih =>
    have hb : b ≠ 0 := hzero b (List.mem_cons_self _ _)
    have hrest : ∀ x ∈ rest, x ≠ 0 := fun x hx => hzero x (List.mem_cons_of_mem _ hx)
    have := ih hrest
    simp only [c_str] at this
    simp only [c_str, List.cons_append, computeNameHashLoop, if_neg hb, List.foldl_cons, castU32]
    exact this _

theorem foldl_hash_congr (f g : Nat → Nat) (name : List Nat) (h : ∀ b ∈ name, f b = g b)
    (hash : Nat) :
    name.foldl (fun hash b => (hash * 31 + f b) % 2 ^ 32) hash
      = name.foldl (fun hash b => (hash * 31 + g b) % 2 ^ 32) hash := by
  induction name generalizing hash with
  | nil => rfl
  | cons b rest ih =>
    simp only [List.foldl_cons, h b (List.mem_cons_self _ _)]
    exact ih (fun x hx => h x (List.mem_cons_of_mem _ hx)) _

theorem foldl_hash_mod (f : Nat → Nat) (name : List Nat) (hash : Nat) :
    name.foldl (fun hash b => (hash * 31 + f b % 2 ^ 32) % 2 ^ 32) hash
      = name.foldl (fun hash b => (hash * 31 + f b) % 2 ^ 32) hash := by
  simp only [Nat.add_mod_mod]

theorem loadTextures_hash (charIsSigned : Bool) (files : List SourceFile) :
    ∀ t ∈ loadTextures charIsSigned files,
      t.hash = computeNameHash charIsSigned (c_str t.name) := by
  induction files with
  | nil => intro t ht; simp [loadTextures] at ht
  | cons file rest ih =>
    intro t ht
    unfold loadTextures at ht
    split at ht
    · exact ih t ht
    · rcases List.mem_cons.mp ht with rfl | h
      · rfl
      · exact ih t h


theorem charToU32_unsigned (b : Nat) : charToU32 false b = b % 2 ^ 32 := by
  simp [charToU32, castU32]

theorem charToU32_ascii (charIsSigned : Bool) (b : Nat) (h : b < 128) :
    charToU32 charIsSigned b = b := by
  have h2 : ¬ 128 ≤ b := by omega
  simp only [charToU32, h2, decide_False, Bool.and_false, castU32]
  exact Nat.mod_eq_of_lt (by omega)

/-- C10 as stated fails: for the name `é` (UTF-8 bytes `C3 A9`, none zero) the
hash computed with a signed `char` is 2147481670, the hash over the unsigned
byte values is 6214, and a platform with an unsigned `char` computes 6214. -/
theorem C10_counterexample :
    (∀ b ∈ [0xC3, 0xA9], b ≠ 0 ∧ b < 256) ∧
    computeNameHash true (c_str [0xC3, 0xA9]) = 2147481670 ∧
    specNameHash [0xC3, 0xA9] = 6214 ∧
    computeNameHash false (c_str [0xC3, 0xA9]) = 6214 := by
  decide

/-- C10 (as amended): for a name of non-zero bytes `computeNameHash` returns the
polynomial hash `hash := hash * 31 + c` modulo `2 ^ 32` from 0, masked by
`0x7FFFFFFF`, where `c` is the value of the byte as a `char`; the result is below
`2 ^ 31`; with an unsigned `char` it is the hash over the unsigned byte values,
and for a name whose bytes are all below `0x80` it is that hash on every
platform. -/
theorem C10_hash_is_char_polynomial (charIsSigned : Bool) (name : List Nat)
    (hzero : ∀ b ∈ name, b ≠ 0) :
    computeNameHash charIsSigned (c_str name) = charNameHash charIsSigned name ∧
    computeNameHash charIsSigned (c_str name) < 2 ^ 31 ∧
    computeNameHash false (c_str name) = specNameHash name ∧
    ((∀ b ∈ name, b < 128) → computeNameHash charIsSigned (c_str name) = specNameHash name) := by
  refine ⟨?_, computeNameHash_lt _ _, ?_, ?_⟩
  · simp only [computeNameHash, charNameHash, computeNameHashLoop_c_str _ _ hzero]
  · simp only [computeNameHash, specNameHash, computeNameHashLoop_c_str _ _ hzero]
    rw [foldl_hash_congr _ (fun b => b % 2 ^ 32) name (fun b _ => charToU32_unsigned b),
      foldl_hash_mod]
  · intro hascii
    simp only [computeNameHash, specNameHash, computeNameHashLoop_c_str _ _ hzero]
    rw [foldl_hash_congr _ (fun b => b) name (fun b hb => charToU32_ascii _ b (hascii b hb))]

/-- Witness of C10: the name `AB`. -/
theorem C10_witness :
    (∀ b ∈ [65, 66], b ≠ 0) ∧
    computeNameHash true (c_str [65, 66]) = charNameHash true [65, 66] ∧
    computeNameHash true (c_str [65, 66]) < 2 ^ 31 ∧
    computeNameHash false (c_str [65, 66]) = specNameHash [65, 66] ∧
    ((∀ b ∈ [65, 66], b < 128) → computeNameHash true (c_str [65, 66]) = specNameHash [65, 66]) :=
  ⟨by decide, C10_hash_is_char_polynomial true [65, 66] (by decide)⟩

theorem loadTextures_hash_lt (charIsSigned : Bool) (files : List SourceFile) :
    ∀ t ∈ loadTextures charIsSigned files, t.hash < 2 ^ 31 := by
  intro t ht
  rw [loadTextures_hash charIsSigned files t ht]
  exact computeNameHash_lt _ _

/-- The `nameHash` fields in the order of the sorted list. -/
theorem file_hashes_sorted (ts : List TextureHolder) (D : List Nat)
    (hsorted : ts.Pairwise (fun a b => a.hash ≤ b.hash)) (hlt : ∀ t ∈ ts, t.hash < 2 ^ 32) :
    (∀ i j : Nat, i < j → j < ts.length →
      entryNameHash (headerBytes ts ++ D) i ≤ entryNameHash (headerBytes ts ++ D) j) ∧
    ((ts.map (fun t => t.hash)).Nodup → ∀ i j : Nat, i < j → j < ts.length →
      entryNameHash (headerBytes ts ++ D) i < entryNameHash (headerBytes ts ++ D) j) := by
  have hfield : ∀ k (hk : k < ts.length),
      entryNameHash (headerBytes ts ++ D) k = ts[k].hash := by
    intro k hk
    rw [file_entryNameHash ts D k hk, castU32_of_lt (hlt _ (List.getElem_mem _))]
  constructor
  · intro i j hij hj
    rw [hfield i (by omega), hfield j hj]
    exact (List.pairwise_iff_getElem.mp hsorted) i j (by omega) hj hij
  · intro hnodup i j hij hj
    rw [hfield i (by omega), hfield j hj]
    have hle := (List.pairwise_iff_getElem.mp hsorted) i j (by omega) hj hij
    have hne : ts[i].hash ≠ ts[j].hash := by
      have hp := List.pairwise_map.mp hnodup
      exact (List.pairwise_iff_getElem.mp hp) i j (by omega) hj hij
    omega

/-- C3 as stated fails: the names `Aa` and `BB` both hash to 2112, so the two
entries of the package hold the same `nameHash`. -/
theorem C3_counterexample :
    loadTextures true collidingFiles ≠ [] ∧
    SortOutcome (loadTextures true collidingFiles) (loadTextures true collidingFiles) ∧
    ∃ file, writePackage (loadTextures true collidingFiles) = some file ∧
      entryNameHash file 0 = 2112 ∧ entryNameHash file 1 = 2112 ∧
      ¬ (entryNameHash file 0 < entryNameHash file 1) := by
  refine ⟨by decide, ⟨List.Perm.refl _, by decide⟩, _,
    writePackage_eq _ (pixelsReadable_of_inRange _ (by decide)), ?_⟩
  have h0 := file_entryNameHash (loadTextures true collidingFiles)
    (dataBytes (allImages (loadTextures true collidingFiles))) 0 (by decide)
  have h1 := file_entryNameHash (loadTextures true collidingFiles)
    (dataBytes (allImages (loadTextures true collidingFiles))) 1 (by decide)
  have e0 : castU32 (loadTextures true collidingFiles)[0].hash = 2112 := by decide
  have e1 : castU32 (loadTextures true collidingFiles)[1].hash = 2112 := by decide
  rw [e0] at h0
  rw [e1] at h1
  rw [h0, h1]
  exact ⟨rfl, rfl, by decide⟩

/-- C3 (as amended): for a non-empty list of loaded textures (pixel ranges
readable) and for every order the sort may leave them in, the `nameHash` fields
of the entry table are in non-decreasing order; they are strictly ascending when
no two textures have the same hash. -/
theorem C3_entry_hashes_ascending (charIsSigned : Bool) (files : List SourceFile)
    (sorted : List TextureHolder)
    (_hne : loadTextures charIsSigned files ≠ [])
    (hsort : SortOutcome (loadTextures charIsSigned files) sorted)
    (hrange : PixelsInRange (loadTextures charIsSigned files)) :
    ∃ file, writePackage sorted = some file ∧
      (∀ i j : Nat, i < j → j < (loadTextures charIsSigned files).length →
        entryNameHash file i ≤ entryNameHash file j) ∧
      (((loadTextures charIsSigned files).map (fun t => t.hash)).Nodup →
        ∀ i j : Nat, i < j → j < (loadTextures charIsSigned files).length →
          entryNameHash file i < entryNameHash file j) := by
  have hperm := hsort.1
  refine ⟨_, writePackage_eq sorted
    (pixelsReadable_of_inRange sorted (pixelsInRange_perm hperm hrange)), ?_⟩
  have h := file_hashes_sorted sorted (dataBytes (allImages sorted)) hsort.2
    (fun t ht => Nat.lt_trans
      (loadTextures_hash_lt charIsSigned files t (hperm.mem_iff.mp ht)) (by decide))
  rw [hperm.length_eq] at h
  refine ⟨h.1, fun hnodup => h.2 ?_⟩
  exact ((hperm.map _).nodup_iff).mpr hnodup

/-! ## Thumbnail selection -/

theorem scanLoop_some (images : List Image) :
    ∀ (j0 : Nat) (found : Image) (j : Nat), scanLoop images j0 = some (found, j) →
      j0 ≤ j ∧ images[j - j0]? = some found ∧ isSmall found ∧
        ∀ i : Nat, i < j - j0 → ∀ image, images[i]? = some image → ¬ isSmall image := by
  induction images with
  | nil => intro j0 found j h; simp [scanLoop] at h
  | cons image rest ih =>
    intro j0 found j h
    unfold scanLoop at h
    split at h
    · rename_i hsmall
      simp only [Option.some.injEq, Prod.mk.injEq] at h
      obtain ⟨rfl, rfl⟩ := h
      exact ⟨Nat.le_refl _, by simp, hsmall, fun i hi => by omega⟩
    · rename_i hbig
      obtain ⟨h1, h2, h3, h4⟩ := ih (j0 + 1) found j h
      have e : j - j0 = (j - (j0 + 1)) + 1 := by omega
      refine ⟨by omega, ?_, h3, ?_⟩
      · rw [e, List.getElem?_cons_succ]; exact h2
      · intro i hi im him
        cases i with
        | zero =>
          simp only [List.getElem?_cons_zero, Option.some.injEq] at him
          subst him
          exact hbig
        | succ i =>
          rw [List.getElem?_cons_succ] at him
          exact h4 i (by omega) im him

theorem scanLoop_none (images : List Image) (j0 : Nat) :
    scanLoop images j0 = none ↔ ∀ image ∈ images, ¬ isSmall image := by
  induction images generalizing j0 with
  | nil => simp [scanLoop]
  | cons image rest ih =>
    unfold scanLoop
    by_cases hsmall : image.width ≤ 4 ∨ image.height ≤ 4
    · rw [if_pos hsmall]
      simp only [List.mem_cons, forall_eq_or_imp, false_iff, not_and, reduceCtorEq]
      intro h
      exact absurd hsmall h
    · rw [if_neg hsmall, ih]
      simp only [List.mem_cons, forall_eq_or_imp]
      exact ⟨fun h => ⟨hsmall, h⟩, fun h => h.2⟩

theorem halveLoop_spec (width height index : Nat) :
    ∃ k : Nat, halveLoop width height index = (width >>> k, height >>> k, index + k) ∧
      (width >>> k ≤ 4 ∨ height >>> k ≤ 4) ∧
      ∀ k2 : Nat, k2 < k → ¬ (width >>> k2 ≤ 4 ∨ height >>> k2 ≤ 4) := by
  induction width using Nat.strong_induction_on generalizing height index with
  | _ width ih =>
    by_cases h : width > 4 ∧ height > 4
    · have hlt : width >>> 1 < width := by
        simp only [Nat.shiftRight_eq_div_pow, pow_one]; omega
      obtain ⟨k, hk1, hk2, hk3⟩ := ih (width >>> 1) hlt (height >>> 1) (index + 1)
      refine ⟨k + 1, ?_, ?_, ?_⟩
      · rw [halveLoop, dif_pos h, hk1, ← Nat.shiftRight_add, ← Nat.shiftRight_add,
          Nat.add_comm 1 k, Nat.add_assoc, Nat.add_comm 1 k]
      · rw [Nat.add_comm k 1, Nat.shiftRight_add, Nat.shiftRight_add]; exact hk2
      · intro k2 hk2lt
        cases k2 with
        | zero => simp only [Nat.shiftRight_zero]; omega
        | succ k2 =>
          rw [Nat.add_comm k2 1, Nat.shiftRight_add, Nat.shiftRight_add]
          exact hk3 k2 (by omega)
    · refine ⟨0, ?_, ?_, ?_⟩
      · rw [halveLoop, dif_neg h]; rfl
      · simp only [Nat.shiftRight_zero]; omega
      · intro k2 hk2; omega


/-! ## The sidecar buffer -/

theorem encodeInfo_length (a b c : Nat) : (encodeInfo a b c).length = 24 := by
  simp [encodeInfo, encodeLE_length]

theorem storeInfo_eq (buf : List Nat) (a b c : Nat) (f : List Nat → Option Sidecar) :
    (storeField buf 0 4 0x4953544E).bind (fun x =>
      (storeField x 4 4 1).bind (fun x =>
      (storeField x 8 4 0).bind (fun x =>
      (storeField x 12 4 (castU32 a)).bind (fun x =>
      (storeField x 16 4 (castU32 b)).bind (fun x =>
      (storeField x 20 4 (castU32 c)).bind f)))))
    = (store buf 0 (encodeInfo a b c)).bind f := by
  unfold encodeInfo storeField
  simp only [store_append, Option.bind_assoc, encodeLE_length, Nat.zero_add, Nat.add_assoc,
    Nat.reduceAdd]

theorem thumbnailBytes_length (thumb : Thumbnail)
    (hread : ∀ found, thumb.mip4x4Image = some found → thumb.mip4x4Size ≤ found.pixels.length) :
    (thumbnailBytes thumb).length = thumb.mip4x4Size := by
  unfold thumbnailBytes
  split
  · rename_i found hfound
    rw [List.length_take]
    exact Nat.min_eq_left (hread found hfound)
  · simp

/-- The sidecar buffer is the `Info` record, the package name with its
terminator, the thumbnail bytes and, in the last `0x94` bytes, what the encoder
stored. -/
theorem buildSidecar_eq (computePitch : Nat → Nat → Nat → Nat)
    (encodeDDSHeader : TexMetadata → Nat → EncodeResult) (stem : List Nat)
    (texture : TextureHolder)
    (hread : ∀ found, (selectThumbnail computePitch texture.image).mip4x4Image = some found →
      (selectThumbnail computePitch texture.image).mip4x4Size ≤ found.pixels.length)
    (henc : ∀ maxsize, (encodeDDSHeader texture.image.metadata maxsize).bytes.length ≤ 0x94) :
    buildSidecar computePitch encodeDDSHeader stem texture = some
      { ntsi :=
          encodeInfo (stem.length + 1) (selectThumbnail computePitch texture.image).mip4x4Size
            (selectThumbnail computePitch texture.image).mip4x4Index ++
          (c_str stem ++ (thumbnailBytes (selectThumbnail computePitch texture.image) ++
          ((encodeDDSHeader texture.image.metadata
              (sizeofInfo + stem.length + 1
                + (selectThumbnail computePitch texture.image).mip4x4Size + 0x94)).bytes ++
            List.replicate (0x94 - (encodeDDSHeader texture.image.metadata
              (sizeofInfo + stem.length + 1
                + (selectThumbnail computePitch texture.image).mip4x4Size + 0x94)).bytes.length)
              0)))
        totalSize :=
          (encodeDDSHeader texture.image.metadata
              (sizeofInfo + stem.length + 1
                + (selectThumbnail computePitch texture.image).mip4x4Size + 0x94)).required
            + (sizeofInfo + stem.length + 1
                + (selectThumbnail computePitch texture.image).mip4x4Size) } := by
  generalize hth : selectThumbnail computePitch texture.image = thumb at hread ⊢
  generalize hen : encodeDDSHeader texture.image.metadata
    (sizeofInfo + stem.length + 1 + thumb.mip4x4Size + 0x94) = encoded
  have hel : encoded.bytes.length ≤ 0x94 := by rw [← hen]; exact henc _
  have hinit : List.replicate (sizeofInfo + stem.length + 1 + thumb.mip4x4Size + 0x94) 0
      = [] ++ (List.replicate 24 0 ++ (List.replicate (stem.length + 1) 0 ++
        (List.replicate thumb.mip4x4Size 0 ++ (List.replicate encoded.bytes.length 0 ++
          List.replicate (0x94 - encoded.bytes.length) 0)))) := by
    simp only [List.nil_append, List.append_replicate_replicate, sizeofInfo]
    congr 1
    omega
  have h1 := store_at_right [] (List.replicate 24 0)
    (List.replicate (stem.length + 1) 0 ++
        (List.replicate thumb.mip4x4Size 0 ++ (List.replicate encoded.bytes.length 0 ++
          List.replicate (0x94 - encoded.bytes.length) 0)))
    (encodeInfo (stem.length + 1) thumb.mip4x4Size thumb.mip4x4Index) 0
    (by simp [encodeInfo_length]) rfl
  have h2 := store_at_right (encodeInfo (stem.length + 1) thumb.mip4x4Size thumb.mip4x4Index)
    (List.replicate (stem.length + 1) 0)
    (List.replicate thumb.mip4x4Size 0 ++ (List.replicate encoded.bytes.length 0 ++
          List.replicate (0x94 - encoded.bytes.length) 0))
    (c_str stem) sizeofInfo (by simp [c_str_length]) (by simp [encodeInfo_length, sizeofInfo])
  have h3 := store_at_right
    (encodeInfo (stem.length + 1) thumb.mip4x4Size thumb.mip4x4Index ++ c_str stem)
    (List.replicate thumb.mip4x4Size 0)
    (List.replicate encoded.bytes.length 0 ++ List.replicate (0x94 - encoded.bytes.length) 0)
    (thumbnailBytes thumb) (sizeofInfo + stem.length + 1)
    (by simp [thumbnailBytes_length thumb hread])
    (by simp [encodeInfo_length, sizeofInfo, c_str_length]; omega)
  have h4 := store_at_right
    (encodeInfo (stem.length + 1) thumb.mip4x4Size thumb.mip4x4Index ++ (c_str stem
      ++ thumbnailBytes thumb))
    (List.replicate encoded.bytes.length 0) (List.replicate (0x94 - encoded.bytes.length) 0)
    encoded.bytes (sizeofInfo + stem.length + 1 + thumb.mip4x4Size) (by simp)
    (by simp [encodeInfo_length, sizeofInfo, c_str_length, thumbnailBytes_length thumb hread]
        omega)
  simp only [List.append_assoc, List.nil_append] at h1 h2 h3 h4 hinit
  simp only [buildSidecar, Option.bind_eq_bind, hth, hen]
  rw [storeInfo_eq, hinit, h1, Option.some_bind]
  simp only [memcpy, readBytes_c_str, Option.some_bind, h2]
  unfold thumbnailBytes at h3 h4
  split
  · rename_i found hfound
    have hle := hread found hfound
    simp only [hfound] at h3 h4
    simp only [readBytes, if_pos hle, Option.some_bind, h3, h4, thumbnailBytes, hfound]
  · rename_i hnone
    simp only [hnone] at h3 h4
    simp only [memset, Option.some_bind, h3, h4, thumbnailBytes, hnone]


theorem load_take (buf : List Nat) (n off len : Nat) (h : off + len ≤ n) :
    load (buf.take n) off len = load buf off len := by
  unfold load
  rw [List.drop_take, List.take_take, Nat.min_eq_left (by omega)]

/-- The thumbnail region of the sidecar buffer and of the sidecar file. -/
theorem sidecar_thumbnail (computePitch : Nat → Nat → Nat → Nat)
    (encodeDDSHeader : TexMetadata → Nat → EncodeResult) (stem : List Nat)
    (texture : TextureHolder)
    (hread : ∀ found, (selectThumbnail computePitch texture.image).mip4x4Image = some found →
      (selectThumbnail computePitch texture.image).mip4x4Size ≤ found.pixels.length)
    (henc : ∀ maxsize, (encodeDDSHeader texture.image.metadata maxsize).bytes.length ≤ 0x94) :
    ∃ sidecar, buildSidecar computePitch encodeDDSHeader stem texture = some sidecar ∧
      sidecar.ntsi.length = sizeofInfo + stem.length + 1
        + (selectThumbnail computePitch texture.image).mip4x4Size + 0x94 ∧
      load sidecar.ntsi (sizeofInfo + stem.length + 1)
          (selectThumbnail computePitch texture.image).mip4x4Size
        = thumbnailBytes (selectThumbnail computePitch texture.image) ∧
      ((encodeDDSHeader texture.image.metadata (sizeofInfo + stem.length + 1
          + (selectThumbnail computePitch texture.image).mip4x4Size + 0x94)).required ≤ 0x94 →
        ∃ file, sidecarFile computePitch encodeDDSHeader stem texture = some file ∧
          load file (sizeofInfo + stem.length + 1)
              (selectThumbnail computePitch texture.image).mip4x4Size
            = thumbnailBytes (selectThumbnail computePitch texture.image)) := by
  have hb := buildSidecar_eq computePitch encodeDDSHeader stem texture hread henc
  have hl := thumbnailBytes_length _ hread
  have hel := henc (sizeofInfo + stem.length + 1
          + (selectThumbnail computePitch texture.image).mip4x4Size + 0x94)
  have hs : sizeofInfo = 24 := rfl
  generalize encodeDDSHeader texture.image.metadata (sizeofInfo + stem.length + 1
          + (selectThumbnail computePitch texture.image).mip4x4Size + 0x94) = encoded at hb hel ⊢
  generalize selectThumbnail computePitch texture.image = thumb at hb hl ⊢
  have hlen : (encodeInfo (stem.length + 1) thumb.mip4x4Size thumb.mip4x4Index ++
      (c_str stem ++ (thumbnailBytes thumb ++
      (encoded.bytes ++ List.replicate (0x94 - encoded.bytes.length) 0)))).length
        = sizeofInfo + stem.length + 1 + thumb.mip4x4Size + 0x94 := by
    simp only [List.length_append, encodeInfo_length, c_str_length, hl, List.length_replicate]
    omega
  have hload : load (encodeInfo (stem.length + 1) thumb.mip4x4Size thumb.mip4x4Index ++
      (c_str stem ++ (thumbnailBytes thumb ++
      (encoded.bytes ++ List.replicate (0x94 - encoded.bytes.length) 0))))
        (sizeofInfo + stem.length + 1) thumb.mip4x4Size
      = thumbnailBytes thumb := by
    have e : sizeofInfo + stem.length + 1 = 24 + ((stem.length + 1) + 0) := by omega
    rw [e, load_skip _ _ _ _ _ (encodeInfo_length _ _ _),
      load_skip _ _ _ _ _ (c_str_length stem)]
    exact load_head _ _ _ hl
  refine ⟨_, hb, hlen, hload, ?_⟩
  intro hreq
  refine ⟨(encodeInfo (stem.length + 1) thumb.mip4x4Size thumb.mip4x4Index ++
      (c_str stem ++ (thumbnailBytes thumb ++
      (encoded.bytes ++ List.replicate (0x94 - encoded.bytes.length) 0)))).take
        (encoded.required + (sizeofInfo + stem.length + 1 + thumb.mip4x4Size)), ?_, ?_⟩
  · simp only [sidecarFile, hb, Option.some_bind, fwrite, readBytes]
    rw [if_pos (by rw [hlen]; omega)]
    rfl
  · rw [load_take _ _ _ _ (by omega)]
    exact hload


/-! ## The thumbnail: claims C7 to C9 -/

theorem squareImage_width (n fill : Nat) : (squareImage n fill).width = n := rfl

theorem squareImage_height (n fill : Nat) : (squareImage n fill).height = n := rfl

theorem squareImage_slicePitch (n fill : Nat) : (squareImage n fill).slicePitch = n * n := rfl

/-- What the scan finds when some image is small. -/
theorem selectThumbnail_found (computePitch : Nat → Nat → Nat → Nat) (image : ScratchImage)
    (hex : ∃ level ∈ image.images, level.width ≤ 4 ∨ level.height ≤ 4) :
    ∃ (j : Nat) (hj : j < image.images.length),
      (image.images[j].width ≤ 4 ∨ image.images[j].height ≤ 4) ∧
      (∀ (i : Nat) (hi : i < j), ¬ (image.images[i].width ≤ 4 ∨ image.images[i].height ≤ 4)) ∧
      selectThumbnail computePitch image =
        { mip4x4Image := some image.images[j]
          mip4x4Size := image.images[j].slicePitch
          mip4x4Index := j } := by
  cases hscan : scanLoop image.images 0 with
  | none =>
    obtain ⟨level, hmem, hsmall⟩ := hex
    exact absurd hsmall ((scanLoop_none _ _).mp hscan level hmem)
  | some p =>
    obtain ⟨found, j⟩ := p
    obtain ⟨_, hget, hsmall, hbefore⟩ := scanLoop_some _ _ _ _ hscan
    rw [Nat.sub_zero] at hget hbefore
    obtain ⟨hj, hfound⟩ := List.getElem?_eq_some_iff.mp hget
    subst hfound
    refine ⟨j, hj, hsmall, ?_, ?_⟩
    · intro i hi
      exact hbefore i hi _ (List.getElem?_eq_getElem (by omega))
    · simp only [selectThumbnail, hscan]

/-- C7: for a texture whose images include one with `width <= 4` or
`height <= 4` (pixel ranges readable, the encoder storing at most `0x94` bytes),
the selector picks the first such image: the recorded index `j` is the least
index of such an image, the recorded size is its `slicePitch`, and the thumbnail
bytes of the sidecar buffer, and of the sidecar file when it is written whole,
are the `slicePitch` bytes at its pixels. -/
theorem C7_thumbnail_is_first_small_level (computePitch : Nat → Nat → Nat → Nat)
    (encodeDDSHeader : TexMetadata → Nat → EncodeResult) (stem : List Nat)
    (texture : TextureHolder)
    (hex : ∃ level ∈ texture.image.images, level.width ≤ 4 ∨ level.height ≤ 4)
    (hrange : ∀ level ∈ texture.image.images, level.slicePitch ≤ level.pixels.length)
    (henc : ∀ maxsize, (encodeDDSHeader texture.image.metadata maxsize).bytes.length ≤ 0x94) :
    ∃ (j : Nat) (hj : j < texture.image.images.length),
      (texture.image.images[j].width ≤ 4 ∨ texture.image.images[j].height ≤ 4) ∧
      (∀ (i : Nat) (hi : i < j),
        ¬ (texture.image.images[i].width ≤ 4 ∨ texture.image.images[i].height ≤ 4)) ∧
      (selectThumbnail computePitch texture.image).mip4x4Index = j ∧
      (selectThumbnail computePitch texture.image).mip4x4Size
        = texture.image.images[j].slicePitch ∧
      (selectThumbnail computePitch texture.image).mip4x4Image
        = some texture.image.images[j] ∧
      ∃ sidecar, buildSidecar computePitch encodeDDSHeader stem texture = some sidecar ∧
        load sidecar.ntsi (sizeofInfo + stem.length + 1) texture.image.images[j].slicePitch
          = texture.image.images[j].pixels.take texture.image.images[j].slicePitch ∧
        ((encodeDDSHeader texture.image.metadata (sizeofInfo + stem.length + 1
            + texture.image.images[j].slicePitch + 0x94)).required ≤ 0x94 →
          ∃ file, sidecarFile computePitch encodeDDSHeader stem texture = some file ∧
            load file (sizeofInfo + stem.length + 1) texture.image.images[j].slicePitch
              = texture.image.images[j].pixels.take texture.image.images[j].slicePitch) := by
  obtain ⟨j, hj, hsmall, hbefore, hsel⟩ := selectThumbnail_found computePitch texture.image hex
  have hread : ∀ found,
      (selectThumbnail computePitch texture.image).mip4x4Image = some found →
      (selectThumbnail computePitch texture.image).mip4x4Size ≤ found.pixels.length := by
    intro found hfound
    rw [hsel] at hfound ⊢
    simp only [Option.some.injEq] at hfound
    subst hfound
    exact hrange _ (List.getElem_mem _)
  obtain ⟨sidecar, hbuild, _, hload, hfile⟩ :=
    sidecar_thumbnail computePitch encodeDDSHeader stem texture hread henc
  rw [hsel] at hload hfile
  simp only [thumbnailBytes] at hload hfile
  exact ⟨j, hj, hsmall, hbefore, by rw [hsel], by rw [hsel], by rw [hsel],
    sidecar, hbuild, hload, hfile⟩

/-- What the selector synthesizes when no image is small. -/
theorem selectThumbnail_synthesized (computePitch : Nat → Nat → Nat → Nat) (image : ScratchImage)
    (hnone : ∀ level ∈ image.images, ¬ (level.width ≤ 4 ∨ level.height ≤ 4)) :
    ∃ k : Nat,
      (image.metadata.width >>> k ≤ 4 ∨ image.metadata.height >>> k ≤ 4) ∧
      (∀ k2 : Nat, k2 < k →
        ¬ (image.metadata.width >>> k2 ≤ 4 ∨ image.metadata.height >>> k2 ≤ 4)) ∧
      halveLoop image.metadata.width image.metadata.height 0
        = (image.metadata.width >>> k, image.metadata.height >>> k, k) ∧
      selectThumbnail computePitch image =
        { mip4x4Image := none
          mip4x4Size := computePitch image.metadata.format (image.metadata.width >>> k)
            (image.metadata.height >>> k)
          mip4x4Index := k } := by
  have hscan : scanLoop image.images 0 = none := (scanLoop_none _ _).mpr hnone
  obtain ⟨k, hk1, hk2, hk3⟩ := halveLoop_spec image.metadata.width image.metadata.height 0
  rw [Nat.zero_add] at hk1
  refine ⟨k, hk2, hk3, hk1, ?_⟩
  simp only [selectThumbnail, hscan, hk1]

/-- C8: for a texture none of whose images has `width <= 4` or `height <= 4`
(the encoder storing at most `0x94` bytes) the thumbnail is synthesized: with
base dimensions `W x H` the recorded index is the number `k` of halvings the
loop performs, the least `k` with `W >> k <= 4` or `H >> k <= 4`; the recorded
size is `computePitch format (W >> k) (H >> k)`; no image is selected; and the
thumbnail bytes of the sidecar buffer, and of the sidecar file when it is
written whole, are that many zero bytes.  The chain 64, 32, 16 yields index 4
and size `computePitch format 4 4`. -/
theorem C8_thumbnail_is_synthesized (computePitch : Nat → Nat → Nat → Nat)
    (encodeDDSHeader : TexMetadata → Nat → EncodeResult) (stem : List Nat)
    (texture : TextureHolder)
    (hnone : ∀ level ∈ texture.image.images, ¬ (level.width ≤ 4 ∨ level.height ≤ 4))
    (henc : ∀ maxsize, (encodeDDSHeader texture.image.metadata maxsize).bytes.length ≤ 0x94) :
    (∃ k : Nat,
      (texture.image.metadata.width >>> k ≤ 4 ∨ texture.image.metadata.height >>> k ≤ 4) ∧
      (∀ k2 : Nat, k2 < k →
        ¬ (texture.image.metadata.width >>> k2 ≤ 4 ∨ texture.image.metadata.height >>> k2 ≤ 4)) ∧
      (halveLoop texture.image.metadata.width texture.image.metadata.height 0).2.2 = k ∧
      (selectThumbnail computePitch texture.image).mip4x4Index = k ∧
      (selectThumbnail computePitch texture.image).mip4x4Image = none ∧
      (selectThumbnail computePitch texture.image).mip4x4Size
        = computePitch texture.image.metadata.format (texture.image.metadata.width >>> k)
            (texture.image.metadata.height >>> k) ∧
      ∃ sidecar, buildSidecar computePitch encodeDDSHeader stem texture = some sidecar ∧
        load sidecar.ntsi (sizeofInfo + stem.length + 1)
            (computePitch texture.image.metadata.format (texture.image.metadata.width >>> k)
              (texture.image.metadata.height >>> k))
          = List.replicate
              (computePitch texture.image.metadata.format (texture.image.metadata.width >>> k)
                (texture.image.metadata.height >>> k)) 0 ∧
        ((encodeDDSHeader texture.image.metadata (sizeofInfo + stem.length + 1
            + computePitch texture.image.metadata.format (texture.image.metadata.width >>> k)
                (texture.image.metadata.height >>> k) + 0x94)).required ≤ 0x94 →
          ∃ file, sidecarFile computePitch encodeDDSHeader stem texture = some file ∧
            load file (sizeofInfo + stem.length + 1)
                (computePitch texture.image.metadata.format (texture.image.metadata.width >>> k)
                  (texture.image.metadata.height >>> k))
              = List.replicate
                  (computePitch texture.image.metadata.format
                    (texture.image.metadata.width >>> k) (texture.image.metadata.height >>> k))
                  0)) ∧
    ∀ format : Nat, selectThumbnail computePitch (shortChain format) =
      { mip4x4Image := none, mip4x4Size := computePitch format 4 4, mip4x4Index := 4 } := by
  constructor
  · obtain ⟨k, hk1, hk2, hk3, hsel⟩ :=
      selectThumbnail_synthesized computePitch texture.image hnone
    have hread : ∀ found,
        (selectThumbnail computePitch texture.image).mip4x4Image = some found →
        (selectThumbnail computePitch texture.image).mip4x4Size ≤ found.pixels.length := by
      intro found hfound
      rw [hsel] at hfound
      cases hfound
    obtain ⟨sidecar, hbuild, _, hload, hfile⟩ :=
      sidecar_thumbnail computePitch encodeDDSHeader stem texture hread henc
    rw [hsel] at hload hfile
    simp only [thumbnailBytes] at hload hfile
    exact ⟨k, hk1, hk2, by rw [hk3], by rw [hsel], by rw [hsel], by rw [hsel],
      sidecar, hbuild, hload, hfile⟩
  · intro format
    simp [selectThumbnail, shortChain, scanLoop, squareImage_width, squareImage_height, halveLoop]

/-- C9 as stated fails: in the chain 256, 128, 64, 32, 16, 8, 4, 2, 1 the
selector records index 6; the image at index 7 is the 2x2 one. -/
theorem C9_counterexample :
    (selectThumbnail (fun _ width height => width * height) fullChain).mip4x4Index = 6 ∧
    (selectThumbnail (fun _ width height => width * height) fullChain).mip4x4Index ≠ 7 ∧
    fullChain.images[7]? = some (squareImage 2 8) := by
  decide

/-- C9 (as amended): for the chain 256, 128, 64, 32, 16, 8, 4, 2, 1 the selector
selects the 4x4 image, which is at index 6 counting from 0 (the seventh image),
with its size, without synthesis, whatever the pitch function; and the thumbnail
bytes of the sidecar buffer are its pixels. -/
theorem C9_full_chain_selects_4x4 (computePitch : Nat → Nat → Nat → Nat) :
    selectThumbnail computePitch fullChain =
      { mip4x4Image := some (squareImage 4 7), mip4x4Size := 16, mip4x4Index := 6 } ∧
    fullChain.images[6]? = some (squareImage 4 7) ∧
    (squareImage 4 7).width = 4 ∧ (squareImage 4 7).height = 4 ∧
    ∀ (encodeDDSHeader : TexMetadata → Nat → EncodeResult) (stem filePath name : List Nat)
      (hash : Nat),
      (∀ maxsize, (encodeDDSHeader fullChain.metadata maxsize).bytes.length ≤ 0x94) →
      ∃ sidecar, buildSidecar computePitch encodeDDSHeader stem
          { filePath := filePath, name := name, hash := hash, image := fullChain } = some sidecar ∧
        load sidecar.ntsi (sizeofInfo + stem.length + 1) 16 = (squareImage 4 7).pixels := by
  have hsel : selectThumbnail computePitch fullChain =
      { mip4x4Image := some (squareImage 4 7), mip4x4Size := 16, mip4x4Index := 6 } := by
    simp [selectThumbnail, fullChain, scanLoop, squareImage_width, squareImage_height,
      squareImage_slicePitch]
  refine ⟨hsel, rfl, rfl, rfl, ?_⟩
  intro encodeDDSHeader stem filePath name hash henc
  have hread : ∀ found,
      (selectThumbnail computePitch fullChain).mip4x4Image = some found →
      (selectThumbnail computePitch fullChain).mip4x4Size ≤ found.pixels.length := by
    intro found hfound
    rw [hsel] at hfound ⊢
    simp only [Option.some.injEq] at hfound
    subst hfound
    decide
  obtain ⟨sidecar, hbuild, _, hload, _⟩ := sidecar_thumbnail computePitch encodeDDSHeader stem
    { filePath := filePath, name := name, hash := hash, image := fullChain } hread henc
  simp only [hsel, thumbnailBytes] at hload
  refine ⟨sidecar, hbuild, ?_⟩
  rw [hload]
  decide


/-! ## Witnesses -/

/-- Witness of C1: the textures `AB` (8x8 with two levels) and `B`. -/
theorem C1_witness :
    ([smallTexture, pairTexture] ≠ [] ∧
      SortOutcome [smallTexture, pairTexture] (sortTextures [smallTexture, pairTexture]) ∧
      (∀ t ∈ [smallTexture, pairTexture], ∀ image ∈ t.image.images,
        image.pixels.length = image.slicePitch) ∧
      totalBlobs [smallTexture, pairTexture] < 2 ^ 32 ∧
      packageSize [smallTexture, pairTexture] < 2 ^ 64) ∧
    ∃ file, writePackage (sortTextures [smallTexture, pairTexture]) = some file ∧
      ∀ (k : Nat) (hk : k < (sortTextures [smallTexture, pairTexture]).length) (i : Nat),
        i < entryBlobCount file k →
        ∃ hi : i < (sortTextures [smallTexture, pairTexture])[k].image.images.length,
          blobDataSize file [smallTexture, pairTexture].length (entryBlobIndex file k + i)
            = (sortTextures [smallTexture, pairTexture])[k].image.images[i].slicePitch ∧
          load file
              (blobDataOffset file [smallTexture, pairTexture].length (entryBlobIndex file k + i))
              (blobDataSize file [smallTexture, pairTexture].length (entryBlobIndex file k + i))
            = (sortTextures [smallTexture, pairTexture])[k].image.images[i].pixels :=
  ⟨⟨by decide, sortTextures_outcome _, by decide, by decide, by decide⟩,
    C1_blob_records_hold_pixels [smallTexture, pairTexture] _ (by decide)
      (sortTextures_outcome _) (by decide) (by decide) (by decide)⟩

/-- Witness of C2: the textures `AB` and `B`. -/
theorem C2_witness :
    ([smallTexture, pairTexture] ≠ [] ∧
      SortOutcome [smallTexture, pairTexture] (sortTextures [smallTexture, pairTexture]) ∧
      (∀ t ∈ [smallTexture, pairTexture], ∀ b ∈ t.name, b ≠ 0) ∧
      PixelsInRange [smallTexture, pairTexture] ∧
      (computeLayout [smallTexture, pairTexture]).headerSize < 2 ^ 64) ∧
    ∃ file, writePackage (sortTextures [smallTexture, pairTexture]) = some file ∧
      ∀ (k : Nat) (hk : k < (sortTextures [smallTexture, pairTexture]).length),
        readCString file (entryNameOffset file k)
          = (sortTextures [smallTexture, pairTexture])[k].name ∧
        entryNameHash file k = castU32 (sortTextures [smallTexture, pairTexture])[k].hash ∧
        entryBlobCount file k
          = castU32 (sortTextures [smallTexture, pairTexture])[k].image.images.length ∧
        entryWidth file k
          = castU16 (sortTextures [smallTexture, pairTexture])[k].image.metadata.width ∧
        entryHeight file k
          = castU16 (sortTextures [smallTexture, pairTexture])[k].image.metadata.height :=
  ⟨⟨by decide, sortTextures_outcome _, by decide, by decide, by decide⟩,
    C2_name_offset_reads_name [smallTexture, pairTexture] _ (by decide)
      (sortTextures_outcome _) (by decide) (by decide) (by decide)⟩

/-- Witness of C3: the files `Aa.dds` and `BB.dds`. -/
theorem C3_witness :
    (loadTextures true collidingFiles ≠ [] ∧
      SortOutcome (loadTextures true collidingFiles)
        (sortTextures (loadTextures true collidingFiles)) ∧
      PixelsInRange (loadTextures true collidingFiles)) ∧
    ∃ file, writePackage (sortTextures (loadTextures true collidingFiles)) = some file ∧
      (∀ i j : Nat, i < j → j < (loadTextures true collidingFiles).length →
        entryNameHash file i ≤ entryNameHash file j) ∧
      (((loadTextures true collidingFiles).map (fun t => t.hash)).Nodup →
        ∀ i j : Nat, i < j → j < (loadTextures true collidingFiles).length →
          entryNameHash file i < entryNameHash file j) :=
  ⟨⟨by decide, sortTextures_outcome _, by decide⟩,
    C3_entry_hashes_ascending true collidingFiles _ (by decide) (sortTextures_outcome _)
      (by decide)⟩

/-- Witness of C4: the textures `AB` and `B`, whose header has 24 + 48 + 48 + 5
bytes. -/
theorem C4_witness :
    [pairTexture, smallTexture] ≠ [] ∧
    (computeLayout [pairTexture, smallTexture]).headerSize = 125 ∧
    ∃ ntsp, buildHeader [pairTexture, smallTexture] = some ntsp ∧ ntsp.length = 125 := by
  have h := C4_header_size_and_fill [pairTexture, smallTexture] (by decide)
  obtain ⟨_, _, ⟨ntsp, h1, h2⟩, _⟩ := h
  exact ⟨by decide, by decide, ntsp, h1, by rw [h2]; decide⟩

/-- Witness of C5: the textures `AB` and `B`. -/
theorem C5_witness :
    ([smallTexture, pairTexture] ≠ [] ∧
      SortOutcome [smallTexture, pairTexture] (sortTextures [smallTexture, pairTexture]) ∧
      PixelsInRange [smallTexture, pairTexture] ∧
      packageSize [smallTexture, pairTexture] < 2 ^ 64) ∧
    ∃ file, writePackage (sortTextures [smallTexture, pairTexture]) = some file ∧
      (0 < totalBlobs [smallTexture, pairTexture] →
        blobDataOffset file [smallTexture, pairTexture].length 0
          = (computeLayout [smallTexture, pairTexture]).headerSize) ∧
      (∀ i : Nat, 0 < i → i < totalBlobs [smallTexture, pairTexture] →
        blobDataOffset file [smallTexture, pairTexture].length i
          = blobDataOffset file [smallTexture, pairTexture].length (i - 1)
            + blobDataSize file [smallTexture, pairTexture].length (i - 1)) ∧
      (0 < totalBlobs [smallTexture, pairTexture] →
        blobDataOffset file [smallTexture, pairTexture].length
              (totalBlobs [smallTexture, pairTexture] - 1)
            + blobDataSize file [smallTexture, pairTexture].length
              (totalBlobs [smallTexture, pairTexture] - 1)
          = file.length) ∧
      ((List.range (totalBlobs [smallTexture, pairTexture])).map
          (blobDataSize file [smallTexture, pairTexture].length)).sum
        = file.length - (computeLayout [smallTexture, pairTexture]).headerSize :=
  ⟨⟨by decide, sortTextures_outcome _, by decide, by decide⟩,
    C5_blobs_tile_data_section [smallTexture, pairTexture] _ (by decide)
      (sortTextures_outcome _) (by decide) (by decide)⟩

/-- Witness of C6: the textures `AB` and `B`. -/
theorem C6_witness :
    ([smallTexture, pairTexture] ≠ [] ∧
      SortOutcome [smallTexture, pairTexture] (sortTextures [smallTexture, pairTexture]) ∧
      PixelsInRange [smallTexture, pairTexture] ∧
      totalBlobs [smallTexture, pairTexture] < 2 ^ 32) ∧
    ∃ file, writePackage (sortTextures [smallTexture, pairTexture]) = some file ∧
      entryBlobIndex file 0 = 0 ∧
      (∀ k : Nat, 0 < k → k < [smallTexture, pairTexture].length →
        entryBlobIndex file k = entryBlobIndex file (k - 1) + entryBlobCount file (k - 1)) ∧
      (∀ (k : Nat) (hk : k < (sortTextures [smallTexture, pairTexture]).length),
        entryBlobCount file k
          = (sortTextures [smallTexture, pairTexture])[k].image.images.length) ∧
      entryBlobIndex file ([smallTexture, pairTexture].length - 1)
          + entryBlobCount file ([smallTexture, pairTexture].length - 1)
        = packageBlobCount file ∧
      ((List.range [smallTexture, pairTexture].length).map (entryBlobCount file)).sum
        = packageBlobCount file :=
  ⟨⟨by decide, sortTextures_outcome _, by decide, by decide⟩,
    C6_entries_partition_blob_table [smallTexture, pairTexture] _ (by decide)
      (sortTextures_outcome _) (by decide) (by decide)⟩

/-- Witness of C7: the texture `AB`, whose second image is 4x4. -/
theorem C7_witness :
    ((∃ level ∈ smallTexture.image.images, level.width ≤ 4 ∨ level.height ≤ 4) ∧
      (∀ level ∈ smallTexture.image.images, level.slicePitch ≤ level.pixels.length) ∧
      (∀ maxsize, (fullEncoder smallTexture.image.metadata maxsize).bytes.length ≤ 0x94)) ∧
    (selectThumbnail bytePitch smallTexture.image).mip4x4Index = 1 ∧
    ∃ sidecar, buildSidecar bytePitch fullEncoder [80] smallTexture = some sidecar ∧
      load sidecar.ntsi (sizeofInfo + 1 + 1) 16 = List.replicate 16 5 := by
  have hex : ∃ level ∈ smallTexture.image.images, level.width ≤ 4 ∨ level.height ≤ 4 := by
    decide
  have hrange : ∀ level ∈ smallTexture.image.images, level.slicePitch ≤ level.pixels.length := by
    decide
  have henc : ∀ maxsize, (fullEncoder smallTexture.image.metadata maxsize).bytes.length ≤ 0x94 :=
    fun _ => by simp [fullEncoder]
  refine ⟨⟨hex, hrange, henc⟩, ?_⟩
  obtain ⟨j, hj, _, _, hidx, hsize, himg, sidecar, hbuild, hload, _⟩ :=
    C7_thumbnail_is_first_small_level bytePitch fullEncoder [80] smallTexture hex hrange henc
  have h1 : (selectThumbnail bytePitch smallTexture.image).mip4x4Index = 1 := by decide
  have hj1 : j = 1 := by rw [← hidx, h1]
  subst hj1
  exact ⟨h1, sidecar, hbuild, hload⟩

/-- Witness of C8: the texture `C` holding the chain 64, 32, 16. -/
theorem C8_witness :
    ((∀ level ∈ truncatedTexture.image.images, ¬ (level.width ≤ 4 ∨ level.height ≤ 4)) ∧
      (∀ maxsize, (fullEncoder truncatedTexture.image.metadata maxsize).bytes.length ≤ 0x94)) ∧
    selectThumbnail bytePitch truncatedTexture.image =
      { mip4x4Image := none, mip4x4Size := bytePitch 61 4 4, mip4x4Index := 4 } ∧
    ∃ sidecar, buildSidecar bytePitch fullEncoder [80] truncatedTexture = some sidecar ∧
      load sidecar.ntsi (sizeofInfo + 1 + 1) 16 = List.replicate 16 0 := by
  have hnone : ∀ level ∈ truncatedTexture.image.images,
      ¬ (level.width ≤ 4 ∨ level.height ≤ 4) := by decide
  have henc : ∀ maxsize,
      (fullEncoder truncatedTexture.image.metadata maxsize).bytes.length ≤ 0x94 :=
    fun _ => by simp [fullEncoder]
  obtain ⟨⟨k, _, _, _, hidx, _, _, sidecar, hbuild, hload, _⟩, hchain⟩ :=
    C8_thumbnail_is_synthesized bytePitch fullEncoder [80] truncatedTexture hnone henc
  have hsel := hchain 61
  have hk : k = 4 := by
    rw [← hidx]
    show (selectThumbnail bytePitch (shortChain 61)).mip4x4Index = 4
    rw [hsel]
  subst hk
  exact ⟨⟨hnone, henc⟩, hsel, sidecar, hbuild, hload⟩

/-! ## Hash examples, the halving loop and the name offsets: C11, C20 and C18 -/

/-- C11: `computeNameHash("A")` is 65, `computeNameHash("AB")` is
`65 * 31 + 66 = 2081` and `computeNameHash("")` is 0, whether `char` is signed
or not. -/
theorem C11_hash_examples (charIsSigned : Bool) :
    computeNameHash charIsSigned (c_str [65]) = 65 ∧
    computeNameHash charIsSigned (c_str [65, 66]) = 65 * 31 + 66 ∧
    65 * 31 + 66 = 2081 ∧
    computeNameHash charIsSigned (c_str []) = 0 := by
  cases charIsSigned <;> decide

/-- C20: in the synthesis branch, for base width and height both above 4 the
halving loop ends after `k >= 1` iterations with `(W >> k, H >> k)`; these are
the dimensions passed to the pitch function, both are at least 2 and one of
them is at most 4. -/
theorem C20_halving_stops_above_zero (computePitch : Nat → Nat → Nat → Nat)
    (image : ScratchImage)
    (hnone : ∀ level ∈ image.images, ¬ (level.width ≤ 4 ∨ level.height ≤ 4))
    (hw : image.metadata.width > 4) (hh : image.metadata.height > 4) :
    ∃ k : Nat, 0 < k ∧
      halveLoop image.metadata.width image.metadata.height 0
        = (image.metadata.width >>> k, image.metadata.height >>> k, k) ∧
      (selectThumbnail computePitch image).mip4x4Size
        = computePitch image.metadata.format (image.metadata.width >>> k)
            (image.metadata.height >>> k) ∧
      2 ≤ image.metadata.width >>> k ∧ 2 ≤ image.metadata.height >>> k ∧
      (image.metadata.width >>> k ≤ 4 ∨ image.metadata.height >>> k ≤ 4) := by
  obtain ⟨k, hsmall, hleast, hloop, hsel⟩ := selectThumbnail_synthesized computePitch image hnone
  have hpos : 0 < k := by
    rcases Nat.eq_zero_or_pos k with h0 | h0
    · subst h0
      simp only [Nat.shiftRight_zero] at hsmall
      omega
    · exact h0
  obtain ⟨m, rfl⟩ : ∃ m, k = m + 1 := ⟨k - 1, by omega⟩
  have hprev := hleast m (by omega)
  have e1 : image.metadata.width >>> (m + 1) = (image.metadata.width >>> m) / 2 :=
    Nat.shiftRight_succ _ _
  have e2 : image.metadata.height >>> (m + 1) = (image.metadata.height >>> m) / 2 :=
    Nat.shiftRight_succ _ _
  refine ⟨m + 1, hpos, hloop, by rw [hsel], ?_, ?_, hsmall⟩
  · rw [e1]; omega
  · rw [e2]; omega

/-- Witness of C20: the chain 64, 32, 16 of a 64x64 texture. -/
theorem C20_witness :
    ((∀ level ∈ (shortChain 61).images, ¬ (level.width ≤ 4 ∨ level.height ≤ 4)) ∧
      (shortChain 61).metadata.width > 4 ∧ (shortChain 61).metadata.height > 4) ∧
    ∃ k : Nat, 0 < k ∧
      halveLoop (shortChain 61).metadata.width (shortChain 61).metadata.height 0
        = ((shortChain 61).metadata.width >>> k, (shortChain 61).metadata.height >>> k, k) ∧
      (selectThumbnail bytePitch (shortChain 61)).mip4x4Size
        = bytePitch (shortChain 61).metadata.format ((shortChain 61).metadata.width >>> k)
            ((shortChain 61).metadata.height >>> k) ∧
      2 ≤ (shortChain 61).metadata.width >>> k ∧ 2 ≤ (shortChain 61).metadata.height >>> k ∧
      ((shortChain 61).metadata.width >>> k ≤ 4 ∨ (shortChain 61).metadata.height >>> k ≤ 4) :=
  ⟨⟨by decide, by decide, by decide⟩,
    C20_halving_stops_above_zero bytePitch (shortChain 61) (by decide) (by decide) (by decide)⟩

theorem totalNames_take_succ (ts : List TextureHolder) (k : Nat) (hk : k < ts.length) :
    totalNames (ts.take (k + 1)) = totalNames (ts.take k) + (ts[k].name.length + 1) := by
  induction ts generalizing k with
  | nil => simp at hk
  | cons t rest ih =>
    cases k with
    | zero => simp [totalNames]
    | succ k =>
      have hk2 : k < rest.length := by simpa using hk
      have := ih k hk2
      simp only [totalNames, List.take_succ_cons, List.map_cons, List.sum_cons,
        List.getElem_cons_succ] at this ⊢
      omega

theorem totalNames_take_strict (ts : List TextureHolder) (i j : Nat) (hij : i < j)
    (hj : j ≤ ts.length) : totalNames (ts.take i) < totalNames (ts.take j) := by
  have hlen : i < (ts.take j).length := by rw [List.length_take]; omega
  have h := totalNames_take_lt (ts.take j) i hlen
  rw [List.take_take, Nat.min_eq_left (by omega)] at h
  omega

/-- The name offsets of the entries, for the list in the order the loop walks it. -/
theorem file_name_offsets (ts : List TextureHolder) (D : List Nat)
    (hsize : (computeLayout ts).headerSize < 2 ^ 64) (k : Nat) (hk : k < ts.length) :
    entryNameOffset (headerBytes ts ++ D) k
      = 24 + 24 * ts.length + 16 * totalBlobs ts + totalNames (ts.take k) := by
  have hnames := totalNames_take_lt ts k hk
  have hlay := computeLayout_eq ts
  rw [hlay] at hsize
  simp only at hsize
  rw [file_entryNameOffset ts D k hk, hlay]
  simp only
  exact castU64_of_lt (by omega)

/-- C18: for a non-empty list of loaded textures (pixel ranges readable, header
size below `2 ^ 64`) and for every order the sort may leave them in, the name
offsets of the entries are the running positions of the name table: entry 0
holds `24 + 24 * n + 16 * B`, every later entry holds the previous offset plus
the previous name's length plus 1; the offsets are strictly increasing, pairwise
distinct, and each lies in the name table, below the header size. -/
theorem C18_name_offsets_run (textures sorted : List TextureHolder)
    (hne : textures ≠ []) (hsort : SortOutcome textures sorted)
    (hrange : PixelsInRange textures)
    (hsize : (computeLayout textures).headerSize < 2 ^ 64) :
    ∃ file, writePackage sorted = some file ∧
      entryNameOffset file 0 = 24 + 24 * textures.length + 16 * totalBlobs textures ∧
      (∀ (k : Nat) (hk : k + 1 < sorted.length),
        entryNameOffset file (k + 1) = entryNameOffset file k + (sorted[k].name.length + 1)) ∧
      (∀ i j : Nat, i < j → j < textures.length →
        entryNameOffset file i < entryNameOffset file j) ∧
      (∀ i j : Nat, i < textures.length → j < textures.length → i ≠ j →
        entryNameOffset file i ≠ entryNameOffset file j) ∧
      (∀ k : Nat, k < textures.length →
        24 + 24 * textures.length + 16 * totalBlobs textures ≤ entryNameOffset file k ∧
        entryNameOffset file k < (computeLayout textures).headerSize) := by
  have hperm := hsort.1
  have hlen := hperm.length_eq
  have hpos : 0 < sorted.length := by
    rw [hlen]; exact List.length_pos.mpr hne
  refine ⟨_, writePackage_eq sorted
    (pixelsReadable_of_inRange sorted (pixelsInRange_perm hperm hrange)), ?_⟩
  rw [← computeLayout_perm hperm] at hsize ⊢
  rw [← hlen, ← totalBlobs_perm hperm]
  have hoff := fun k hk =>
    file_name_offsets sorted (dataBytes (allImages sorted)) hsize k hk
  have hstrict : ∀ i j : Nat, i < j → j < sorted.length →
      entryNameOffset (headerBytes sorted ++ dataBytes (allImages sorted)) i
        < entryNameOffset (headerBytes sorted ++ dataBytes (allImages sorted)) j := by
    intro i j hij hj
    rw [hoff i (by omega), hoff j hj]
    have := totalNames_take_strict sorted i j hij (by omega)
    omega
  refine ⟨?_, ?_, hstrict, ?_, ?_⟩
  · rw [hoff 0 hpos]; simp [totalNames]
  · intro k hk
    rw [hoff (k + 1) hk, hoff k (by omega), totalNames_take_succ sorted k (by omega)]
    omega
  · intro i j hi hj hij
    rcases Nat.lt_or_gt_of_ne hij with h | h
    · exact Nat.ne_of_lt (hstrict i j h hj)
    · exact Nat.ne_of_gt (hstrict j i h hi)
  · intro k hk
    have hnames := totalNames_take_lt sorted k hk
    rw [hoff k hk, computeLayout_eq]
    simp only
    omega

/-- Witness of C18: the textures `AB` and `B`. -/
theorem C18_witness :
    ([smallTexture, pairTexture] ≠ [] ∧
      SortOutcome [smallTexture, pairTexture] (sortTextures [smallTexture, pairTexture]) ∧
      PixelsInRange [smallTexture, pairTexture] ∧
      (computeLayout [smallTexture, pairTexture]).headerSize < 2 ^ 64) ∧
    ∃ file, writePackage (sortTextures [smallTexture, pairTexture]) = some file ∧
      entryNameOffset file 0 = 120 ∧ entryNameOffset file 1 = 122 := by
  have hsort := sortTextures_outcome [smallTexture, pairTexture]
  obtain ⟨file, hfile, h0, hstep, _⟩ :=
    C18_name_offsets_run [smallTexture, pairTexture] _ (by decide) hsort (by decide) (by decide)
  have h1 := hstep 0 (by decide)
  rw [h0] at h1
  exact ⟨⟨by decide, hsort, by decide, by decide⟩, file, hfile, by rw [h0]; decide,
    by rw [h1]; decide⟩

/-! ## The package header fields and the order of discovery: C15 and C14 -/

theorem array_header (count : Nat) :
    ∃ file, writePackage [arrayTexture count] = some file ∧
      packageEntryCount file = 1 ∧
      packageBlobCount file = castU32 count ∧
      packageHeaderSize file = castU32 (50 + 16 * count) ∧
      (computeLayout [arrayTexture count]).headerSize = 50 + 16 * count ∧
      totalBlobs [arrayTexture count] = count ∧
      (0 < count → 50 + 16 * count < 2 ^ 64 →
        blobDataOffset file [arrayTexture count].length 0 = 50 + 16 * count) := by
  have hrange : PixelsInRange [arrayTexture count] := by
    intro t ht im him
    simp only [List.mem_singleton] at ht
    subst ht
    exact Nat.le_of_eq (array_pixels_exact count im him).symm
  have hB : totalBlobs [arrayTexture count] = count := by simp [totalBlobs, arrayTexture]
  have hH : (computeLayout [arrayTexture count]).headerSize = 50 + 16 * count := by
    rw [computeLayout_eq, hB]
    simp [totalNames, arrayTexture]
    omega
  refine ⟨_, writePackage_eq _ (pixelsReadable_of_inRange _ hrange), ?_, ?_, ?_, hH, hB, ?_⟩
  · rw [file_packageEntryCount]; rfl
  · rw [file_packageBlobCount, hB]
  · rw [file_packageHeaderSize, hH]
  · intro hpos hlt
    rw [file_blobDataOffset _ _ 0 (by rw [allImages_length, hB]; exact hpos), hH]
    simp only [List.take_zero, totalPitch, List.map_nil, List.sum_nil, Nat.add_zero]
    exact castU64_of_lt hlt

/-- C15 as stated fails.  For the single texture `A` with `2 ^ 32` images the
stored `blobCount` is 0, not `2 ^ 32`, and the stored `headerSize` is 50 while
the header has `2 ^ 36 + 50` bytes and the first blob starts there.  With
`2 ^ 28` images the counts are stored exactly, the header has `2 ^ 32 + 50`
bytes, the first blob starts there, and the stored `headerSize` is again 50. -/
theorem C15_counterexample :
    [arrayTexture (2 ^ 32)] ≠ [] ∧
    (∃ file, writePackage [arrayTexture (2 ^ 32)] = some file ∧
      packageBlobCount file = 0 ∧ totalBlobs [arrayTexture (2 ^ 32)] = 2 ^ 32 ∧
      packageHeaderSize file = 50 ∧
      (computeLayout [arrayTexture (2 ^ 32)]).headerSize = 2 ^ 36 + 50 ∧
      blobDataOffset file [arrayTexture (2 ^ 32)].length 0 = 2 ^ 36 + 50) ∧
    (∃ file, writePackage [arrayTexture (2 ^ 28)] = some file ∧
      packageEntryCount file = 1 ∧
      packageBlobCount file = 2 ^ 28 ∧ totalBlobs [arrayTexture (2 ^ 28)] = 2 ^ 28 ∧
      packageHeaderSize file = 50 ∧
      (computeLayout [arrayTexture (2 ^ 28)]).headerSize = 2 ^ 32 + 50 ∧
      blobDataOffset file [arrayTexture (2 ^ 28)].length 0 = 2 ^ 32 + 50) := by
  refine ⟨List.cons_ne_nil _ _, ?_, ?_⟩
  · obtain ⟨file, hfile, _, hB, hH, hsize, htotal, hoff⟩ := array_header (2 ^ 32)
    have e1 : castU32 (2 ^ 32) = 0 := by decide
    have e2 : castU32 (50 + 16 * 2 ^ 32) = 50 := by decide
    have e3 : 50 + 16 * 2 ^ 32 = 2 ^ 36 + 50 := by decide
    rw [e1] at hB
    rw [e2] at hH
    have h0 := hoff (by decide) (by decide)
    exact ⟨file, hfile, hB, htotal, hH, by rw [hsize, e3], by rw [h0, e3]⟩
  · obtain ⟨file, hfile, hE, hB, hH, hsize, htotal, hoff⟩ := array_header (2 ^ 28)
    have e1 : castU32 (2 ^ 28) = 2 ^ 28 := by decide
    have e2 : castU32 (50 + 16 * 2 ^ 28) = 50 := by decide
    have e3 : 50 + 16 * 2 ^ 28 = 2 ^ 32 + 50 := by decide
    rw [e1] at hB
    rw [e2] at hH
    have h0 := hoff (by decide) (by decide)
    exact ⟨file, hfile, hE, hB, htotal, hH, by rw [hsize, e3], by rw [h0, e3]⟩

/-- C15 (as amended): for a non-empty list of loaded textures (pixel ranges
readable) and for every order the sort may leave them in, the stored
`entryCount` is the number of textures when that is below `2 ^ 32`, the stored
`blobCount` is the total number of images when that is below `2 ^ 32`, and when
the header size is below `2 ^ 32` the 8-byte `headerSize` field holds it and it
is the `dataOffset` of the first blob, where the data section starts. -/
theorem C15_package_fields (textures sorted : List TextureHolder)
    (_hne : textures ≠ []) (hsort : SortOutcome textures sorted)
    (hrange : PixelsInRange textures) :
    ∃ file, writePackage sorted = some file ∧
      (textures.length < 2 ^ 32 → packageEntryCount file = textures.length) ∧
      (totalBlobs textures < 2 ^ 32 → packageBlobCount file = totalBlobs textures) ∧
      ((computeLayout textures).headerSize < 2 ^ 32 →
        packageHeaderSize file = (computeLayout textures).headerSize ∧
        (0 < totalBlobs textures →
          blobDataOffset file textures.length 0 = packageHeaderSize file)) := by
  have hperm := hsort.1
  refine ⟨_, writePackage_eq sorted
    (pixelsReadable_of_inRange sorted (pixelsInRange_perm hperm hrange)), ?_, ?_, ?_⟩
  · intro h
    rw [file_packageEntryCount, hperm.length_eq]
    exact castU32_of_lt h
  · intro h
    rw [file_packageBlobCount, totalBlobs_perm hperm]
    exact castU32_of_lt h
  · intro h
    have hfield : packageHeaderSize (headerBytes sorted ++ dataBytes (allImages sorted))
        = (computeLayout textures).headerSize := by
      rw [file_packageHeaderSize, computeLayout_perm hperm]
      exact castU32_of_lt h
    refine ⟨hfield, ?_⟩
    intro hpos
    rw [hfield, ← hperm.length_eq,
      file_blobDataOffset sorted _ 0
        (by rw [allImages_length, totalBlobs_perm hperm]; exact hpos),
      computeLayout_perm hperm]
    simp only [List.take_zero, totalPitch, List.map_nil, List.sum_nil, Nat.add_zero]
    exact castU64_of_lt (Nat.lt_trans h (by decide))

/-- Witness of C15: the textures `AB` and `B`, with a header of 125 bytes. -/
theorem C15_witness :
    ([smallTexture, pairTexture] ≠ [] ∧
      SortOutcome [smallTexture, pairTexture] (sortTextures [smallTexture, pairTexture]) ∧
      PixelsInRange [smallTexture, pairTexture]) ∧
    ∃ file, writePackage (sortTextures [smallTexture, pairTexture]) = some file ∧
      packageEntryCount file = 2 ∧ packageBlobCount file = 3 ∧ packageHeaderSize file = 125 ∧
      blobDataOffset file 2 0 = 125 := by
  have hsort := sortTextures_outcome [smallTexture, pairTexture]
  obtain ⟨file, hfile, h1, h2, h3⟩ :=
    C15_package_fields [smallTexture, pairTexture] _ (by decide) hsort (by decide)
  obtain ⟨h4, h5⟩ := h3 (by decide)
  have h6 := h5 (by decide)
  have h7 : (computeLayout [smallTexture, pairTexture]).headerSize = 125 := by decide
  exact ⟨⟨by decide, hsort, by decide⟩, file, hfile, h1 (by decide), h2 (by decide),
    h4.trans h7, (h6.trans h4).trans h7⟩

/-- Two sort results of the same textures are the same list when no two textures
have the same hash. -/
theorem sortOutcome_unique (ts us s1 s2 : List TextureHolder) (hperm : ts.Perm us)
    (hnodup : (ts.map (fun t => t.hash)).Nodup)
    (h1 : SortOutcome ts s1) (h2 : SortOutcome us s2) : s1 = s2 := by
  have hp : s1.Perm s2 := (h1.1.trans hperm).trans h2.1.symm
  have hn1 : (s1.map (fun t => t.hash)).Nodup := ((h1.1.map _).nodup_iff).mpr hnodup
  have hn2 : (s2.map (fun t => t.hash)).Nodup := ((hp.map _).nodup_iff).mp hn1
  have hs1 : s1.Pairwise (fun a b => a.hash < b.hash) :=
    (h1.2.and (List.pairwise_map.mp hn1)).imp (fun h => Nat.lt_of_le_of_ne h.1 h.2)
  have hs2 : s2.Pairwise (fun a b => a.hash < b.hash) :=
    (h2.2.and (List.pairwise_map.mp hn2)).imp (fun h => Nat.lt_of_le_of_ne h.1 h.2)
  have : IsAntisymm TextureHolder (fun a b => a.hash < b.hash) :=
    ⟨fun _ _ hab hba => absurd hab (Nat.lt_asymm hba)⟩
  exact List.eq_of_perm_of_sorted hp hs1 hs2

/-- C14 as stated fails: the textures loaded from `Aa.dds` and `BB.dds` have the
same hash; discovered in this order the package holds the name `Aa` first,
discovered in the other order it holds `BB` first, so the two package files
differ. -/
theorem C14_counterexample :
    (loadTextures true collidingFiles.reverse).Perm (loadTextures true collidingFiles) ∧
    ∃ file1 file2,
      packageFile (loadTextures true collidingFiles) = some file1 ∧
      packageFile (loadTextures true collidingFiles.reverse) = some file2 ∧
      readCString file1 104 = [65, 97] ∧ readCString file2 104 = [66, 66] ∧
      file1 ≠ file2 := by
  have e1 : sortTextures (loadTextures true collidingFiles)
      = loadTextures true collidingFiles := by decide
  have e2 : sortTextures (loadTextures true collidingFiles.reverse)
      = loadTextures true collidingFiles.reverse := by decide
  have hn1 := file_name (loadTextures true collidingFiles)
    (dataBytes (allImages (loadTextures true collidingFiles))) 0 (by decide) (by decide)
  have hn2 := file_name (loadTextures true collidingFiles.reverse)
    (dataBytes (allImages (loadTextures true collidingFiles.reverse))) 0 (by decide) (by decide)
  have o1 : (computeLayout (loadTextures true collidingFiles)).namesOffset
      + totalNames ((loadTextures true collidingFiles).take 0) = 104 := by decide
  have o2 : (computeLayout (loadTextures true collidingFiles.reverse)).namesOffset
      + totalNames ((loadTextures true collidingFiles.reverse).take 0) = 104 := by decide
  have n1 : (loadTextures true collidingFiles)[0].name = [65, 97] := by decide
  have n2 : (loadTextures true collidingFiles.reverse)[0].name = [66, 66] := by decide
  rw [o1, n1] at hn1
  rw [o2, n2] at hn2
  refine ⟨by decide, _, _, ?_, ?_, hn1, hn2, ?_⟩
  · rw [packageFile, e1]
    exact writePackage_eq _ (pixelsReadable_of_inRange _ (by decide))
  · rw [packageFile, e2]
    exact writePackage_eq _ (pixelsReadable_of_inRange _ (by decide))
  · intro h
    rw [h, hn2] at hn1
    exact absurd hn1 (by decide)

/-- C14 (as amended): for two orderings of the same collection of loaded
textures in which no two textures have the same hash (pixel ranges readable),
the sort leaves them in the same order whatever the order of discovery, and the
package files are the same bytes. -/
theorem C14_package_is_order_independent (textures reordered sorted1 sorted2 : List TextureHolder)
    (hperm : textures.Perm reordered)
    (hnodup : (textures.map (fun t => t.hash)).Nodup)
    (hrange : PixelsInRange textures)
    (h1 : SortOutcome textures sorted1) (h2 : SortOutcome reordered sorted2) :
    sorted1 = sorted2 ∧
    (∃ file, writePackage sorted1 = some file ∧ writePackage sorted2 = some file) ∧
    ∃ file, packageFile textures = some file ∧ packageFile reordered = some file := by
  have hs := sortOutcome_unique textures reordered sorted1 sorted2 hperm hnodup h1 h2
  have hs2 := sortOutcome_unique textures reordered (sortTextures textures)
    (sortTextures reordered) hperm hnodup (sortTextures_outcome _) (sortTextures_outcome _)
  refine ⟨hs, ⟨_, writePackage_eq sorted1
    (pixelsReadable_of_inRange sorted1 (pixelsInRange_perm h1.1 hrange)), ?_⟩,
    ⟨_, packageFile_eq textures hrange, ?_⟩⟩
  · rw [← hs]
    exact writePackage_eq sorted1
      (pixelsReadable_of_inRange sorted1 (pixelsInRange_perm h1.1 hrange))
  · rw [packageFile, ← hs2]
    exact packageFile_eq textures hrange

/-- Witness of C14: the textures `AB` and `B` in both orders. -/
theorem C14_witness :
    ([smallTexture, pairTexture].Perm [pairTexture, smallTexture] ∧
      ([smallTexture, pairTexture].map (fun t => t.hash)).Nodup ∧
      PixelsInRange [smallTexture, pairTexture]) ∧
    sortTextures [smallTexture, pairTexture] = sortTextures [pairTexture, smallTexture] ∧
    (∃ file, writePackage (sortTextures [smallTexture, pairTexture]) = some file ∧
      writePackage (sortTextures [pairTexture, smallTexture]) = some file) ∧
    ∃ file, packageFile [smallTexture, pairTexture] = some file ∧
      packageFile [pairTexture, smallTexture] = some file :=
  ⟨⟨List.Perm.swap _ _ _, by decide, by decide⟩,
    C14_package_is_order_independent [smallTexture, pairTexture] [pairTexture, smallTexture]
      _ _ (List.Perm.swap _ _ _) (by decide) (by decide) (sortTextures_outcome _)
      (sortTextures_outcome _)⟩

/-! ## The sidecar: claims C12, C13 and C19 -/

theorem selectThumbnail_readable (computePitch : Nat → Nat → Nat → Nat) (image : ScratchImage)
    (hrange : ∀ level ∈ image.images, level.slicePitch ≤ level.pixels.length) :
    ∀ found, (selectThumbnail computePitch image).mip4x4Image = some found →
      (selectThumbnail computePitch image).mip4x4Size ≤ found.pixels.length := by
  intro found hfound
  by_cases hex : ∃ level ∈ image.images, level.width ≤ 4 ∨ level.height ≤ 4
  · obtain ⟨j, hj, _, _, hsel⟩ := selectThumbnail_found computePitch image hex
    rw [hsel] at hfound ⊢
    simp only [Option.some.injEq] at hfound
    subst hfound
    exact hrange _ (List.getElem_mem _)
  · have hnone : ∀ level ∈ image.images, ¬ (level.width ≤ 4 ∨ level.height ≤ 4) :=
      fun level hl hs => hex ⟨level, hl, hs⟩
    obtain ⟨k, _, _, _, hsel⟩ := selectThumbnail_synthesized computePitch image hnone
    rw [hsel] at hfound
    cases hfound

theorem encodeInfo_fields (a b c : Nat) (rest : List Nat) :
    infoSignature (encodeInfo a b c ++ rest) = 0x4953544E ∧
    infoVersion (encodeInfo a b c ++ rest) = 1 ∧
    infoReserved (encodeInfo a b c ++ rest) = 0 ∧
    infoPackageNameSize (encodeInfo a b c ++ rest) = castU32 a ∧
    infoMip4x4Size (encodeInfo a b c ++ rest) = castU32 b ∧
    infoMip4x4Index (encodeInfo a b c ++ rest) = castU32 c := by
  have hl := encodeInfo_length a b c
  have e0 : load (encodeInfo a b c ++ rest) 0 4 = encodeLE 4 0x4953544E := by
    rw [load_append_left _ _ _ _ (by omega)]
    exact load_head _ _ _ (encodeLE_length _ _)
  have e1 : load (encodeInfo a b c ++ rest) 4 4 = encodeLE 4 1 := by
    rw [load_append_left _ _ _ _ (by omega)]
    show load (encodeInfo a b c) (4 + 0) 4 = _
    unfold encodeInfo
    rw [load_skip _ _ _ _ _ (encodeLE_length _ _)]
    exact load_head _ _ _ (encodeLE_length _ _)
  have e2 : load (encodeInfo a b c ++ rest) 8 4 = encodeLE 4 0 := by
    rw [load_append_left _ _ _ _ (by omega)]
    show load (encodeInfo a b c) (4 + (4 + 0)) 4 = _
    unfold encodeInfo
    rw [load_skip _ _ _ _ _ (encodeLE_length _ _), load_skip _ _ _ _ _ (encodeLE_length _ _)]
    exact load_head _ _ _ (encodeLE_length _ _)
  have e3 : load (encodeInfo a b c ++ rest) 12 4 = encodeLE 4 (castU32 a) := by
    rw [load_append_left _ _ _ _ (by omega)]
    show load (encodeInfo a b c) (4 + (4 + (4 + 0))) 4 = _
    unfold encodeInfo
    rw [load_skip _ _ _ _ _ (encodeLE_length _ _), load_skip _ _ _ _ _ (encodeLE_length _ _),
      load_skip _ _ _ _ _ (encodeLE_length _ _)]
    exact load_head _ _ _ (encodeLE_length _ _)
  have e4 : load (encodeInfo a b c ++ rest) 16 4 = encodeLE 4 (castU32 b) := by
    rw [load_append_left _ _ _ _ (by omega)]
    show load (encodeInfo a b c) (4 + (4 + (4 + (4 + 0)))) 4 = _
    unfold encodeInfo
    rw [load_skip _ _ _ _ _ (encodeLE_length _ _), load_skip _ _ _ _ _ (encodeLE_length _ _),
      load_skip _ _ _ _ _ (encodeLE_length _ _), load_skip _ _ _ _ _ (encodeLE_length _ _)]
    exact load_head _ _ _ (encodeLE_length _ _)
  have e5 : load (encodeInfo a b c ++ rest) 20 4 = encodeLE 4 (castU32 c) := by
    rw [load_append_left _ _ _ _ (by omega)]
    show load (encodeInfo a b c) (4 + (4 + (4 + (4 + (4 + 0))))) 4 = _
    unfold encodeInfo
    rw [load_skip _ _ _ _ _ (encodeLE_length _ _), load_skip _ _ _ _ _ (encodeLE_length _ _),
      load_skip _ _ _ _ _ (encodeLE_length _ _), load_skip _ _ _ _ _ (encodeLE_length _ _),
      load_skip _ _ _ _ _ (encodeLE_length _ _)]
    exact load_exact _ _ (encodeLE_length _ _)
  refine ⟨?_, ?_, ?_, ?_, ?_, ?_⟩
  · unfold infoSignature loadField; rw [e0]; decide
  · unfold infoVersion loadField; rw [e1]; decide
  · unfold infoReserved loadField; rw [e2]; decide
  · unfold infoPackageNameSize loadField; rw [e3, decodeLE_u32]
  · unfold infoMip4x4Size loadField; rw [e4, decodeLE_u32]
  · unfold infoMip4x4Index loadField; rw [e5, decodeLE_u32]

/-- The sidecar file: the buffer cut at `required` bytes of the reserved block. -/
theorem sidecarFile_eq (computePitch : Nat → Nat → Nat → Nat)
    (encodeDDSHeader : TexMetadata → Nat → EncodeResult) (stem : List Nat)
    (texture : TextureHolder)
    (hrange : ∀ level ∈ texture.image.images, level.slicePitch ≤ level.pixels.length)
    (henc : ∀ maxsize, (encodeDDSHeader texture.image.metadata maxsize).bytes.length ≤ 0x94)
    (hreq : ∀ maxsize, (encodeDDSHeader texture.image.metadata maxsize).required ≤ 0x94) :
    sidecarFile computePitch encodeDDSHeader stem texture = some
      (encodeInfo (stem.length + 1) (selectThumbnail computePitch texture.image).mip4x4Size
          (selectThumbnail computePitch texture.image).mip4x4Index ++
        (c_str stem ++ (thumbnailBytes (selectThumbnail computePitch texture.image) ++
          ((encodeDDSHeader texture.image.metadata
              (sizeofInfo + stem.length + 1
                + (selectThumbnail computePitch texture.image).mip4x4Size + 0x94)).bytes ++
            List.replicate (0x94 - (encodeDDSHeader texture.image.metadata
              (sizeofInfo + stem.length + 1
                + (selectThumbnail computePitch texture.image).mip4x4Size + 0x94)).bytes.length)
              0).take
            (encodeDDSHeader texture.image.metadata
              (sizeofInfo + stem.length + 1
                + (selectThumbnail computePitch texture.image).mip4x4Size + 0x94)).required))) := by
  have hread := selectThumbnail_readable computePitch texture.image hrange
  have hb := buildSidecar_eq computePitch encodeDDSHeader stem texture hread henc
  have hl := thumbnailBytes_length _ hread
  have hel := henc (sizeofInfo + stem.length + 1
          + (selectThumbnail computePitch texture.image).mip4x4Size + 0x94)
  have hrq := hreq (sizeofInfo + stem.length + 1
          + (selectThumbnail computePitch texture.image).mip4x4Size + 0x94)
  have hs : sizeofInfo = 24 := rfl
  generalize encodeDDSHeader texture.image.metadata (sizeofInfo + stem.length + 1
          + (selectThumbnail computePitch texture.image).mip4x4Size + 0x94) = encoded
    at hb hel hrq ⊢
  generalize selectThumbnail computePitch texture.image = thumb at hb hl ⊢
  have hA : (encodeInfo (stem.length + 1) thumb.mip4x4Size thumb.mip4x4Index ++
      (c_str stem ++ thumbnailBytes thumb)).length
        = sizeofInfo + stem.length + 1 + thumb.mip4x4Size := by
    simp only [List.length_append, encodeInfo_length, c_str_length, hl]
    omega
  simp only [sidecarFile, hb, Option.some_bind, fwrite, readBytes]
  rw [if_pos (by
    simp only [List.length_append, encodeInfo_length, c_str_length, hl, List.length_replicate]
    omega)]
  simp only [Option.map_some', List.nil_append, Option.some.injEq]
  have e : encoded.required + (sizeofInfo + stem.length + 1 + thumb.mip4x4Size)
      = (encodeInfo (stem.length + 1) thumb.mip4x4Size thumb.mip4x4Index ++
          (c_str stem ++ thumbnailBytes thumb)).length + encoded.required := by
    rw [hA]; omega
  rw [e, ← List.append_assoc, ← List.append_assoc, ← List.append_assoc, List.take_append]
  simp only [List.append_assoc]

/-- C12 as stated fails: for the texture `AB` and an encoder that stores a
header of `0x80` bytes and reports `0x80`, the sidecar file has
`24 + 2 + 16 + 0x80 = 170` bytes, not `24 + 2 + 16 + 0x94 = 190`. -/
theorem C12_counterexample :
    (selectThumbnail bytePitch smallTexture.image).mip4x4Size = 16 ∧
    ∃ file, sidecarFile bytePitch legacyEncoder [80] smallTexture = some file ∧
      file.length = 24 + ([80].length + 1) + 16 + 0x80 ∧
      file.length ≠ 24 + ([80].length + 1) + 16 + 0x94 := by
  have h := sidecarFile_eq bytePitch legacyEncoder [80] smallTexture (by decide)
    (fun _ => by simp [legacyEncoder]) (fun _ => by simp [legacyEncoder])
  have hsize : (selectThumbnail bytePitch smallTexture.image).mip4x4Size = 16 := by decide
  have hlen : (thumbnailBytes (selectThumbnail bytePitch smallTexture.image)).length = 16 := by
    decide
  refine ⟨hsize, _, h, ?_⟩
  simp only [List.length_append, encodeInfo_length, c_str_length, hlen, List.length_take,
    List.length_replicate, legacyEncoder, List.length_cons, List.length_nil]
  decide

/-- C12 (as amended): for every texture (pixel ranges readable) and every result
of the encoder that stores at most `0x94` bytes and reports a required size of at
most `0x94`, the sidecar file is written and consists, in order, of the 24-byte
`Info` record, the package name with its terminator, the thumbnail bytes and the
first `required` bytes of the block of `0x94` bytes reserved for the encoder; the
number of bytes written is `24 + packageNameSize + mip4x4Size + required`, which
is `24 + packageNameSize + mip4x4Size + 0x94` exactly when the encoder reports
`0x94`. -/
theorem C12_sidecar_file_layout (computePitch : Nat → Nat → Nat → Nat)
    (encodeDDSHeader : TexMetadata → Nat → EncodeResult) (stem : List Nat)
    (texture : TextureHolder)
    (hrange : ∀ level ∈ texture.image.images, level.slicePitch ≤ level.pixels.length)
    (henc : ∀ maxsize, (encodeDDSHeader texture.image.metadata maxsize).bytes.length ≤ 0x94)
    (hreq : ∀ maxsize, (encodeDDSHeader texture.image.metadata maxsize).required ≤ 0x94) :
    ∃ (file block : List Nat) (required : Nat),
      sidecarFile computePitch encodeDDSHeader stem texture = some file ∧
      required = (encodeDDSHeader texture.image.metadata
        (sizeofInfo + stem.length + 1
          + (selectThumbnail computePitch texture.image).mip4x4Size + 0x94)).required ∧
      block = (encodeDDSHeader texture.image.metadata
        (sizeofInfo + stem.length + 1
          + (selectThumbnail computePitch texture.image).mip4x4Size + 0x94)).bytes ++
        List.replicate (0x94 - (encodeDDSHeader texture.image.metadata
          (sizeofInfo + stem.length + 1
            + (selectThumbnail computePitch texture.image).mip4x4Size + 0x94)).bytes.length) 0 ∧
      block.length = 0x94 ∧
      file = encodeInfo (stem.length + 1) (selectThumbnail computePitch texture.image).mip4x4Size
          (selectThumbnail computePitch texture.image).mip4x4Index ++
        (c_str stem ++ (thumbnailBytes (selectThumbnail computePitch texture.image) ++
          block.take required)) ∧
      (encodeInfo (stem.length + 1) (selectThumbnail computePitch texture.image).mip4x4Size
          (selectThumbnail computePitch texture.image).mip4x4Index).length = 24 ∧
      (c_str stem).length = stem.length + 1 ∧
      (thumbnailBytes (selectThumbnail computePitch texture.image)).length
        = (selectThumbnail computePitch texture.image).mip4x4Size ∧
      (block.take required).length = required ∧
      file.length = 24 + (stem.length + 1)
        + (selectThumbnail computePitch texture.image).mip4x4Size + required ∧
      (file.length = 24 + (stem.length + 1)
        + (selectThumbnail computePitch texture.image).mip4x4Size + 0x94 ↔ required = 0x94) := by
  have hfile := sidecarFile_eq computePitch encodeDDSHeader stem texture hrange henc hreq
  have hl := thumbnailBytes_length _
    (selectThumbnail_readable computePitch texture.image hrange)
  have hel := henc (sizeofInfo + stem.length + 1
          + (selectThumbnail computePitch texture.image).mip4x4Size + 0x94)
  have hrq := hreq (sizeofInfo + stem.length + 1
          + (selectThumbnail computePitch texture.image).mip4x4Size + 0x94)
  generalize encodeDDSHeader texture.image.metadata (sizeofInfo + stem.length + 1
          + (selectThumbnail computePitch texture.image).mip4x4Size + 0x94) = encoded
    at hfile hel hrq ⊢
  generalize selectThumbnail computePitch texture.image = thumb at hfile hl ⊢
  have hblock : (encoded.bytes ++ List.replicate (0x94 - encoded.bytes.length) 0).length
      = 0x94 := by
    simp only [List.length_append, List.length_replicate]; omega
  have htake : ((encoded.bytes ++ List.replicate (0x94 - encoded.bytes.length) 0).take
      encoded.required).length = encoded.required := by
    rw [List.length_take, hblock]; omega
  have hlen : (encodeInfo (stem.length + 1) thumb.mip4x4Size thumb.mip4x4Index ++
      (c_str stem ++ (thumbnailBytes thumb ++
        (encoded.bytes ++ List.replicate (0x94 - encoded.bytes.length) 0).take
          encoded.required))).length
      = 24 + (stem.length + 1) + thumb.mip4x4Size + encoded.required := by
    simp only [List.length_append, encodeInfo_length, c_str_length, hl, htake]
    omega
  refine ⟨_, _, _, hfile, rfl, rfl, hblock, rfl, encodeInfo_length _ _ _, c_str_length _, hl,
    htake, hlen, ?_⟩
  rw [hlen]
  omega

/-- Witness of C12: the texture `AB` and an encoder that stores and reports
`0x94` bytes. -/
theorem C12_witness :
    ((∀ level ∈ smallTexture.image.images, level.slicePitch ≤ level.pixels.length) ∧
      (∀ maxsize, (fullEncoder smallTexture.image.metadata maxsize).bytes.length ≤ 0x94) ∧
      (∀ maxsize, (fullEncoder smallTexture.image.metadata maxsize).required ≤ 0x94)) ∧
    ∃ file, sidecarFile bytePitch fullEncoder [80] smallTexture = some file ∧
      file.length = 24 + 2 + 16 + 0x94 := by
  have hrange : ∀ level ∈ smallTexture.image.images, level.slicePitch ≤ level.pixels.length := by
    decide
  have henc : ∀ maxsize, (fullEncoder smallTexture.image.metadata maxsize).bytes.length ≤ 0x94 :=
    fun _ => by simp [fullEncoder]
  have hreq : ∀ maxsize, (fullEncoder smallTexture.image.metadata maxsize).required ≤ 0x94 :=
    fun _ => by simp [fullEncoder]
  obtain ⟨file, block, required, hfile, hr, _, _, _, _, _, _, _, hlen, _⟩ :=
    C12_sidecar_file_layout bytePitch fullEncoder [80] smallTexture hrange henc hreq
  have hsize : (selectThumbnail bytePitch smallTexture.image).mip4x4Size = 16 := by decide
  have hr2 : required = 0x94 := by rw [hr]; rfl
  refine ⟨⟨hrange, henc, hreq⟩, file, hfile, ?_⟩
  rw [hlen, hsize, hr2]
  rfl

theorem strip_sidecar (size : Nat) :
    (selectThumbnail bytePitch (stripTexture size).image).mip4x4Image = some (stripImage size) ∧
    (selectThumbnail bytePitch (stripTexture size).image).mip4x4Size = size ∧
    (stripImage size).slicePitch = size ∧
    ∃ sidecar, buildSidecar bytePitch fullEncoder [80] (stripTexture size) = some sidecar ∧
      infoMip4x4Size sidecar.ntsi = castU32 size := by
  have hsel : selectThumbnail bytePitch (stripTexture size).image =
      { mip4x4Image := some (stripImage size), mip4x4Size := size, mip4x4Index := 0 } := by
    have hw : (stripImage size).width ≤ 4 ∨ (stripImage size).height ≤ 4 := Or.inl (Nat.le_refl 4)
    simp only [selectThumbnail, stripTexture, scanLoop, if_pos hw]
    rfl
  have hrange : ∀ level ∈ (stripTexture size).image.images,
      level.slicePitch ≤ level.pixels.length := by
    intro level hl
    simp only [stripTexture, List.mem_singleton] at hl
    subst hl
    simp [stripImage]
  have hb := buildSidecar_eq bytePitch fullEncoder [80] (stripTexture size)
    (selectThumbnail_readable bytePitch _ hrange) (fun _ => by simp [fullEncoder])
  refine ⟨by rw [hsel], by rw [hsel], rfl, _, hb, ?_⟩
  rw [hsel]
  exact (encodeInfo_fields _ _ _ _).2.2.2.2.1

/-- C13 as stated fails: for the texture `D`, a single image of width 4 whose
pixel range holds `2 ^ 32` bytes, the thumbnail is that image, of `2 ^ 32` bytes,
and the `mip4x4Size` field of the `Info` record is 0. -/
theorem C13_counterexample :
    (selectThumbnail bytePitch (stripTexture (2 ^ 32)).image).mip4x4Image
      = some (stripImage (2 ^ 32)) ∧
    (selectThumbnail bytePitch (stripTexture (2 ^ 32)).image).mip4x4Size = 2 ^ 32 ∧
    (stripImage (2 ^ 32)).slicePitch = 2 ^ 32 ∧
    ∃ sidecar, buildSidecar bytePitch fullEncoder [80] (stripTexture (2 ^ 32)) = some sidecar ∧
      infoMip4x4Size sidecar.ntsi = 0 := by
  obtain ⟨h1, h2, h3, sidecar, hb, hfield⟩ := strip_sidecar (2 ^ 32)
  have e : castU32 (2 ^ 32) = 0 := by decide
  rw [e] at hfield
  exact ⟨h1, h2, h3, sidecar, hb, hfield⟩

/-- C13 (as amended): for every texture (pixel ranges readable, the encoder
storing at most `0x94` bytes) whose package name size, thumbnail size and
thumbnail index are below `2 ^ 32`, the first `24 + packageNameSize + mip4x4Size`
bytes of the sidecar buffer are an `Info` record with version 1, reserved 0,
`packageNameSize` the stem's length plus 1, `mip4x4Size` the thumbnail's byte size
and `mip4x4Index` its chain index; then at offset 24 the stem and a zero
terminator; then at offset `24 + packageNameSize` exactly `mip4x4Size` thumbnail
bytes, the selected image's pixels or zeros when synthesized. -/
theorem C13_sidecar_buffer_head (computePitch : Nat → Nat → Nat → Nat)
    (encodeDDSHeader : TexMetadata → Nat → EncodeResult) (stem : List Nat)
    (texture : TextureHolder)
    (hrange : ∀ level ∈ texture.image.images, level.slicePitch ≤ level.pixels.length)
    (henc : ∀ maxsize, (encodeDDSHeader texture.image.metadata maxsize).bytes.length ≤ 0x94)
    (hname : stem.length + 1 < 2 ^ 32)
    (hsize : (selectThumbnail computePitch texture.image).mip4x4Size < 2 ^ 32)
    (hindex : (selectThumbnail computePitch texture.image).mip4x4Index < 2 ^ 32) :
    ∃ sidecar, buildSidecar computePitch encodeDDSHeader stem texture = some sidecar ∧
      infoSignature sidecar.ntsi = 0x4953544E ∧
      infoVersion sidecar.ntsi = 1 ∧
      infoReserved sidecar.ntsi = 0 ∧
      infoPackageNameSize sidecar.ntsi = stem.length + 1 ∧
      infoMip4x4Size sidecar.ntsi = (selectThumbnail computePitch texture.image).mip4x4Size ∧
      infoMip4x4Index sidecar.ntsi = (selectThumbnail computePitch texture.image).mip4x4Index ∧
      load sidecar.ntsi 24 (stem.length + 1) = stem ++ [0] ∧
      load sidecar.ntsi (24 + (stem.length + 1))
          (selectThumbnail computePitch texture.image).mip4x4Size
        = thumbnailBytes (selectThumbnail computePitch texture.image) ∧
      (thumbnailBytes (selectThumbnail computePitch texture.image)).length
        = (selectThumbnail computePitch texture.image).mip4x4Size ∧
      (∀ found, (selectThumbnail computePitch texture.image).mip4x4Image = some found →
        thumbnailBytes (selectThumbnail computePitch texture.image)
          = found.pixels.take (selectThumbnail computePitch texture.image).mip4x4Size) ∧
      ((selectThumbnail computePitch texture.image).mip4x4Image = none →
        thumbnailBytes (selectThumbnail computePitch texture.image)
          = List.replicate (selectThumbnail computePitch texture.image).mip4x4Size 0) := by
  have hread := selectThumbnail_readable computePitch texture.image hrange
  have hb := buildSidecar_eq computePitch encodeDDSHeader stem texture hread henc
  have hl := thumbnailBytes_length _ hread
  generalize encodeDDSHeader texture.image.metadata (sizeofInfo + stem.length + 1
          + (selectThumbnail computePitch texture.image).mip4x4Size + 0x94) = encoded at hb
  generalize selectThumbnail computePitch texture.image = thumb at hb hl hsize hindex ⊢
  obtain ⟨f0, f1, f2, f3, f4, f5⟩ := encodeInfo_fields (stem.length + 1) thumb.mip4x4Size
    thumb.mip4x4Index (c_str stem ++ (thumbnailBytes thumb ++
      (encoded.bytes ++ List.replicate (0x94 - encoded.bytes.length) 0)))
  rw [castU32_of_lt hname] at f3
  rw [castU32_of_lt hsize] at f4
  rw [castU32_of_lt hindex] at f5
  refine ⟨_, hb, f0, f1, f2, f3, f4, f5, ?_, ?_, hl, ?_, ?_⟩
  · show load _ (24 + 0) _ = _
    rw [load_skip _ _ _ _ _ (encodeInfo_length _ _ _)]
    exact load_head _ _ _ (c_str_length stem)
  · show load _ (24 + ((stem.length + 1) + 0)) _ = _
    rw [load_skip _ _ _ _ _ (encodeInfo_length _ _ _),
      load_skip _ _ _ _ _ (c_str_length stem)]
    exact load_head _ _ _ hl
  · intro found hfound
    simp only [thumbnailBytes, hfound]
  · intro hnone
    simp only [thumbnailBytes, hnone]

/-- Witness of C13: the texture `AB`, whose thumbnail is the 4x4 image at index 1. -/
theorem C13_witness :
    ((∀ level ∈ smallTexture.image.images, level.slicePitch ≤ level.pixels.length) ∧
      (∀ maxsize, (fullEncoder smallTexture.image.metadata maxsize).bytes.length ≤ 0x94) ∧
      [80].length + 1 < 2 ^ 32 ∧
      (selectThumbnail bytePitch smallTexture.image).mip4x4Size < 2 ^ 32 ∧
      (selectThumbnail bytePitch smallTexture.image).mip4x4Index < 2 ^ 32) ∧
    ∃ sidecar, buildSidecar bytePitch fullEncoder [80] smallTexture = some sidecar ∧
      infoVersion sidecar.ntsi = 1 ∧ infoReserved sidecar.ntsi = 0 ∧
      infoPackageNameSize sidecar.ntsi = 2 ∧ infoMip4x4Size sidecar.ntsi = 16 ∧
      infoMip4x4Index sidecar.ntsi = 1 ∧
      load sidecar.ntsi 24 2 = [80, 0] ∧
      load sidecar.ntsi 26 16 = List.replicate 16 5 := by
  have hrange : ∀ level ∈ smallTexture.image.images, level.slicePitch ≤ level.pixels.length := by
    decide
  have henc : ∀ maxsize, (fullEncoder smallTexture.image.metadata maxsize).bytes.length ≤ 0x94 :=
    fun _ => by simp [fullEncoder]
  obtain ⟨sidecar, hb, _, h1, h2, h3, h4, h5, h6, h7, _⟩ :=
    C13_sidecar_buffer_head bytePitch fullEncoder [80] smallTexture hrange henc (by decide)
      (by decide) (by decide)
  have hsel : selectThumbnail bytePitch smallTexture.image =
      { mip4x4Image := some (squareImage 4 5), mip4x4Size := 16, mip4x4Index := 1 } := by
    decide
  rw [hsel] at h4 h5 h7
  exact ⟨⟨hrange, henc, by decide, by decide, by decide⟩, sidecar, hb, h1, h2, h3, h4, h5, h6,
    h7⟩

theorem squareImage_readable (n fill : Nat) :
    (squareImage n fill).slicePitch ≤ (squareImage n fill).pixels.length := by
  simp [squareImage]

theorem max_one_le_four (x : Nat) : max 1 x ≤ 4 ↔ x ≤ 4 := by
  omega

/-- On a prefix of the standard chain both branches of the selector record the
least `k` with `W >> k <= 4` or `H >> k <= 4`. -/
theorem selectThumbnail_standard (computePitch : Nat → Nat → Nat → Nat) (image : ScratchImage)
    (hchain : IsStandardChain image) :
    ∃ k : Nat, IsLeastHalving image.metadata.width image.metadata.height k ∧
      (selectThumbnail computePitch image).mip4x4Index = k ∧
      (selectThumbnail computePitch image).mip4x4Image = image.images[k]? := by
  have hsmall : ∀ (i : Nat) (level : Image), image.images[i]? = some level →
      ((level.width ≤ 4 ∨ level.height ≤ 4) ↔
        (image.metadata.width >>> i ≤ 4 ∨ image.metadata.height >>> i ≤ 4)) := by
    intro i level hlevel
    obtain ⟨hw, hh⟩ := hchain.2 (i, level) (List.mk_mem_enum_iff_getElem?.mpr hlevel)
    rw [hw, hh, max_one_le_four, max_one_le_four]
  by_cases hex : ∃ level ∈ image.images, level.width ≤ 4 ∨ level.height ≤ 4
  · obtain ⟨j, hj, hsm, hbefore, hsel⟩ := selectThumbnail_found computePitch image hex
    refine ⟨j, ⟨?_, ?_⟩, by rw [hsel], by rw [hsel, List.getElem?_eq_getElem hj]⟩
    · exact (hsmall j _ (List.getElem?_eq_getElem hj)).mp hsm
    · intro i hi hs
      have hi2 : i < image.images.length := by omega
      exact hbefore i hi ((hsmall i _ (List.getElem?_eq_getElem hi2)).mpr hs)
  · have hnone : ∀ level ∈ image.images, ¬ (level.width ≤ 4 ∨ level.height ≤ 4) :=
      fun level hl hs => hex ⟨level, hl, hs⟩
    obtain ⟨k, hk1, hk2, _, hsel⟩ := selectThumbnail_synthesized computePitch image hnone
    refine ⟨k, ⟨hk1, hk2⟩, by rw [hsel], ?_⟩
    rw [hsel]
    by_cases hlt : k < image.images.length
    · exact absurd ((hsmall k _ (List.getElem?_eq_getElem hlt)).mpr hk1)
        (hnone _ (List.getElem_mem _))
    · exact (List.getElem?_eq_none (by omega)).symm

theorem leastHalving_le (W H k : Nat) (hW : W < 2 ^ 64) (hk : IsLeastHalving W H k) :
    k ≤ 64 := by
  by_cases h : k ≤ 64
  · exact h
  · have h64 : W >>> 64 ≤ 4 := by
      rw [Nat.shiftRight_eq_div_pow, Nat.div_eq_of_lt hW]
      omega
    exact absurd (Or.inl h64) (hk.2 64 (by omega))

/-- C19: for a texture whose images are a non-empty prefix of the standard chain
of its base dimensions `W x H` (`W` a `size_t` value, pixel ranges readable, the
encoder storing at most `0x94` bytes), the `mip4x4Index` written to the sidecar
is the least `k` with `W >> k <= 4` or `H >> k <= 4`: when the chain holds
image `k` it is the selected one, and when the chain ends before it no image is
selected and `k` is the number of halvings. -/
theorem C19_selection_and_synthesis_agree (computePitch : Nat → Nat → Nat → Nat)
    (encodeDDSHeader : TexMetadata → Nat → EncodeResult) (stem : List Nat)
    (texture : TextureHolder)
    (hchain : IsStandardChain texture.image)
    (hW : texture.image.metadata.width < 2 ^ 64)
    (hrange : ∀ level ∈ texture.image.images, level.slicePitch ≤ level.pixels.length)
    (henc : ∀ maxsize, (encodeDDSHeader texture.image.metadata maxsize).bytes.length ≤ 0x94) :
    ∃ k : Nat,
      IsLeastHalving texture.image.metadata.width texture.image.metadata.height k ∧
      (selectThumbnail computePitch texture.image).mip4x4Index = k ∧
      (selectThumbnail computePitch texture.image).mip4x4Image = texture.image.images[k]? ∧
      (k < texture.image.images.length →
        (selectThumbnail computePitch texture.image).mip4x4Image ≠ none) ∧
      (texture.image.images.length ≤ k →
        (selectThumbnail computePitch texture.image).mip4x4Image = none ∧
        (halveLoop texture.image.metadata.width texture.image.metadata.height 0).2.2 = k) ∧
      ∃ sidecar, buildSidecar computePitch encodeDDSHeader stem texture = some sidecar ∧
        infoMip4x4Index sidecar.ntsi = k := by
  obtain ⟨k, hleast, hidx, himg⟩ := selectThumbnail_standard computePitch texture.image hchain
  have hk64 := leastHalving_le _ _ k hW hleast
  have hread := selectThumbnail_readable computePitch texture.image hrange
  have hb := buildSidecar_eq computePitch encodeDDSHeader stem texture hread henc
  refine ⟨k, hleast, hidx, himg, ?_, ?_, _, hb, ?_⟩
  · intro hlt
    rw [himg, List.getElem?_eq_getElem hlt]
    exact Option.some_ne_none _
  · intro hge
    have hnoimg : (selectThumbnail computePitch texture.image).mip4x4Image = none := by
      rw [himg]; exact List.getElem?_eq_none hge
    refine ⟨hnoimg, ?_⟩
    have hscan : scanLoop texture.image.images 0 = none := by
      cases hs : scanLoop texture.image.images 0 with
      | none => rfl
      | some p =>
        simp only [selectThumbnail, hs] at hnoimg
        cases hnoimg
    simp only [selectThumbnail, hscan] at hidx
    exact hidx
  · rw [(encodeInfo_fields _ _ _ _).2.2.2.2.2, hidx]
    exact castU32_of_lt (Nat.lt_of_le_of_lt hk64 (by decide))

/-- Witness of C19: the chain 64, 32, 16, which ends before the 4x4 image, and
the chain 256 to 1, which holds it. -/
theorem C19_witness :
    (IsStandardChain truncatedTexture.image ∧ IsStandardChain fullChain ∧
      IsLeastHalving 64 64 4 ∧ IsLeastHalving 256 256 6 ∧
      truncatedTexture.image.metadata.width < 2 ^ 64 ∧
      (∀ level ∈ truncatedTexture.image.images, level.slicePitch ≤ level.pixels.length) ∧
      (∀ maxsize,
        (fullEncoder truncatedTexture.image.metadata maxsize).bytes.length ≤ 0x94)) ∧
    ∃ sidecar, buildSidecar bytePitch fullEncoder [80] truncatedTexture = some sidecar ∧
      infoMip4x4Index sidecar.ntsi = 4 := by
  have hchain : IsStandardChain truncatedTexture.image := by decide
  have hrange : ∀ level ∈ truncatedTexture.image.images,
      level.slicePitch ≤ level.pixels.length := by
    intro level hl
    simp only [truncatedTexture, shortChain, List.mem_cons, List.mem_singleton,
      List.not_mem_nil, or_false] at hl
    rcases hl with rfl | rfl | rfl <;> exact squareImage_readable _ _
  have henc : ∀ maxsize,
      (fullEncoder truncatedTexture.image.metadata maxsize).bytes.length ≤ 0x94 :=
    fun _ => by simp [fullEncoder]
  obtain ⟨k, _, hidx, _, _, _, sidecar, hb, hfield⟩ :=
    C19_selection_and_synthesis_agree bytePitch fullEncoder [80] truncatedTexture hchain
      (by decide) hrange henc
  have h4 : (selectThumbnail bytePitch truncatedTexture.image).mip4x4Index = 4 := by
    show (selectThumbnail bytePitch (shortChain 61)).mip4x4Index = 4
    simp [selectThumbnail, shortChain, scanLoop, squareImage_width, squareImage_height,
      halveLoop]
  rw [h4] at hidx
  subst hidx
  exact ⟨⟨hchain, by decide, by decide, by decide, by decide, hrange, henc⟩, sidecar, hb,
    hfield⟩

/-! ## The run: claims C16 and C17 -/

theorem sidecarLoop_spec (computePitch : Nat → Nat → Nat → Nat)
    (encodeDDSHeader : TexMetadata → Nat → EncodeResult) (stem : List Nat)
    (openResult : Nat → Bool) (ts : List TextureHolder) :
    ∀ (attempt : Nat), SidecarsDefined encodeDDSHeader ts →
      ∃ out, sidecarLoop computePitch encodeDDSHeader stem openResult ts attempt = some out ∧
        out.length = ts.length ∧
        ∀ (k : Nat) (hk : k < ts.length),
          out[k]? = some (if openResult (attempt + k)
            then sidecarFile computePitch encodeDDSHeader stem ts[k] else none) ∧
          ∃ bytes, sidecarFile computePitch encodeDDSHeader stem ts[k] = some bytes := by
  induction ts with
  | nil =>
    intro attempt _
    exact ⟨[], rfl, rfl, fun k hk => absurd hk (Nat.not_lt_zero k)⟩
  | cons t rest ih =>
    intro attempt hdef
    obtain ⟨hr, he, hq⟩ := hdef t (List.mem_cons_self _ _)
    have hrest : SidecarsDefined encodeDDSHeader rest :=
      fun u hu => hdef u (List.mem_cons_of_mem _ hu)
    obtain ⟨out, hout, hlen, hget⟩ := ih (attempt + 1) hrest
    have hb := buildSidecar_eq computePitch encodeDDSHeader stem t
      (selectThumbnail_readable computePitch t.image hr) he
    have hf := sidecarFile_eq computePitch encodeDDSHeader stem t hr he hq
    have hw := hf
    simp only [sidecarFile, hb, Option.some_bind] at hw
    refine ⟨(if openResult attempt
      then sidecarFile computePitch encodeDDSHeader stem t else none) :: out, ?_, ?_, ?_⟩
    · simp only [sidecarLoop, Option.bind_eq_bind, hb, Option.some_bind, hout]
      cases ho : openResult attempt
      · simp
      · simp only [if_true, hw, Option.map_some', Option.some_bind, hf]
    · simp [hlen]
    · intro k hk
      cases k with
      | zero => exact ⟨by simp, _, hf⟩
      | succ k =>
        have hk2 : k < rest.length := by simpa using hk
        obtain ⟨h1, h2⟩ := hget k hk2
        refine ⟨?_, h2⟩
        simp only [List.getElem?_cons_succ, List.getElem_cons_succ, h1]
        rw [Nat.add_assoc, Nat.add_comm 1 k]

theorem runSorted_opened (computePitch : Nat → Nat → Nat → Nat)
    (encodeDDSHeader : TexMetadata → Nat → EncodeResult) (ntspFilePath stem : List Nat)
    (openResult : Nat → Bool) (ts : List TextureHolder)
    (hopen : openResult 0 = true) (hrange : PixelsInRange ts)
    (hdef : SidecarsDefined encodeDDSHeader ts) :
    ∃ out, sidecarLoop computePitch encodeDDSHeader stem openResult ts 1 = some out ∧
      runSorted computePitch encodeDDSHeader ntspFilePath stem openResult ts = some
        { exitCode := 0
          attempts := ntspFilePath :: ts.map (fun t => t.filePath)
          package := some (headerBytes ts ++ dataBytes (allImages ts))
          sidecars := out } := by
  obtain ⟨out, hout, _, _⟩ :=
    sidecarLoop_spec computePitch encodeDDSHeader stem openResult ts 1 hdef
  refine ⟨out, hout, ?_⟩
  simp [runSorted, buildHeader_eq, hopen, fwrite, readBytes,
    writeTextures_eq _ _ (pixelsReadable_of_inRange ts hrange), hout]

theorem runSorted_not_opened (computePitch : Nat → Nat → Nat → Nat)
    (encodeDDSHeader : TexMetadata → Nat → EncodeResult) (ntspFilePath stem : List Nat)
    (openResult : Nat → Bool) (ts : List TextureHolder) (hopen : openResult 0 = false) :
    runSorted computePitch encodeDDSHeader ntspFilePath stem openResult ts = some
      { exitCode := -1, attempts := [ntspFilePath], package := none, sidecars := [] } := by
  simp [runSorted, buildHeader_eq, hopen]

theorem run_loaded (charIsSigned : Bool) (computePitch : Nat → Nat → Nat → Nat)
    (encodeDDSHeader : TexMetadata → Nat → EncodeResult) (files : List SourceFile)
    (ntspFilePath stem : List Nat) (openResult : Nat → Bool)
    (hfiles : files ≠ []) (hpath : ntspFilePath ≠ [])
    (hloaded : loadTextures charIsSigned files ≠ []) :
    run charIsSigned computePitch encodeDDSHeader files ntspFilePath stem openResult
      = runSorted computePitch encodeDDSHeader ntspFilePath stem openResult
          (sortTextures (loadTextures charIsSigned files)) := by
  simp [run, hfiles, hpath, hloaded]

theorem sidecarsDefined_perm (encodeDDSHeader : TexMetadata → Nat → EncodeResult)
    {ts us : List TextureHolder} (hperm : us.Perm ts) (h : SidecarsDefined encodeDDSHeader ts) :
    SidecarsDefined encodeDDSHeader us :=
  fun t ht => h t (hperm.mem_iff.mp ht)

theorem runWith_loaded (charIsSigned : Bool) (computePitch : Nat → Nat → Nat → Nat)
    (encodeDDSHeader : TexMetadata → Nat → EncodeResult) (files : List SourceFile)
    (ntspFilePath stem : List Nat) (openResult : Nat → Bool) (sorted : List TextureHolder)
    (hfiles : files ≠ []) (hpath : ntspFilePath ≠ [])
    (hloaded : loadTextures charIsSigned files ≠ []) :
    runWith charIsSigned computePitch encodeDDSHeader files ntspFilePath stem openResult sorted
      = runSorted computePitch encodeDDSHeader ntspFilePath stem openResult sorted := by
  simp [runWith, hfiles, hpath, hloaded]

/-- C16: for every order the sort may leave the loaded textures in, when the
package file opens, whichever sidecar files fail to open (pixel ranges readable,
the encoder within its `0x94` bytes), the run is defined and returns 0;
`_wfopen` is called for the package and then once for every loaded texture in
that order; a texture whose file does not open gets no sidecar, and every other
texture, before or after it, gets the bytes of its own sidecar, the same as in
the run in which every file opens. -/
theorem C16_sidecar_open_failure_is_local (charIsSigned : Bool)
    (computePitch : Nat → Nat → Nat → Nat)
    (encodeDDSHeader : TexMetadata → Nat → EncodeResult) (files : List SourceFile)
    (ntspFilePath stem : List Nat) (openResult : Nat → Bool) (sorted : List TextureHolder)
    (hfiles : files ≠ []) (hpath : ntspFilePath ≠ [])
    (hloaded : loadTextures charIsSigned files ≠ [])
    (hsort : SortOutcome (loadTextures charIsSigned files) sorted)
    (hdef : SidecarsDefined encodeDDSHeader (loadTextures charIsSigned files))
    (hpackage : openResult 0 = true) :
    ∃ result reference,
      runWith charIsSigned computePitch encodeDDSHeader files ntspFilePath stem openResult
        sorted = some result ∧
      runWith charIsSigned computePitch encodeDDSHeader files ntspFilePath stem (fun _ => true)
        sorted = some reference ∧
      result.exitCode = 0 ∧
      result.package = reference.package ∧
      result.attempts = ntspFilePath :: sorted.map (fun t => t.filePath) ∧
      result.sidecars.length = (loadTextures charIsSigned files).length ∧
      sorted.length = (loadTextures charIsSigned files).length ∧
      ∀ (k : Nat) (hk : k < sorted.length),
        (openResult (k + 1) = false → result.sidecars[k]? = some none) ∧
        (openResult (k + 1) = true → result.sidecars[k]? = reference.sidecars[k]?) ∧
        ∃ bytes, reference.sidecars[k]? = some (some bytes) ∧
          sidecarFile computePitch encodeDDSHeader stem sorted[k] = some bytes := by
  have hperm := hsort.1
  have hdef2 := sidecarsDefined_perm encodeDDSHeader hperm hdef
  have hrange : PixelsInRange sorted := fun t ht => (hdef2 t ht).1
  obtain ⟨out, hout, hrun⟩ := runSorted_opened computePitch encodeDDSHeader ntspFilePath stem
    openResult sorted hpackage hrange hdef2
  obtain ⟨ref, href, hrunref⟩ := runSorted_opened computePitch encodeDDSHeader ntspFilePath stem
    (fun _ => true) sorted rfl hrange hdef2
  obtain ⟨out2, hout2, hlen, hget⟩ := sidecarLoop_spec computePitch encodeDDSHeader stem
    openResult sorted 1 hdef2
  obtain ⟨ref2, href2, _, hgetref⟩ := sidecarLoop_spec computePitch encodeDDSHeader stem
    (fun _ => true) sorted 1 hdef2
  rw [hout] at hout2
  rw [href] at href2
  cases hout2
  cases href2
  refine ⟨_, _, (runWith_loaded _ _ _ _ _ _ _ _ hfiles hpath hloaded).trans hrun,
    (runWith_loaded _ _ _ _ _ _ _ _ hfiles hpath hloaded).trans hrunref, rfl, rfl, rfl,
    by rw [hlen, hperm.length_eq], hperm.length_eq, ?_⟩
  intro k hk
  obtain ⟨h1, bytes, hbytes⟩ := hget k hk
  obtain ⟨h2, _⟩ := hgetref k hk
  simp only [if_true] at h2
  rw [Nat.add_comm 1 k] at h1
  refine ⟨?_, ?_, bytes, ?_, hbytes⟩
  · intro hfail
    simp only [h1, hfail]
    rfl
  · intro hok
    simp only [h1, hok, h2, if_true]
  · simp only [h2, hbytes]

/-- Witness of C16: the files `Aa.dds` and `BB.dds` have the same hash; in the
run in which the sort leaves `BB` before `Aa`, which is not the order of
`sortTextures`, the sidecar of `BB` does not open and `Aa` gets its sidecar. -/
theorem C16_witness :
    (collidingFiles ≠ [] ∧ [112] ≠ ([] : List Nat) ∧ loadTextures true collidingFiles ≠ [] ∧
      SortOutcome (loadTextures true collidingFiles) (loadTextures true collidingFiles).reverse ∧
      (loadTextures true collidingFiles).reverse
        ≠ sortTextures (loadTextures true collidingFiles) ∧
      SidecarsDefined fullEncoder (loadTextures true collidingFiles) ∧
      firstSidecarFails 0 = true ∧ firstSidecarFails 1 = false ∧ firstSidecarFails 2 = true) ∧
    ∃ result, runWith true bytePitch fullEncoder collidingFiles [112] [80] firstSidecarFails
        (loadTextures true collidingFiles).reverse = some result ∧
      result.exitCode = 0 ∧
      result.attempts = [[112], [66, 66, 46, 100, 100, 115], [65, 97, 46, 100, 100, 115]] ∧
      result.sidecars[0]? = some none ∧
      ∃ bytes, result.sidecars[1]? = some (some bytes) := by
  have hpix : ∀ t ∈ loadTextures true collidingFiles, ∀ level ∈ t.image.images,
      level.slicePitch ≤ level.pixels.length := by decide
  have hdef : SidecarsDefined fullEncoder (loadTextures true collidingFiles) :=
    fun t ht => ⟨hpix t ht, fun _ => by simp [fullEncoder], fun _ => by simp [fullEncoder]⟩
  have hsort : SortOutcome (loadTextures true collidingFiles)
      (loadTextures true collidingFiles).reverse :=
    ⟨List.reverse_perm _, by decide⟩
  obtain ⟨result, reference, hrun, _, hexit, _, hatt, _, _, hside⟩ :=
    C16_sidecar_open_failure_is_local true bytePitch fullEncoder collidingFiles [112] [80]
      firstSidecarFails _ (by decide) (by decide) (by decide) hsort hdef rfl
  obtain ⟨h0, _, _⟩ := hside 0 (by decide)
  obtain ⟨_, h1, bytes, hb, _⟩ := hside 1 (by decide)
  refine ⟨⟨by decide, by decide, by decide, hsort, by decide, hdef, rfl, rfl, rfl⟩, result,
    hrun, hexit, ?_, h0 rfl, bytes, ?_⟩
  · rw [hatt]; decide
  · rw [h1 rfl, hb]

/-- C17: when the package file cannot be opened the run returns -1, the only
call of `_wfopen` is the one for the package, and no sidecar is written; when no
texture was loaded the run returns -1 without any call of `_wfopen`. -/
theorem C17_fatal_failures (charIsSigned : Bool) (computePitch : Nat → Nat → Nat → Nat)
    (encodeDDSHeader : TexMetadata → Nat → EncodeResult) (files : List SourceFile)
    (ntspFilePath stem : List Nat) (openResult : Nat → Bool) :
    (files ≠ [] → ntspFilePath ≠ [] → loadTextures charIsSigned files ≠ [] →
      openResult 0 = false →
      run charIsSigned computePitch encodeDDSHeader files ntspFilePath stem openResult = some
        { exitCode := -1, attempts := [ntspFilePath], package := none, sidecars := [] }) ∧
    (loadTextures charIsSigned files = [] →
      run charIsSigned computePitch encodeDDSHeader files ntspFilePath stem openResult = some
        { exitCode := -1, attempts := [], package := none, sidecars := [] }) := by
  constructor
  · intro hfiles hpath hloaded hopen
    rw [run_loaded _ _ _ _ _ _ _ hfiles hpath hloaded]
    exact runSorted_not_opened _ _ _ _ _ _ hopen
  · intro hloaded
    unfold run
    split
    · rfl
    · simp [hloaded]

/-- Witness of C17: a run in which no file opens, and a run on a file that fails
to load. -/
theorem C17_witness :
    (sampleFiles ≠ [] ∧ [112] ≠ ([] : List Nat) ∧ loadTextures true sampleFiles ≠ [] ∧
      nothingOpens 0 = false ∧ loadTextures true unloadableFiles = []) ∧
    run true bytePitch fullEncoder sampleFiles [112] [80] nothingOpens = some
      { exitCode := -1, attempts := [[112]], package := none, sidecars := [] } ∧
    run true bytePitch fullEncoder unloadableFiles [112] [80] (fun _ => true) = some
      { exitCode := -1, attempts := [], package := none, sidecars := [] } :=
  ⟨⟨by decide, by decide, by decide, rfl, rfl⟩,
    (C17_fatal_failures true bytePitch fullEncoder sampleFiles [112] [80] nothingOpens).1
      (by decide) (by decide) (by decide) rfl,
    (C17_fatal_failures true bytePitch fullEncoder unloadableFiles [112] [80]
      (fun _ => true)).2 rfl⟩

end NtspMaker
